import Mathlib

/-!
# DHT: a ring-overlay store (Go), shallow embedding

The development follows the packages of the repository:

* `communication/converter.go`: the frame codec (`encodeMessage`, `ReadMessage`, the five
  builders);
* `peer/peer.go`: a node's store / retrieve / forward decision and its log file;
* `bootstrap/bootstrap.go`: the coordinator's sorted ring, neighbour computation and
  notifications;
* `main.go`: the dispatch loop that connects received frames to the handlers.

Conventions of the embedding.

* A Go `byte` is `Fin 256`; a Go `string` and a `[]byte` are lists of bytes (Go strings are byte
  sequences, and `p.ID[1:]` is a byte slice).
* A Go `int` is an `Int`. The program only compares, formats and parses them, so no wrap-around
  arithmetic occurs; where the 64-bit range matters (`strconv.Atoi` clamps) it is a hypothesis
  `IsInt64`.
* A `uint32` is a `Nat` reduced `% 2 ^ 32` where the program converts to it.
* `encoding/gob` is not part of the repository: it is a parameter `Gob` of every definition that
  serializes. Results that need it to behave say so in a hypothesis.
* Goroutines and TCP connections are not modelled: a handler returns the list of frames it hands
  to `SendMessage`, in program order. Output printed with `fmt.Println` is not modelled.
-/

namespace DHT

/-! ## Bytes and strings -/

/-- A Go `byte`. -/
abbrev Byte := Fin 256

/-- A Go `[]byte`. -/
abbrev Bytes := List Byte

/-- A Go `string`: a sequence of bytes. -/
abbrev GoString := List Byte

/-- The bytes of an ASCII literal. -/
def str (s : String) : GoString := s.toList.map (fun c => Fin.ofNat c.toNat)

/-- The byte `'n'`. -/
def chN : Byte := 110
/-- The byte `':'`. -/
def chColon : Byte := 58
/-- The byte `'-'`. -/
def chMinus : Byte := 45
/-- The byte `'+'`. -/
def chPlus : Byte := 43
/-- The byte `'0'`. -/
def chZero : Byte := 48
/-- The byte `'\n'`. -/
def chNewline : Byte := 10
/-- The byte `'\r'`. -/
def chCR : Byte := 13

/-- The range of a Go `int` on a 64-bit platform. -/
def IsInt64 (x : Int) : Prop := -(2 : Int) ^ 63 ≤ x ∧ x < (2 : Int) ^ 63

instance (x : Int) : Decidable (IsInt64 x) := by
  unfold IsInt64
  exact inferInstance

/-! ## `strconv` and `fmt` on integers -/

/-- The outcome of `strconv.ParseUint` / `ParseInt`: a value, a syntax error (value 0), or a
range error (value clamped). -/
inductive NumResult (α : Type)
  | ok (n : α)
  | errSyntax
  | errRange (clamped : α)
  deriving DecidableEq, Repr

/-- The largest `uint64`. -/
def maxUint64 : Nat := 2 ^ 64 - 1

/-- The loop of `strconv.ParseUint(s, 10, 64)`: one decimal digit at a time, with the two
overflow checks of the library (`n >= cutoff` before the multiplication, wrap-around or
`n1 > maxVal` after the addition). The arithmetic is `uint64`, hence `% 2 ^ 64`. -/
def parseUintLoop : Bytes → Nat → NumResult Nat
  | [], n => .ok n
  | c :: cs, n =>
    if 48 ≤ c.val ∧ c.val ≤ 57 then
      let d := c.val - 48
      let cutoff := maxUint64 / 10 + 1
      if n ≥ cutoff then .errRange maxUint64
      else
        let n10 := (n * 10) % 2 ^ 64
        let n1 := (n10 + d) % 2 ^ 64
        if n1 < n10 ∨ n1 > maxUint64 then .errRange maxUint64
        else parseUintLoop cs n1
    else .errSyntax

/-- The function `strconv.ParseUint(s, 10, 64)`: the empty string is a syntax error. -/
def ParseUint (s : Bytes) : NumResult Nat :=
  match s with
  | [] => .errSyntax
  | _ => parseUintLoop s 0

/-- The function `strconv.ParseInt(s, 10, 0)` with a 64-bit `int`: an optional sign, then
`ParseUint`; the magnitude is clamped to the `int64` range with a range error. -/
def ParseInt (s : Bytes) : NumResult Int :=
  match s with
  | [] => .errSyntax
  | c :: cs =>
    let neg := decide (c = chMinus)
    let digits := if c = chPlus ∨ c = chMinus then cs else s
    match ParseUint digits with
    | .errSyntax => .errSyntax
    | .ok un | .errRange un =>
      let cutoff : Nat := 2 ^ 63
      if !neg ∧ un ≥ cutoff then .errRange ((cutoff : Int) - 1)
      else if neg ∧ un > cutoff then .errRange (-(cutoff : Int))
      else .ok (if neg then -(un : Int) else (un : Int))

/-- The value of `n, _ := strconv.Atoi(s)`: the parsed number, 0 after a syntax error, the
clamped value after a range error. (`Atoi` has a fast path for short strings that computes the
same value as `ParseInt(s, 10, 0)`.) -/
def Atoi (s : GoString) : Int :=
  match ParseInt s with
  | .ok n => n
  | .errSyntax => 0
  | .errRange n => n

/-- The decimal digits of `n`, most significant first, in front of `acc`; `fuel` bounds the
number of digits. -/
def fmtNatAux : Nat → Nat → Bytes → Bytes
  | 0, _, acc => acc
  | fuel + 1, n, acc =>
    let d : Byte := Fin.ofNat (48 + n % 10)
    if n / 10 = 0 then d :: acc else fmtNatAux fuel (n / 10) (d :: acc)

/-- The decimal representation of a natural number (`%d` of a non-negative value). -/
def fmtNat (n : Nat) : Bytes := fmtNatAux (n + 1) n []

/-- The output of `fmt.Sprintf("%d", x)`. -/
def fmtInt (x : Int) : GoString :=
  if x < 0 then chMinus :: fmtNat (-x).toNat else fmtNat x.toNat

/-- The function `strings.TrimPrefix(s, "n")`. -/
def TrimPrefixN (s : GoString) : GoString :=
  match s with
  | c :: rest => if c = chN then rest else s
  | [] => []

/-- Puts a byte in front of the first piece of a split. -/
def consHead (c : Byte) : List Bytes → List Bytes
  | [] => [[c]]
  | p :: ps => (c :: p) :: ps

/-- The function `strings.Split(s, "::")`: the pieces between the non-overlapping occurrences of
the separator, found left to right. -/
def SplitColons : GoString → List GoString
  | [] => [[]]
  | [c] => [[c]]
  | c :: d :: rest =>
    if c = chColon ∧ d = chColon then [] :: SplitColons rest
    else consHead c (SplitColons (d :: rest))

/-- Removes one trailing `'\r'` (`dropCR` of `bufio`). -/
def dropCR (line : Bytes) : Bytes :=
  if line.getLast? = some chCR then line.dropLast else line

/-- The lines of a file as `bufio.ScanLines` cuts them: at every `'\n'`, a final unterminated
line included when it is not empty. -/
def rawLines (data : Bytes) : List Bytes :=
  data.foldr
    (fun b acc => if b = chNewline then [] :: acc else consHead b acc) []

/-- The constant `bufio.MaxScanTokenSize`. -/
def MaxScanTokenSize : Nat := 64 * 1024

/-- The lines that `for scanner.Scan() { scanner.Text() }` yields over a file: scanning stops
(with `ErrTooLong`) at the first line that does not fit the scanner's buffer. -/
def scanLines (data : Bytes) : List GoString :=
  ((rawLines data).takeWhile (fun l => decide (l.length < MaxScanTokenSize))).map dropCR

/-! ## `communication/converter.go`: the frame codec -/

/-- The errors the codec returns. `gob` stands for any error of `encoding/gob`. -/
inductive GoError
  | EOF
  | ErrUnexpectedEOF
  | unknownMessageType
  | gob (code : Nat)
  deriving DecidableEq, Repr

deriving instance DecidableEq for Except

/-- The type `MessageType` (`uint8`). -/
abbrev MessageType := Byte
/-- The type `OperationType` (`uint8`). -/
abbrev OperationType := Byte

def JOIN : MessageType := 0
def RING : MessageType := 1
def REQUEST : MessageType := 2
def OBJ_STORED : MessageType := 3
def OBJ_RETRIEVED : MessageType := 4

def STORE : OperationType := 0
def RETRIEVE : OperationType := 1

/-- The struct `MessageHeader`; `Length` is a `uint32`. -/
structure MessageHeader where
  MsgType : MessageType
  Length : Nat
  deriving DecidableEq, Repr

structure JoinMessage where
  PeerID : GoString
  deriving DecidableEq, Repr

structure RingInformation where
  Predecessor : GoString
  Successor : GoString
  deriving DecidableEq, Repr

structure RequestMessage where
  ReqID : Int
  OperationType : OperationType
  ObjectID : Int
  ClientID : Int
  deriving DecidableEq, Repr

structure ObjectStoredMessage where
  PeerId : GoString
  ObjectID : Int
  ClientID : Int
  deriving DecidableEq, Repr

/-- The struct `ObjectRetrievedMessage`. Its field `ObjectId` is declared `interface{}`; every
caller in the repository puts an `int` there, and that is the dynamic type modelled. -/
structure ObjectRetrievedMessage where
  Status : Int
  ObjectId : Int
  deriving DecidableEq, Repr

/-- The field `Payload interface{}` of a `Message`: one of the five registered records. -/
inductive Payload
  | join (m : JoinMessage)
  | ring (m : RingInformation)
  | request (m : RequestMessage)
  | objStored (m : ObjectStoredMessage)
  | objRetrieved (m : ObjectRetrievedMessage)
  deriving DecidableEq, Repr

structure Message where
  Header : MessageHeader
  Payload : Payload
  deriving DecidableEq, Repr

/-- The serializer `encoding/gob`, which is outside the repository: `Encode` is
`gob.NewEncoder(buf).Encode(data)` followed by `buf.Bytes()`, and each `Decode…` is
`gob.NewDecoder(bytes.NewReader(b)).Decode(ptr)` for a pointer to the empty record of that
kind. -/
structure Gob where
  Encode : Payload → Except GoError Bytes
  DecodeJoin : Bytes → Except GoError JoinMessage
  DecodeRing : Bytes → Except GoError RingInformation
  DecodeRequest : Bytes → Except GoError RequestMessage
  DecodeObjectStored : Bytes → Except GoError ObjectStoredMessage
  DecodeObjectRetrieved : Bytes → Except GoError ObjectRetrievedMessage

/-- The conversion `uint32(x)`. -/
def uint32 (x : Int) : Nat := (x % 2 ^ 32).toNat

/-- The function `binary.LittleEndian.PutUint32`, as `binary.Write` applies it to a `uint32`. -/
def PutUint32 (v : Nat) : Bytes :=
  [Fin.ofNat (v % 256), Fin.ofNat (v / 256 % 256), Fin.ofNat (v / 65536 % 256),
   Fin.ofNat (v / 16777216 % 256)]

/-- The function `binary.LittleEndian.Uint32` on a 4-byte slice. -/
def Uint32 (b : Bytes) : Nat :=
  (b.getD 0 0).val + (b.getD 1 0).val * 256 + (b.getD 2 0).val * 65536
    + (b.getD 3 0).val * 16777216

/-- The function `EncodeToBinary`. -/
def EncodeToBinary (g : Gob) (data : Payload) : Except GoError Bytes :=
  g.Encode data

/-- The function `encodeMessage`: tag byte, `uint32(len(payloadBytes))` little-endian, payload.
Writes to a `bytes.Buffer` do not fail. -/
def encodeMessage (g : Gob) (msg : Message) : Except GoError Bytes :=
  match EncodeToBinary g msg.Payload with
  | .error err => .error err
  | .ok payloadBytes =>
    .ok ([msg.Header.MsgType] ++ PutUint32 (uint32 payloadBytes.length) ++ payloadBytes)

/-- The function `io.ReadFull(conn, buf)` with `len(buf) = n`, on a connection that delivers
`conn` and then ends: the `n` bytes read and the rest of the stream, or `EOF` when nothing could
be read and `ErrUnexpectedEOF` when only a part could. -/
def ReadFull (conn : Bytes) (n : Nat) : Except GoError (Bytes × Bytes) :=
  if n ≤ conn.length then .ok (conn.take n, conn.drop n)
  else if conn = [] then .error .EOF
  else .error .ErrUnexpectedEOF

/-- The function `DecodeFromBinary` as `ReadMessage` calls it: the target record is chosen by the
type tag; a tag outside the five registered ones is the `default` branch of the switch. -/
def decodePayload (g : Gob) (t : MessageType) (payloadBytes : Bytes) :
    Except GoError Payload :=
  if t = JOIN then (g.DecodeJoin payloadBytes).map Payload.join
  else if t = RING then (g.DecodeRing payloadBytes).map Payload.ring
  else if t = REQUEST then (g.DecodeRequest payloadBytes).map Payload.request
  else if t = OBJ_STORED then (g.DecodeObjectStored payloadBytes).map Payload.objStored
  else if t = OBJ_RETRIEVED then
    (g.DecodeObjectRetrieved payloadBytes).map Payload.objRetrieved
  else .error .unknownMessageType

/-- The function `ReadMessage`: the message read from the front of the stream `conn`, and the
stream that remains. -/
def ReadMessage (g : Gob) (conn : Bytes) : Except GoError (Message × Bytes) :=
  match ReadFull conn 5 with
  | .error err => .error err
  | .ok (headerBytes, conn1) =>
    let header : MessageHeader :=
      { MsgType := headerBytes.getD 0 0, Length := Uint32 (headerBytes.drop 1) }
    match ReadFull conn1 header.Length with
    | .error err => .error err
    | .ok (payloadBytes, conn2) =>
      match decodePayload g header.MsgType payloadBytes with
      | .error err => .error err
      | .ok payload => .ok ({ Header := header, Payload := payload }, conn2)

/-- The value of `binary.Size(v)` for the five records: each has a `string`, `int` or interface
field, which `encoding/binary` cannot size, so the result is -1. -/
def binarySize (_ : Payload) : Int := -1

def GetJoinMessage (g : Gob) (peerID : GoString) : Except GoError Bytes :=
  let joinMsg : Payload := .join { PeerID := peerID }
  encodeMessage g
    { Header := { MsgType := JOIN, Length := uint32 (binarySize joinMsg) }, Payload := joinMsg }

def GetRingMessage (g : Gob) (predecessor successor : GoString) : Except GoError Bytes :=
  let ringInfo : Payload := .ring { Predecessor := predecessor, Successor := successor }
  encodeMessage g
    { Header := { MsgType := RING, Length := uint32 (binarySize ringInfo) },
      Payload := ringInfo }

def GetRequestMessage (g : Gob) (reqID : Int) (operationType : OperationType)
    (objectID clientID : Int) : Except GoError Bytes :=
  let reqMsg : Payload := .request
    { ReqID := reqID, OperationType := operationType, ObjectID := objectID,
      ClientID := clientID }
  encodeMessage g
    { Header := { MsgType := REQUEST, Length := uint32 (binarySize reqMsg) },
      Payload := reqMsg }

def GetObjectStoredMessage (g : Gob) (peerID : GoString) (objectID clientID : Int) :
    Except GoError Bytes :=
  let objStoredMsg : Payload := .objStored
    { PeerId := peerID, ObjectID := objectID, ClientID := clientID }
  encodeMessage g
    { Header := { MsgType := OBJ_STORED, Length := uint32 (binarySize objStoredMsg) },
      Payload := objStoredMsg }

def GetObjectRetrievedMessage (g : Gob) (status objectID : Int) : Except GoError Bytes :=
  let objRetrievedMsg : Payload := .objRetrieved { Status := status, ObjectId := objectID }
  encodeMessage g
    { Header := { MsgType := OBJ_RETRIEVED, Length := uint32 (binarySize objRetrievedMsg) },
      Payload := objRetrievedMsg }

/-! ## `peer/peer.go`: a node -/

/-- The struct `Peer` (without its communicator and mutex). -/
structure Peer where
  ID : GoString
  Predecessor : GoString
  Successor : GoString
  StoreFilePath : GoString
  bootstrapAddress : GoString
  deriving DecidableEq, Repr

/-- The file at `StoreFilePath`, and how the file operations on it turn out: `content` is `none`
while the file does not exist; the three flags say whether `os.OpenFile` (append, create),
`file.WriteString` and `os.Open` of an existing file succeed. -/
structure StoreFile where
  content : Option Bytes
  openAppendOk : Bool
  writeOk : Bool
  openReadOk : Bool
  deriving DecidableEq, Repr

/-- A call `communicator.SendMessage(to, message)`; `dest` is its argument `to`. -/
structure Send where
  dest : GoString
  message : Bytes
  deriving DecidableEq, Repr

/-- The function `NewPeer`: the links are the empty string until the first RingInfo. -/
def NewPeer (id storeFilePath bootstrapAddress : GoString) : Peer :=
  { ID := id, Predecessor := [], Successor := [], StoreFilePath := storeFilePath,
    bootstrapAddress := bootstrapAddress }

/-- The method `JoinNetwork`. -/
def JoinNetwork (g : Gob) (p : Peer) (bootstrapAddress : GoString) : List Send :=
  match GetJoinMessage g p.ID with
  | .ok byteMessage => [{ dest := bootstrapAddress, message := byteMessage }]
  | .error _ => []

/-- The method `UpdateLinks`. -/
def UpdateLinks (p : Peer) (predecessor successor : GoString) : Peer :=
  { p with Predecessor := predecessor, Successor := successor }

/-- The method `GetNeighbors`. -/
def Peer.GetNeighbors (p : Peer) : GoString × GoString :=
  (p.Predecessor, p.Successor)

/-- The method `ForwardRequest`. -/
def ForwardRequest (g : Gob) (p : Peer) (reqID clientID objectID : Int)
    (operationType : OperationType) : List Send :=
  let successor := p.Successor
  if successor = [] then []
  else
    match GetRequestMessage g reqID operationType objectID clientID with
    | .ok requestMessage => [{ dest := successor, message := requestMessage }]
    | .error _ => []

/-- The line `fmt.Sprintf("%d::%d\n", clientID, objectID)`. -/
def storeEntry (clientID objectID : Int) : GoString :=
  fmtInt clientID ++ [chColon, chColon] ++ fmtInt objectID ++ [chNewline]

/-- The method `StoreObject`: the store file afterwards and the frames sent. The result is `none`
when `p.ID[1:]` panics (empty identifier). -/
def StoreObject (g : Gob) (p : Peer) (f : StoreFile) (reqID clientID objectID : Int) :
    Option (StoreFile × List Send) :=
  match p.ID with
  | [] => none
  | _ :: idDigits =>
    let nodeId := Atoi idDigits
    if objectID ≤ nodeId then
      if f.openAppendOk = false then some (f, [])
      else
        -- O_CREATE: the file exists from here on
        let opened : StoreFile := { f with content := some (f.content.getD []) }
        if f.writeOk = false then some (opened, [])
        else
          let written : StoreFile :=
            { f with content := some (f.content.getD [] ++ storeEntry clientID objectID) }
          match GetObjectStoredMessage g p.ID objectID clientID with
          | .ok byteMessage =>
            some (written, [{ dest := p.bootstrapAddress, message := byteMessage }])
          | .error _ => some (written, [])
    else some (f, ForwardRequest g p reqID clientID objectID STORE)

/-- The scanning loop of `RetrieveObject` over the lines of the store file, and the code after
the loop: the first line that splits in two parts parsing to `(clientID, objectID)` is answered
with status 1 (the loop goes on when that message cannot be encoded); when the lines are
exhausted the answer is status -1. -/
def retrieveScan (g : Gob) (p : Peer) (clientID objectID : Int) : List GoString → List Send
  | [] =>
    match GetObjectRetrievedMessage g (-1) objectID with
    | .ok byteMessage => [{ dest := p.bootstrapAddress, message := byteMessage }]
    | .error _ => []
  | line :: rest =>
    match SplitColons line with
    | [part0, part1] =>
      let savedClientID := Atoi part0
      let savedObjectID := Atoi part1
      if savedClientID = clientID ∧ savedObjectID = objectID then
        match GetObjectRetrievedMessage g 1 objectID with
        | .ok byteMessage => [{ dest := p.bootstrapAddress, message := byteMessage }]
        | .error _ => retrieveScan g p clientID objectID rest
      else retrieveScan g p clientID objectID rest
    | _ => retrieveScan g p clientID objectID rest

/-- The method `RetrieveObject`: the frames sent (the store file is only read). The result is
`none` when `p.ID[1:]` panics. -/
def RetrieveObject (g : Gob) (p : Peer) (f : StoreFile) (reqID clientID objectID : Int) :
    Option (List Send) :=
  match p.ID with
  | [] => none
  | _ :: idDigits =>
    let nodeId := Atoi idDigits
    if objectID ≤ nodeId then
      match (if f.openReadOk then f.content else none) with
      | none => some []
      | some data => some (retrieveScan g p clientID objectID (scanLines data))
    else some (ForwardRequest g p reqID clientID objectID RETRIEVE)

/-! ## `bootstrap/bootstrap.go`: the coordinator's ring -/

/-- The struct `Bootstrap` (without its communicator and mutex). -/
structure Bootstrap where
  peers : List GoString
  deriving DecidableEq, Repr

/-- The function `NewBootstrap`. -/
def NewBootstrap : Bootstrap := { peers := [] }

/-- The method `GetFirstPeer`: `b.peers[0]`, which panics on the empty ring (`none`). -/
def GetFirstPeer (b : Bootstrap) : Option GoString := b.peers.head?

/-- The function `extractNumber`. -/
def extractNumber (peerID : GoString) : Int := Atoi (TrimPrefixN peerID)

/-- The inner loop of Go's insertion sort, `for j := i; j > a && less(data[j], data[j-1]); j--`
with a swap in its body: the entry `x` travels left past every entry it is less than. The sorted
part of the slice is held in reverse (nearest neighbour first), and so is the result. -/
def sinkLeft {α : Type} (less : α → α → Bool) (x : α) : List α → List α
  | [] => [x]
  | y :: ys => if less x y then y :: sinkLeft less x ys else x :: y :: ys

/-- The function `sort.Slice(data, less)`, as the insertion sort that Go's `sort` package runs
on short slices. On longer slices it runs a quicksort variant, which is not stable: its result
is a sorted permutation as well, and is this very list whenever no two entries compare
equal. -/
def sortSlice {α : Type} (less : α → α → Bool) (data : List α) : List α :=
  (data.foldl (fun sortedRev x => sinkLeft less x sortedRev) []).reverse

/-- The loop of `sort.Search`: `for i < j { h := (i+j)/2; if !f(h) { i = h+1 } else { j = h } }`.
Every iteration shrinks `j - i`, which `fuel` bounds. -/
def searchLoop (f : Nat → Bool) : Nat → Nat → Nat → Nat
  | 0, i, _ => i
  | fuel + 1, i, j =>
    if i < j then
      let h := (i + j) / 2
      if !f h then searchLoop f fuel (h + 1) j else searchLoop f fuel i h
    else i

/-- The function `sort.Search(n, f)`. -/
def Search (n : Nat) (f : Nat → Bool) : Nat := searchLoop f n 0 n

/-- The method `getIndex`: the binary search for the first entry whose key is at least that of
`peerID`. -/
def getIndex (b : Bootstrap) (peerID : GoString) : Nat :=
  Search b.peers.length
    (fun i => decide (extractNumber (b.peers.getD i []) ≥ extractNumber peerID))

/-- The method `getNeighbors`. It panics (`none`) on the empty ring, where `% n` divides by
zero. With `n ≥ 1` and `index ≥ 0` the Go expression `(index-1+n)%n` is `(index+n-1)%n` on
natural numbers. -/
def getNeighbors (b : Bootstrap) (index : Nat) : Option (GoString × GoString) :=
  let n := b.peers.length
  if n = 1 then
    match b.peers[0]? with
    | some p0 => some (p0, p0)
    | none => none
  else if n = 0 then none
  else
    match b.peers[(index + n - 1) % n]?, b.peers[(index + 1) % n]? with
    | some predecessor, some successor => some (predecessor, successor)
    | _, _ => none

/-- The method `RegisterPeer` up to the `go b.notifyNeighbors(peerID, predecessor, successor)`
it ends with: the ring afterwards and the arguments of that call. -/
def RegisterPeer (b : Bootstrap) (peerID : GoString) :
    Option (Bootstrap × GoString × GoString) :=
  let appended := b.peers ++ [peerID]
  let b1 : Bootstrap :=
    { peers := sortSlice (fun x y => decide (extractNumber x < extractNumber y)) appended }
  let index := Search b1.peers.length
    (fun i => decide (extractNumber (b1.peers.getD i []) ≥ extractNumber peerID))
  match getNeighbors b1 index with
  | some (predecessor, successor) => some (b1, predecessor, successor)
  | none => none

/-- One `GetRingMessage` + `SendMessage` pair of `notifyNeighbors`. -/
def sendRing (g : Gob) (dest predecessor successor : GoString) : List Send :=
  match GetRingMessage g predecessor successor with
  | .ok ringMessage => [{ dest := dest, message := ringMessage }]
  | .error _ => []

/-- The method `notifyNeighbors`, run on the ring `b` as it stands when the goroutine runs: the
frames sent, in program order (`none` when `getNeighbors` panics). -/
def notifyNeighbors (g : Gob) (b : Bootstrap) (peerID predecessor successor : GoString) :
    Option (List Send) :=
  let toNew := sendRing g peerID predecessor successor
  let toPredecessor : Option (List Send) :=
    if predecessor ≠ peerID then
      match getNeighbors b (getIndex b predecessor) with
      | some (predecessorPredecessor, predecessorSuccessor) =>
        some (sendRing g predecessor predecessorPredecessor predecessorSuccessor)
      | none => none
    else some []
  let toSuccessor : Option (List Send) :=
    if successor ≠ peerID ∧ successor ≠ predecessor then
      match getNeighbors b (getIndex b successor) with
      | some (successorPredecessor, successorSuccessor) =>
        some (sendRing g successor successorPredecessor successorSuccessor)
      | none => none
    else some []
  match toPredecessor, toSuccessor with
  | some s1, some s2 => some (toNew ++ s1 ++ s2)
  | _, _ => none

/-! ## `main.go`: the dispatch loop of a peer process, and the ring of processes -/

/-- A peer process: the `Peer` object and its store file. -/
structure Node where
  peer : Peer
  file : StoreFile
  deriving DecidableEq, Repr

/-- One iteration of the loop `for message := range incomingMessagesCh` in a peer process. A
`Join` makes a peer process panic (its `bootstrapObject` is nil); `ObjectStored` and
`ObjectRetrieved` are only printed. -/
def handleMessage (g : Gob) (n : Node) (message : Message) : Option (Node × List Send) :=
  match message.Payload with
  | .join _ => if message.Header.MsgType = JOIN then none else some (n, [])
  | .ring payload =>
    if message.Header.MsgType = RING then
      some ({ n with peer := UpdateLinks n.peer payload.Predecessor payload.Successor }, [])
    else some (n, [])
  | .request payload =>
    if message.Header.MsgType = REQUEST then
      if payload.OperationType = STORE then
        match StoreObject g n.peer n.file payload.ReqID payload.ClientID payload.ObjectID with
        | some (file, sends) => some ({ n with file := file }, sends)
        | none => none
      else if payload.OperationType = RETRIEVE then
        match RetrieveObject g n.peer n.file payload.ReqID payload.ClientID
            payload.ObjectID with
        | some sends => some (n, sends)
        | none => none
      else some (n, [])
    else some (n, [])
  | .objStored _ => some (n, [])
  | .objRetrieved _ => some (n, [])

/-- A frame arrives at a peer process: `ReadMessage` in the connection's goroutine, then the
dispatch loop. A frame that cannot be read is logged and dropped. -/
def receive (g : Gob) (n : Node) (frame : Bytes) : Option (Node × List Send) :=
  match ReadMessage g frame with
  | .error _ => some (n, [])
  | .ok (message, _) => handleMessage g n message

/-- The relay of the coordinator's dispatch loop for a `Request`: it is re-encoded and sent to
`GetFirstPeer()` (`none` when that panics on the empty ring). -/
def relayRequest (g : Gob) (b : Bootstrap) (payload : RequestMessage) : Option (List Send) :=
  match GetRequestMessage g payload.ReqID payload.OperationType payload.ObjectID
      payload.ClientID with
  | .error _ => some []
  | .ok requestMessage =>
    match GetFirstPeer b with
    | some first => some [{ dest := first, message := requestMessage }]
    | none => none

/-- The peer processes with the frames between them: `pending` holds the frames handed to
`SendMessage` and not yet delivered, oldest first; `outside` the frames delivered to addresses
that are no peer process (the coordinator); `trace` the peers that received a frame, oldest
first. -/
structure Network where
  nodes : List Node
  pending : List Send
  outside : List Send
  trace : List GoString
  deriving DecidableEq, Repr

/-- Replaces the first node named `id`. -/
def setNode (id : GoString) (n : Node) : List Node → List Node
  | [] => []
  | m :: ms => if m.peer.ID = id then n :: ms else m :: setNode id n ms

/-- Delivers the oldest pending frame (`none` when the receiving process panics). -/
def Network.step (g : Gob) (net : Network) : Option Network :=
  match net.pending with
  | [] => some net
  | s :: rest =>
    match net.nodes.find? (fun m => decide (m.peer.ID = s.dest)) with
    | none => some { net with pending := rest, outside := net.outside ++ [s] }
    | some n =>
      match receive g n s.message with
      | none => none
      | some (n1, sends) =>
        some { nodes := setNode s.dest n1 net.nodes, pending := rest ++ sends,
               outside := net.outside, trace := net.trace ++ [s.dest] }

/-- Runs `k` deliveries. -/
def Network.run (g : Gob) : Nat → Network → Option Network
  | 0, net => some net
  | k + 1, net =>
    match net.step g with
    | some net1 => Network.run g k net1
    | none => none

/-! ## A concrete serializer

`encoding/gob` is a parameter of the development. To evaluate the definitions on concrete inputs
a serializer is needed: `plainGob` writes an `int` as 8 little-endian bytes (two's complement)
and a `string` as its length in 8 bytes followed by its bytes, and like `gob` it rejects a
payload that is cut short or has bytes left over. It is used at concrete inputs only. -/

/-- The number held by little-endian bytes. -/
def leValue (b : Bytes) : Nat := b.foldr (fun x acc => x.val + 256 * acc) 0

/-- The 8 little-endian bytes of `v % 2 ^ 64`. -/
def putUint64 (v : Nat) : Bytes :=
  (List.range 8).map (fun i => (Fin.ofNat (v / 256 ^ i % 256) : Byte))

/-- The 8 bytes of an `int` in two's complement. -/
def putInt64 (x : Int) : Bytes := putUint64 (x % 2 ^ 64).toNat

/-- Reads an `int` from the front of `b`. -/
def takeInt64 (b : Bytes) : Option (Int × Bytes) :=
  if b.length < 8 then none
  else
    let u := leValue (b.take 8)
    some (if u < 2 ^ 63 then (u : Int) else (u : Int) - 2 ^ 64, b.drop 8)

/-- Writes a length-prefixed `string`. -/
def putString (s : GoString) : Bytes := putUint64 s.length ++ s

/-- Reads a length-prefixed `string` from the front of `b`. -/
def takeString (b : Bytes) : Option (GoString × Bytes) :=
  if b.length < 8 then none
  else
    let n := leValue (b.take 8)
    let r := b.drop 8
    if r.length < n then none else some (r.take n, r.drop n)

/-- The result of a decoder that must have consumed the whole payload. -/
def finishDecode {α : Type} (r : Option (α × Bytes)) : Except GoError α :=
  match r with
  | some (a, []) => .ok a
  | _ => .error (.gob 1)

/-- The concrete serializer. -/
def plainGob : Gob where
  Encode
    | .join m => .ok (putString m.PeerID)
    | .ring m => .ok (putString m.Predecessor ++ putString m.Successor)
    | .request m =>
      .ok (putInt64 m.ReqID ++ [m.OperationType] ++ putInt64 m.ObjectID ++ putInt64 m.ClientID)
    | .objStored m => .ok (putString m.PeerId ++ putInt64 m.ObjectID ++ putInt64 m.ClientID)
    | .objRetrieved m => .ok (putInt64 m.Status ++ putInt64 m.ObjectId)
  DecodeJoin b := finishDecode ((takeString b).map (fun (s, r) => ({ PeerID := s }, r)))
  DecodeRing b := finishDecode do
    let (p, r1) ← takeString b
    let (q, r2) ← takeString r1
    pure ({ Predecessor := p, Successor := q }, r2)
  DecodeRequest b := finishDecode do
    let (reqID, r1) ← takeInt64 b
    let op ← r1.head?
    let (objectID, r2) ← takeInt64 r1.tail
    let (clientID, r3) ← takeInt64 r2
    pure ({ ReqID := reqID, OperationType := op, ObjectID := objectID, ClientID := clientID },
      r3)
  DecodeObjectStored b := finishDecode do
    let (peer, r1) ← takeString b
    let (objectID, r2) ← takeInt64 r1
    let (clientID, r3) ← takeInt64 r2
    pure ({ PeerId := peer, ObjectID := objectID, ClientID := clientID }, r3)
  DecodeObjectRetrieved b := finishDecode do
    let (status, r1) ← takeInt64 b
    let (objectID, r2) ← takeInt64 r1
    pure ({ Status := status, ObjectId := objectID }, r2)

/-! ## Records, tags and builders -/

/-- The type tag under which a record travels. -/
def Payload.tag : Payload → MessageType
  | .join _ => JOIN
  | .ring _ => RING
  | .request _ => REQUEST
  | .objStored _ => OBJ_STORED
  | .objRetrieved _ => OBJ_RETRIEVED

/-- The builder of `converter.go` that corresponds to a record, applied to its fields. -/
def buildFrame (g : Gob) : Payload → Except GoError Bytes
  | .join m => GetJoinMessage g m.PeerID
  | .ring m => GetRingMessage g m.Predecessor m.Successor
  | .request m => GetRequestMessage g m.ReqID m.OperationType m.ObjectID m.ClientID
  | .objStored m => GetObjectStoredMessage g m.PeerId m.ObjectID m.ClientID
  | .objRetrieved m => GetObjectRetrievedMessage g m.Status m.ObjectId

/-- The serializer decodes the bytes `b` to the record `p`: the call
`gob.NewDecoder(bytes.NewReader(b)).Decode(ptr)`, for `ptr` a pointer to the empty record of the
kind of `p`, fills it with `p`. Only the decoder of `encoding/gob` for that kind is involved,
none of the repository's code. -/
def Gob.DecodesTo (g : Gob) (b : Bytes) : Payload → Prop
  | .join m => g.DecodeJoin b = .ok m
  | .ring m => g.DecodeRing b = .ok m
  | .request m => g.DecodeRequest b = .ok m
  | .objStored m => g.DecodeObjectStored b = .ok m
  | .objRetrieved m => g.DecodeObjectRetrieved b = .ok m

instance (g : Gob) (b : Bytes) : (p : Payload) → Decidable (g.DecodesTo b p)
  | .join m => inferInstanceAs (Decidable (g.DecodeJoin b = .ok m))
  | .ring m => inferInstanceAs (Decidable (g.DecodeRing b = .ok m))
  | .request m => inferInstanceAs (Decidable (g.DecodeRequest b = .ok m))
  | .objStored m => inferInstanceAs (Decidable (g.DecodeObjectStored b = .ok m))
  | .objRetrieved m => inferInstanceAs (Decidable (g.DecodeObjectRetrieved b = .ok m))

/-- The serializer handles the record `p` and the payload fits the frame: `Encode` succeeds with
fewer than `2 ^ 32` bytes, and the serializer decodes those bytes into a record of the same
kind as `p` again. -/
def Gob.Carries (g : Gob) (p : Payload) : Prop :=
  ∃ b, g.Encode p = .ok b ∧ b.length < 2 ^ 32 ∧ g.DecodesTo b p

/-- A decimal digit byte. -/
def IsDigit (b : Byte) : Prop := 48 ≤ b.val ∧ b.val ≤ 57

instance (b : Byte) : Decidable (IsDigit b) := by
  unfold IsDigit
  exact inferInstance

/-! ## Logs -/

/-- The line that `StoreObject` writes for a pair, without its newline. -/
def entryLine (clientID objectID : Int) : GoString :=
  fmtInt clientID ++ [chColon, chColon] ++ fmtInt objectID

/-- The store file after the calls `StoreObject(reqID, clientID, objectID)` listed in `calls`,
in order (`none` when one of them panics). -/
def storeAll (g : Gob) (p : Peer) : StoreFile → List (Int × Int × Int) → Option StoreFile
  | f, [] => some f
  | f, (reqID, clientID, objectID) :: rest =>
    match StoreObject g p f reqID clientID objectID with
    | some (f1, _) => storeAll g p f1 rest
    | none => none

/-- The pairs that the calls of `calls` append at a node with key `k`: those whose objectID is at
most `k`. -/
def keptPairs (k : Int) (calls : List (Int × Int × Int)) : List (Int × Int) :=
  (calls.filter (fun call => decide (call.2.2 ≤ k))).map (fun call => (call.2.1, call.2.2))

/-- The content of a store file after the entries of `pairs` were appended one by one. -/
def logAfter : Option Bytes → List (Int × Int) → Option Bytes
  | content, [] => content
  | content, pr :: rest => logAfter (some (content.getD [] ++ storeEntry pr.1 pr.2)) rest

/-! ## Rings of peer processes -/

/-- The numeric key of a peer process, as the coordinator orders the ring. -/
def Node.key (node : Node) : Int := extractNumber node.peer.ID

/-- The Successor pointers match the ring `ns`: the node at position `i` points to the node at
position `(i + 1) % n`. -/
def SuccessorsMatch (ns : List Node) : Prop :=
  ∀ i, i < ns.length →
    (ns[i]?).map (fun node => node.peer.Successor)
      = (ns[(i + 1) % ns.length]?).map (fun node => node.peer.ID)

instance (ns : List Node) : Decidable (SuccessorsMatch ns) := by
  unfold SuccessorsMatch
  exact inferInstance

/-- Every identifier of the ring starts with the prefix `n`. -/
def WellFormedIDs (ns : List Node) : Prop :=
  ∀ node ∈ ns, node.peer.ID.head? = some chN

instance (ns : List Node) : Decidable (WellFormedIDs ns) := by
  unfold WellFormedIDs
  exact inferInstance

/-- The first position in ring order whose key is at least `objectID` (the length of the ring
when there is none). -/
def responsibleIndex (ns : List Node) (objectID : Int) : Nat :=
  ns.findIdx (fun node => decide (objectID ≤ node.key))

/-- The network in which the coordinator has just relayed a request: the frames of `relayed` are
pending, nothing else has happened. -/
def Network.start (ns : List Node) (relayed : List Send) : Network :=
  { nodes := ns, pending := relayed, outside := [], trace := [] }

/-! ## The ring of the spec's forwarding example -/

/-- A peer process with the given identifier and links, whose store file has the given content
and whose file operations succeed. -/
def examplePeer (id predecessor successor : String) (content : Option Bytes) : Node :=
  { peer := { ID := str id, Predecessor := str predecessor, Successor := str successor,
              StoreFilePath := str "objects.txt", bootstrapAddress := str "bootstrap" },
    file := { content := content, openAppendOk := true, writeOk := true, openReadOk := true } }

/-- The ring with keys 10, 20, 30, all links set, no store file yet. -/
def exampleRing : List Node :=
  [examplePeer "n10" "n30" "n20" none, examplePeer "n20" "n10" "n30" none,
   examplePeer "n30" "n20" "n10" none]

/-- The request `Store(objectID = 25)` of client 7. -/
def exampleStore : RequestMessage :=
  { ReqID := 1, OperationType := STORE, ObjectID := 25, ClientID := 7 }

/-! ## Sequences of registrations and joins -/

/-- The ring after the calls `RegisterPeer(id)` for the identifiers of `ids`, in order (`none`
when a call panics). -/
def registerAll : Bootstrap → List GoString → Option Bootstrap
  | b, [] => some b
  | b, peerID :: rest =>
    match RegisterPeer b peerID with
    | some (b1, _, _) => registerAll b1 rest
    | none => none

/-- The coordinator with the peer processes that have joined it. -/
structure System where
  ring : Bootstrap
  nodes : List Node
  deriving DecidableEq, Repr

/-- A peer process starts and joins: `NewPeer` creates it with empty links, the coordinator runs
`RegisterPeer` on its Join, `notifyNeighbors` runs on the ring as it stands right after that
call, and its RingInfo frames are delivered in the order they were sent, each recipient applying
`UpdateLinks`. The result is `none` when a step panics. -/
def joinPeer (g : Gob) (storeFilePath bootstrapAddress : GoString) (sys : System)
    (peerID : GoString) : Option System :=
  let started : Node :=
    { peer := NewPeer peerID storeFilePath bootstrapAddress,
      file := { content := none, openAppendOk := true, writeOk := true, openReadOk := true } }
  match RegisterPeer sys.ring peerID with
  | none => none
  | some (b1, predecessor, successor) =>
    match notifyNeighbors g b1 peerID predecessor successor with
    | none => none
    | some sends =>
      match Network.run g sends.length
          { nodes := sys.nodes ++ [started], pending := sends, outside := [], trace := [] } with
      | none => none
      | some net => some { ring := b1, nodes := net.nodes }

/-- The joins of the peers named in `ids`, one at a time, in order. -/
def joinAll (g : Gob) (storeFilePath bootstrapAddress : GoString) :
    System → List GoString → Option System
  | sys, [] => some sys
  | sys, peerID :: rest =>
    match joinPeer g storeFilePath bootstrapAddress sys peerID with
    | some sys1 => joinAll g storeFilePath bootstrapAddress sys1 rest
    | none => none

/-- The links stored by the peer process named `id`. -/
def linksOf (nodes : List Node) (id : GoString) : Option (GoString × GoString) :=
  (nodes.find? (fun m => decide (m.peer.ID = id))).map
    (fun m => (m.peer.Predecessor, m.peer.Successor))

/-- The peer processes after the first one named `dest` applied `UpdateLinks`. -/
def setLinks (dest predecessor successor : GoString) : List Node → List Node
  | [] => []
  | m :: ms =>
    if m.peer.ID = dest then { m with peer := UpdateLinks m.peer predecessor successor } :: ms
    else m :: setLinks dest predecessor successor ms

/-- Two identifiers cannot each have the smaller key. -/
instance : IsAntisymm GoString (fun a b => extractNumber a < extractNumber b) :=
  ⟨fun _ _ h1 h2 => absurd h1 (not_lt_of_lt h2)⟩


/-- The recipients that `notifyNeighbors` addresses, in the order of its three sends: the new
peer; the predecessor under the guard `predecessor != peerID`; the successor under the guard
`successor != peerID && successor != predecessor`. -/
def notifyRecipients (peerID predecessor successor : GoString) : List GoString :=
  [peerID] ++ (if predecessor ≠ peerID then [predecessor] else [])
    ++ (if successor ≠ peerID ∧ successor ≠ predecessor then [successor] else [])


/-- The request of the client's test case 5, `RequestRetrieve(110)`: the first request of the
client with identifier 3, for an objectID above every key of `exampleRing`. -/
def exampleRetrieve : RequestMessage :=
  { ReqID := 1, OperationType := RETRIEVE, ObjectID := 110, ClientID := 3 }


/-- The test of the scanning loop of `RetrieveObject` on one line: `len(parts) == 2`, and the two
parts parse (`strconv.Atoi`, error ignored) to `clientID` and `objectID`. -/
def entryMatches (clientID objectID : Int) (line : GoString) : Bool :=
  match SplitColons line with
  | [part0, part1] => decide (Atoi part0 = clientID ∧ Atoi part1 = objectID)
  | _ => false

/-- The ring with keys 10, 20, 30 after `exampleStore`: the log of `n30` holds `7::25`. -/
def exampleRingAfterStore : List Node :=
  [examplePeer "n10" "n30" "n20" none, examplePeer "n20" "n10" "n30" none,
   examplePeer "n30" "n20" "n10" (some (str "7::25\n"))]

/-- The request `Retrieve(objectID = 25)` of client 7. -/
def exampleLookup : RequestMessage :=
  { ReqID := 2, OperationType := RETRIEVE, ObjectID := 25, ClientID := 7 }

/-! # Results -/

/-! ## The frame codec: results -/

theorem val_ofNat (a : Nat) : ((Fin.ofNat a : Byte)).val = a % 256 := rfl

theorem Uint32_PutUint32 (v : Nat) (h : v < 2 ^ 32) : Uint32 (PutUint32 v) = v := by
  simp only [Uint32, PutUint32, List.getD_cons_zero, List.getD_cons_succ, val_ofNat]
  omega

theorem uint32_natCast (n : Nat) : uint32 (n : Int) = n % 2 ^ 32 := by
  unfold uint32
  have : ((n : Int) % 2 ^ 32) = ((n % 2 ^ 32 : Nat) : Int) := by
    push_cast
    rfl
  rw [this, Int.toNat_ofNat]

theorem length_PutUint32 (v : Nat) : (PutUint32 v).length = 4 := rfl

theorem encodeMessage_eq (g : Gob) (msg : Message) (p : Bytes)
    (henc : g.Encode msg.Payload = .ok p) (hlen : p.length < 2 ^ 32) :
    encodeMessage g msg = .ok (msg.Header.MsgType :: (PutUint32 p.length ++ p)) := by
  simp only [encodeMessage, EncodeToBinary, henc, uint32_natCast, Nat.mod_eq_of_lt hlen]
  rfl

theorem ReadFull_append (a b : Bytes) : ReadFull (a ++ b) a.length = .ok (a, b) := by
  simp [ReadFull]

theorem ReadMessage_frame (g : Gob) (t : MessageType) (p rest : Bytes)
    (hlen : p.length < 2 ^ 32) :
    ReadMessage g (t :: (PutUint32 p.length ++ p) ++ rest) =
      match decodePayload g t p with
      | .error err => .error err
      | .ok payload =>
        .ok ({ Header := { MsgType := t, Length := p.length }, Payload := payload }, rest) := by
  have h5 : ReadFull (t :: (PutUint32 p.length ++ p) ++ rest) 5
      = .ok (t :: PutUint32 p.length, p ++ rest) := by
    have := ReadFull_append (t :: PutUint32 p.length) (p ++ rest)
    simpa [length_PutUint32] using this
  simp only [ReadMessage, h5, List.getD_cons_zero, List.drop_succ_cons, List.drop_zero,
    Uint32_PutUint32 _ hlen, ReadFull_append]

theorem buildFrame_eq (g : Gob) (p : Payload) :
    buildFrame g p =
      encodeMessage g { Header := { MsgType := p.tag, Length := uint32 (-1) }, Payload := p } := by
  cases p <;> rfl

/-- The switch of `ReadMessage` hands the payload bytes to the decoder of the record kind that
the tag names. -/
theorem decodePayload_of_decodesTo (g : Gob) (p : Payload) (b : Bytes)
    (h : g.DecodesTo b p) : decodePayload g p.tag b = .ok p := by
  cases p with
  | join m =>
    have h1 : g.DecodeJoin b = .ok m := h
    simp only [decodePayload, Payload.tag, if_true, h1]
    rfl
  | ring m =>
    have h1 : g.DecodeRing b = .ok m := h
    have n0 : RING ≠ JOIN := by decide
    simp only [decodePayload, Payload.tag, if_true, h1, n0, if_false]
    rfl
  | request m =>
    have h1 : g.DecodeRequest b = .ok m := h
    have n0 : REQUEST ≠ JOIN := by decide
    have n1 : REQUEST ≠ RING := by decide
    simp only [decodePayload, Payload.tag, if_true, h1, n0, n1, if_false]
    rfl
  | objStored m =>
    have h1 : g.DecodeObjectStored b = .ok m := h
    have n0 : OBJ_STORED ≠ JOIN := by decide
    have n1 : OBJ_STORED ≠ RING := by decide
    have n2 : OBJ_STORED ≠ REQUEST := by decide
    simp only [decodePayload, Payload.tag, if_true, h1, n0, n1, n2, if_false]
    rfl
  | objRetrieved m =>
    have h1 : g.DecodeObjectRetrieved b = .ok m := h
    have n0 : OBJ_RETRIEVED ≠ JOIN := by decide
    have n1 : OBJ_RETRIEVED ≠ RING := by decide
    have n2 : OBJ_RETRIEVED ≠ REQUEST := by decide
    have n3 : OBJ_RETRIEVED ≠ OBJ_STORED := by decide
    simp only [decodePayload, Payload.tag, if_true, h1, n0, n1, n2, n3, if_false]
    rfl

/-- A record the serializer carries is built into a frame that reads back as that record. -/
theorem ReadMessage_buildFrame (g : Gob) (p : Payload) (b rest : Bytes)
    (henc : g.Encode p = .ok b) (hlen : b.length < 2 ^ 32)
    (hdec : decodePayload g p.tag b = .ok p) :
    buildFrame g p = .ok (p.tag :: (PutUint32 b.length ++ b)) ∧
    ReadMessage g (p.tag :: (PutUint32 b.length ++ b) ++ rest) =
      .ok ({ Header := { MsgType := p.tag, Length := b.length }, Payload := p }, rest) := by
  constructor
  · rw [buildFrame_eq]
    exact encodeMessage_eq g _ b henc hlen
  · rw [ReadMessage_frame g p.tag b rest hlen, hdec]

/-- Claim C6. Frame layout: when the serialized payload of `msg` is `p` with fewer than `2 ^ 32`
bytes, `encodeMessage` returns the `5 + |p|` bytes `[tag] ++ LE32(|p|) ++ p`: byte 0 is the tag,
byte `1 + i` (for `i < 4`) is the `i`-th base-256 digit of `|p|`, the bytes from 5 on are `p`;
and the result is the same whatever `Header.Length` the message carries. -/
theorem encodeMessage_frame_layout (g : Gob) (msg : Message) (p : Bytes)
    (henc : EncodeToBinary g msg.Payload = .ok p) (hlen : p.length < 2 ^ 32) :
    ∃ frame, encodeMessage g msg = .ok frame ∧
      frame = [msg.Header.MsgType] ++ PutUint32 p.length ++ p ∧
      frame.length = 5 + p.length ∧
      frame.getD 0 0 = msg.Header.MsgType ∧
      (∀ i, i < 4 → (frame.getD (1 + i) 0).val = p.length / 256 ^ i % 256) ∧
      Uint32 ((frame.take 5).drop 1) = p.length ∧
      frame.drop 5 = p ∧
      ∀ l, encodeMessage g { msg with Header := { msg.Header with Length := l } }
        = .ok frame := by
  refine ⟨_, encodeMessage_eq g msg p henc hlen, rfl, ?_, rfl, ?_, ?_, ?_, ?_⟩
  · simp [length_PutUint32]
    omega
  · intro i hi
    interval_cases i <;> simp [PutUint32, val_ofNat]
  · have : ((msg.Header.MsgType :: (PutUint32 p.length ++ p)).take 5).drop 1
        = PutUint32 p.length := by
      simp [PutUint32]
    rw [this, Uint32_PutUint32 _ hlen]
  · simp [PutUint32]
  · intro l
    exact encodeMessage_eq g _ p henc hlen

/-- Claim C6 at a concrete message: a Join of peer `n1` under `plainGob`, whose payload has 10
bytes, with the `Header.Length` that `GetJoinMessage` fills in. -/
theorem encodeMessage_frame_layout_witness :
    EncodeToBinary plainGob (Payload.join { PeerID := str "n1" })
        = .ok (putString (str "n1")) ∧
    (putString (str "n1")).length < 2 ^ 32 ∧
    ∃ frame,
      encodeMessage plainGob
        { Header := { MsgType := JOIN, Length := uint32 (-1) },
          Payload := .join { PeerID := str "n1" } } = .ok frame ∧
      frame = [JOIN] ++ PutUint32 (putString (str "n1")).length ++ putString (str "n1") ∧
      frame.length = 5 + (putString (str "n1")).length ∧
      frame.getD 0 0 = JOIN ∧
      (∀ i, i < 4 →
        (frame.getD (1 + i) 0).val = (putString (str "n1")).length / 256 ^ i % 256) ∧
      Uint32 ((frame.take 5).drop 1) = (putString (str "n1")).length ∧
      frame.drop 5 = putString (str "n1") ∧
      ∀ l, encodeMessage plainGob
        { Header := { MsgType := JOIN, Length := l },
          Payload := .join { PeerID := str "n1" } } = .ok frame :=
  ⟨rfl, by decide,
    encodeMessage_frame_layout plainGob
      { Header := { MsgType := JOIN, Length := uint32 (-1) },
        Payload := .join { PeerID := str "n1" } }
      (putString (str "n1")) rfl (by decide)⟩

theorem exists_header (conn : Bytes) (h : 5 ≤ conn.length) :
    ∃ a b c d e tl, conn = a :: b :: c :: d :: e :: tl := by
  match conn, h with
  | a :: b :: c :: d :: e :: tl, _ => exact ⟨a, b, c, d, e, tl, rfl⟩

theorem ReadFull_header (a b c d e : Byte) (tl : Bytes) :
    ReadFull (a :: b :: c :: d :: e :: tl) 5 = .ok ([a, b, c, d, e], tl) := by
  simp [ReadFull]

theorem decodePayload_unknown (g : Gob) (t : MessageType) (b : Bytes) (h : 4 < t.val) :
    decodePayload g t b = .error .unknownMessageType := by
  have h0 : t ≠ JOIN := by rintro rfl; exact absurd h (by decide)
  have h1 : t ≠ RING := by rintro rfl; exact absurd h (by decide)
  have h2 : t ≠ REQUEST := by rintro rfl; exact absurd h (by decide)
  have h3 : t ≠ OBJ_STORED := by rintro rfl; exact absurd h (by decide)
  have h4 : t ≠ OBJ_RETRIEVED := by rintro rfl; exact absurd h (by decide)
  simp [decodePayload, h0, h1, h2, h3, h4]

theorem decodePayload_ok_tag (g : Gob) (t : MessageType) (b : Bytes) (p : Payload)
    (h : decodePayload g t b = .ok p) : t.val ≤ 4 := by
  by_contra hlt
  rw [decodePayload_unknown g t b (by omega)] at h
  cases h

theorem ReadMessage_short (g : Gob) (conn : Bytes) (h : conn.length < 5) :
    ReadMessage g conn = .error (if conn = [] then .EOF else .ErrUnexpectedEOF) := by
  have h5 : ¬ 5 ≤ conn.length := by omega
  by_cases hnil : conn = [] <;> simp [ReadMessage, ReadFull, h5, hnil]

theorem ReadMessage_header (g : Gob) (a b c d e : Byte) (tl : Bytes) :
    ReadMessage g (a :: b :: c :: d :: e :: tl) =
      match ReadFull tl (b.val + c.val * 256 + d.val * 65536 + e.val * 16777216) with
      | .error err => .error err
      | .ok (payloadBytes, conn2) =>
        match decodePayload g a payloadBytes with
        | .error err => .error err
        | .ok payload =>
          .ok ({ Header := { MsgType := a,
                             Length := b.val + c.val * 256 + d.val * 65536 + e.val * 16777216 },
                 Payload := payload }, conn2) := by
  unfold ReadMessage
  rw [ReadFull_header]
  rfl

theorem ReadMessage_ok_tag (g : Gob) (conn : Bytes) (m : Message) (rest : Bytes)
    (h : ReadMessage g conn = .ok (m, rest)) : m.Header.MsgType.val ≤ 4 := by
  by_cases h5 : 5 ≤ conn.length
  · obtain ⟨a, b, c, d, e, tl, rfl⟩ := exists_header conn h5
    rw [ReadMessage_header] at h
    split at h
    · cases h
    · split at h
      · cases h
      · rename_i payload hdec
        cases h
        exact decodePayload_ok_tag g _ _ _ hdec
  · rw [ReadMessage_short g conn (by omega)] at h
    cases h

/-- Claim C7. Decode rejects malformed frames: `ReadMessage` returns an error (and so no
message) when (a) the stream has fewer than 5 bytes, (b) it has a header but fewer payload bytes
than the little-endian length in header bytes 1..4, (c) header and payload are complete but the
tag byte is greater than 4; and every message it does return has a tag in 0..4. -/
theorem ReadMessage_rejects_malformed (g : Gob) (conn : Bytes) :
    (conn.length < 5 → ∃ err, ReadMessage g conn = .error err) ∧
    (5 ≤ conn.length →
      conn.length - 5 < (conn.getD 1 0).val + (conn.getD 2 0).val * 256
        + (conn.getD 3 0).val * 65536 + (conn.getD 4 0).val * 16777216 →
      ∃ err, ReadMessage g conn = .error err) ∧
    (5 ≤ conn.length →
      (conn.getD 1 0).val + (conn.getD 2 0).val * 256
        + (conn.getD 3 0).val * 65536 + (conn.getD 4 0).val * 16777216 ≤ conn.length - 5 →
      4 < (conn.getD 0 0).val →
      ReadMessage g conn = .error .unknownMessageType) ∧
    (∀ m rest, ReadMessage g conn = .ok (m, rest) → m.Header.MsgType.val ≤ 4) := by
  refine ⟨?_, ?_, ?_, ?_⟩
  · intro h
    exact ⟨_, ReadMessage_short g conn h⟩
  · intro h5 hshort
    obtain ⟨a, b, c, d, e, tl, rfl⟩ := exists_header conn h5
    simp only [List.getD_cons_zero, List.getD_cons_succ, List.length_cons] at hshort
    have hlt : ¬ (b.val + c.val * 256 + d.val * 65536 + e.val * 16777216 ≤ tl.length) := by
      omega
    refine ⟨if tl = [] then .EOF else .ErrUnexpectedEOF, ?_⟩
    rw [ReadMessage_header]
    simp only [ReadFull, hlt, if_false]
    by_cases hnil : tl = [] <;> simp [hnil]
  · intro h5 hfull htag
    obtain ⟨a, b, c, d, e, tl, rfl⟩ := exists_header conn h5
    simp only [List.getD_cons_zero, List.getD_cons_succ, List.length_cons] at hfull htag
    have hle : b.val + c.val * 256 + d.val * 65536 + e.val * 16777216 ≤ tl.length := by
      omega
    rw [ReadMessage_header]
    simp only [ReadFull, hle, if_true, decodePayload_unknown g a _ htag]
  · intro m rest h
    exact ReadMessage_ok_tag g conn m rest h

/-- Claim C7 at concrete streams: two bytes only; a header announcing one payload byte and
nothing after it; a complete empty frame with tag 9. -/
theorem ReadMessage_rejects_malformed_witness :
    (∃ err, ReadMessage plainGob [1, 2] = .error err) ∧
    (∃ err, ReadMessage plainGob [0, 1, 0, 0, 0] = .error err) ∧
    ReadMessage plainGob [9, 0, 0, 0, 0] = .error .unknownMessageType :=
  ⟨(ReadMessage_rejects_malformed plainGob [1, 2]).1 (by decide),
   (ReadMessage_rejects_malformed plainGob [0, 1, 0, 0, 0]).2.1 (by decide) (by decide),
   (ReadMessage_rejects_malformed plainGob [9, 0, 0, 0, 0]).2.2.1 (by decide) (by decide)
     (by decide)⟩

/-! ### Round trip through a frame -/

theorem length_putUint64 (v : Nat) : (putUint64 v).length = 8 := rfl

theorem leValue_putUint64 (v : Nat) (h : v < 2 ^ 64) : leValue (putUint64 v) = v := by
  have : putUint64 v = [Fin.ofNat (v / 256 ^ 0 % 256), Fin.ofNat (v / 256 ^ 1 % 256),
      Fin.ofNat (v / 256 ^ 2 % 256), Fin.ofNat (v / 256 ^ 3 % 256),
      Fin.ofNat (v / 256 ^ 4 % 256), Fin.ofNat (v / 256 ^ 5 % 256),
      Fin.ofNat (v / 256 ^ 6 % 256), Fin.ofNat (v / 256 ^ 7 % 256)] := rfl
  rw [this]
  simp only [leValue, List.foldr_cons, List.foldr_nil, val_ofNat]
  norm_num
  omega

theorem takeString_putString (s rest : Bytes) (h : s.length < 2 ^ 64) :
    takeString (putString s ++ rest) = some (s, rest) := by
  have h8 : ¬ (putString s ++ rest).length < 8 := by
    simp [putString, length_putUint64]
  have ht : (putString s ++ rest).take 8 = putUint64 s.length := by
    simp [putString, List.take_append_eq_append_take, length_putUint64]
  have hd : (putString s ++ rest).drop 8 = s ++ rest := by
    simp [putString, List.drop_append_eq_append_drop, length_putUint64]
  simp only [takeString, h8, if_false, ht, hd, leValue_putUint64 _ h]
  simp

/-- Claim C5 (amended). Codec round trip: for each of the five record kinds and every record `p`
of that kind, if `encoding/gob` encodes `p` in fewer than `2 ^ 32` bytes `b` and its decoder for
that kind decodes `b` to `p` again (hypotheses on the serializer alone), then the builder of
`converter.go` for that kind returns a frame, and `ReadMessage` on that frame succeeds with a
message whose tag is the record's tag, whose `Header.Length` is `|b|` and whose payload is `p`,
leaving nothing unread. -/
theorem codec_roundtrip (g : Gob) (p : Payload) (b : Bytes)
    (henc : g.Encode p = .ok b) (hlen : b.length < 2 ^ 32)
    (hdec : g.DecodesTo b p) :
    ∃ frame, buildFrame g p = .ok frame ∧
      ReadMessage g frame
        = .ok ({ Header := { MsgType := p.tag, Length := b.length }, Payload := p }, []) := by
  have h := ReadMessage_buildFrame g p b [] henc hlen (decodePayload_of_decodesTo g p b hdec)
  rw [List.append_nil] at h
  exact ⟨_, h.1, h.2⟩

/-- Claim C5 (amended) at one record of each of the five kinds, under `plainGob`: a Join of
`n30`, a RingInfo naming `n10` and `n30`, a Store request with a negative objectID, an
ObjectStored and an ObjectRetrieved with status -1. -/
theorem codec_roundtrip_witness :
    (∃ frame, GetJoinMessage plainGob (str "n30") = .ok frame ∧
      ReadMessage plainGob frame
        = .ok ({ Header := { MsgType := JOIN, Length := 11 },
                 Payload := .join { PeerID := str "n30" } }, [])) ∧
    (∃ frame, GetRingMessage plainGob (str "n10") (str "n30") = .ok frame ∧
      ReadMessage plainGob frame
        = .ok ({ Header := { MsgType := RING, Length := 22 },
                 Payload := .ring { Predecessor := str "n10", Successor := str "n30" } },
               [])) ∧
    (∃ frame, GetRequestMessage plainGob 1 STORE (-25) 7 = .ok frame ∧
      ReadMessage plainGob frame
        = .ok ({ Header := { MsgType := REQUEST, Length := 25 },
                 Payload := .request
                   { ReqID := 1, OperationType := STORE, ObjectID := -25, ClientID := 7 } },
               [])) ∧
    (∃ frame, GetObjectStoredMessage plainGob (str "n30") 25 7 = .ok frame ∧
      ReadMessage plainGob frame
        = .ok ({ Header := { MsgType := OBJ_STORED, Length := 27 },
                 Payload := .objStored
                   { PeerId := str "n30", ObjectID := 25, ClientID := 7 } }, [])) ∧
    (∃ frame, GetObjectRetrievedMessage plainGob (-1) 25 = .ok frame ∧
      ReadMessage plainGob frame
        = .ok ({ Header := { MsgType := OBJ_RETRIEVED, Length := 16 },
                 Payload := .objRetrieved { Status := -1, ObjectId := 25 } }, [])) :=
  ⟨codec_roundtrip plainGob (.join { PeerID := str "n30" })
      (putString (str "n30")) rfl (by decide) (by decide),
   codec_roundtrip plainGob (.ring { Predecessor := str "n10", Successor := str "n30" })
      (putString (str "n10") ++ putString (str "n30")) rfl (by decide) (by decide),
   codec_roundtrip plainGob
      (.request { ReqID := 1, OperationType := STORE, ObjectID := -25, ClientID := 7 })
      (putInt64 1 ++ [STORE] ++ putInt64 (-25) ++ putInt64 7) rfl (by decide) (by decide),
   codec_roundtrip plainGob (.objStored { PeerId := str "n30", ObjectID := 25, ClientID := 7 })
      (putString (str "n30") ++ putInt64 25 ++ putInt64 7) rfl (by decide) (by decide),
   codec_roundtrip plainGob (.objRetrieved { Status := -1, ObjectId := 25 })
      (putInt64 (-1) ++ putInt64 25) rfl (by decide) (by decide)⟩

theorem long_join_not_read_back (s : GoString) (h : s.length = 2 ^ 32) :
    plainGob.Encode (.join { PeerID := s }) = .ok (putString s) ∧
    plainGob.DecodesTo (putString s) (.join { PeerID := s }) ∧
    GetJoinMessage plainGob s = .ok (JOIN :: ([8, 0, 0, 0] ++ putString s)) ∧
    ReadMessage plainGob (JOIN :: ([8, 0, 0, 0] ++ putString s)) = .error (.gob 1) := by
  refine ⟨rfl, ?_, ?_, ?_⟩
  · have := takeString_putString s [] (by omega)
    rw [List.append_nil] at this
    show plainGob.DecodeJoin (putString s) = _
    simp [plainGob, this, finishDecode]
  · have hl : (putString s).length = 2 ^ 32 + 8 := by
      simp [putString, length_putUint64, h]
    simp only [GetJoinMessage, encodeMessage, EncodeToBinary, plainGob, uint32_natCast, hl]
    rfl
  · have hs : putString s = putUint64 (2 ^ 32) ++ s := by
      simp [putString, h]
    have hrf : ReadFull (putUint64 (2 ^ 32) ++ s) 8 = .ok (putUint64 (2 ^ 32), s) :=
      ReadFull_append (putUint64 (2 ^ 32)) s
    have hdec : decodePayload plainGob JOIN (putUint64 (2 ^ 32)) = .error (.gob 1) := by
      decide
    have h8 : ((8 : Byte).val + (0 : Byte).val * 256 + (0 : Byte).val * 65536
        + (0 : Byte).val * 16777216) = 8 := rfl
    rw [hs]
    show ReadMessage plainGob (JOIN :: 8 :: 0 :: 0 :: 0 :: (putUint64 (2 ^ 32) ++ s)) = _
    rw [ReadMessage_header, h8, hrf]
    simp only [hdec]

/-- Claim C5 as stated fails: for a Join whose peer identifier has `2 ^ 32` bytes, `plainGob`
encodes the record and decodes those bytes back to it, but the frame that `GetJoinMessage`
builds carries the length `(2 ^ 32 + 8) % 2 ^ 32 = 8`, so `ReadMessage` hands only the first 8
payload bytes to the decoder and returns an error. -/
theorem codec_roundtrip_fails_beyond_uint32 :
    plainGob.Encode (.join { PeerID := List.replicate (2 ^ 32) 0 })
      = .ok (putString (List.replicate (2 ^ 32) 0)) ∧
    plainGob.DecodesTo (putString (List.replicate (2 ^ 32) 0))
      (.join { PeerID := List.replicate (2 ^ 32) 0 }) ∧
    ∃ frame, GetJoinMessage plainGob (List.replicate (2 ^ 32) 0) = .ok frame ∧
      ReadMessage plainGob frame = .error (.gob 1) := by
  have h := long_join_not_read_back (List.replicate (2 ^ 32) 0) (List.length_replicate _ _)
  exact ⟨h.1, h.2.1, _, h.2.2.1, h.2.2.2⟩

/-! ## Formatting and parsing integers -/

theorem parseUintLoop_digit (d n : Nat) (cs : Bytes) (hd : d < 10)
    (hn : n * 10 + d ≤ maxUint64) :
    parseUintLoop ((Fin.ofNat (48 + d) : Byte) :: cs) n = parseUintLoop cs (n * 10 + d) := by
  have hv : ((Fin.ofNat (48 + d) : Byte)).val = 48 + d := by
    rw [val_ofNat]
    omega
  unfold maxUint64 at hn
  rw [parseUintLoop]
  simp only [hv, maxUint64]
  have h1 : 48 ≤ 48 + d ∧ 48 + d ≤ 57 := by omega
  have h2 : ¬ (n ≥ (2 ^ 64 - 1) / 10 + 1) := by omega
  have h3 : n * 10 % 2 ^ 64 = n * 10 := Nat.mod_eq_of_lt (by omega)
  have h4 : (n * 10 + (48 + d - 48)) % 2 ^ 64 = n * 10 + d := by
    rw [Nat.mod_eq_of_lt (by omega)]
    omega
  simp only [h1, and_self, if_true, h2, if_false, h3, h4]
  have h5 : ¬ (n * 10 + d < n * 10 ∨ n * 10 + d > 2 ^ 64 - 1) := by omega
  simp only [h5, if_false]

theorem parseUintLoop_fmtNatAux (fuel : Nat) :
    ∀ (n : Nat) (acc : Bytes), n < fuel → n ≤ maxUint64 →
      parseUintLoop (fmtNatAux fuel n acc) 0 = parseUintLoop acc n := by
  induction fuel with
  | zero => intro n acc h; omega
  | succ fuel ih =>
    intro n acc hfuel hmax
    rw [fmtNatAux]
    by_cases h0 : n / 10 = 0
    · simp only [h0, if_true]
      have hlt : n < 10 := by omega
      rw [Nat.mod_eq_of_lt hlt, parseUintLoop_digit n 0 acc hlt (by unfold maxUint64; omega)]
      simp
    · simp only [h0, if_false]
      rw [ih (n / 10) _ (by omega) (by omega),
        parseUintLoop_digit (n % 10) (n / 10) acc (Nat.mod_lt _ (by omega)) (by omega)]
      congr 1
      omega

theorem fmtNatAux_mem (fuel : Nat) :
    ∀ (n : Nat) (acc : Bytes) (b : Byte), b ∈ fmtNatAux fuel n acc → IsDigit b ∨ b ∈ acc := by
  induction fuel with
  | zero => intro n acc b h; exact Or.inr h
  | succ fuel ih =>
    intro n acc b h
    have hd : IsDigit (Fin.ofNat (48 + n % 10) : Byte) := by
      unfold IsDigit
      rw [val_ofNat]
      omega
    rw [fmtNatAux] at h
    by_cases h0 : n / 10 = 0
    · simp only [h0, if_true, List.mem_cons] at h
      rcases h with h | h
      · exact Or.inl (h ▸ hd)
      · exact Or.inr h
    · simp only [h0, if_false] at h
      rcases ih _ _ _ h with h | h
      · exact Or.inl h
      · rcases List.mem_cons.mp h with h | h
        · exact Or.inl (h ▸ hd)
        · exact Or.inr h

theorem fmtNatAux_length (fuel : Nat) :
    ∀ (n k : Nat) (acc : Bytes), n < 10 ^ (k + 1) →
      (fmtNatAux fuel n acc).length ≤ k + 1 + acc.length := by
  induction fuel with
  | zero => intro n k acc _; simp [fmtNatAux]
  | succ fuel ih =>
    intro n k acc hn
    rw [fmtNatAux]
    by_cases h0 : n / 10 = 0
    · simp only [h0, if_true, List.length_cons]
      omega
    · simp only [h0, if_false]
      cases k with
      | zero => omega
      | succ k =>
        have := ih (n / 10) k ((Fin.ofNat (48 + n % 10) : Byte) :: acc) (by
          rw [Nat.div_lt_iff_lt_mul (by omega)]
          rw [pow_succ] at hn
          exact hn)
        simp only [List.length_cons] at this
        omega

theorem fmtNatAux_ne_nil (fuel n : Nat) (acc : Bytes) : fmtNatAux (fuel + 1) n acc ≠ [] := by
  induction fuel generalizing n acc with
  | zero =>
    rw [fmtNatAux]
    split
    · simp
    · simp [fmtNatAux]
  | succ fuel ih =>
    rw [fmtNatAux]
    split
    · simp
    · exact ih _ _

theorem fmtNat_digits (n : Nat) : ∀ b ∈ fmtNat n, IsDigit b := by
  intro b hb
  rcases fmtNatAux_mem _ _ _ _ hb with h | h
  · exact h
  · cases h

theorem fmtNat_ne_nil (n : Nat) : fmtNat n ≠ [] := fmtNatAux_ne_nil _ _ _

theorem ParseUint_fmtNat (n : Nat) (h : n ≤ maxUint64) : ParseUint (fmtNat n) = .ok n := by
  have hne := fmtNat_ne_nil n
  have hl : parseUintLoop (fmtNat n) 0 = .ok n := by
    unfold fmtNat
    rw [parseUintLoop_fmtNatAux (n + 1) n [] (by omega) h]
    rfl
  obtain ⟨c, cs, hcs⟩ := List.exists_cons_of_ne_nil hne
  rw [hcs] at hl ⊢
  exact hl

theorem fmtNat_length (n : Nat) (h : n < 10 ^ 20) : (fmtNat n).length ≤ 20 := by
  have := fmtNatAux_length (n + 1) n 19 [] h
  simpa [fmtNat] using this

theorem ParseInt_minus (cs : Bytes) (m : Nat) (hp : ParseUint cs = .ok m)
    (hm : m ≤ 2 ^ 63) : ParseInt (chMinus :: cs) = .ok (-(m : Int)) := by
  have hcut : ¬ (m > 2 ^ 63) := by omega
  simp [ParseInt, hp]
  omega

theorem ParseInt_digits (c : Byte) (cs : Bytes) (m : Nat) (hc : IsDigit c)
    (hp : ParseUint (c :: cs) = .ok m) (hm : m < 2 ^ 63) :
    ParseInt (c :: cs) = .ok (m : Int) := by
  have hc1 : c ≠ chMinus := by
    rintro rfl
    exact absurd hc (by decide)
  have hc2 : c ≠ chPlus := by
    rintro rfl
    exact absurd hc (by decide)
  have hcut : ¬ (m ≥ 2 ^ 63) := by omega
  simp [ParseInt, hp, hc1, hc2]
  omega

/-- Parsing what `%d` printed gives the number back, for every `int`. -/
theorem Atoi_fmtInt (x : Int) (hx : IsInt64 x) : Atoi (fmtInt x) = x := by
  obtain ⟨hlo, hhi⟩ := hx
  unfold fmtInt
  by_cases hneg : x < 0
  · simp only [hneg, if_true]
    have hp := ParseUint_fmtNat (-x).toNat (by unfold maxUint64; omega)
    rw [Atoi, ParseInt_minus _ _ hp (by omega)]
    simp only
    omega
  · simp only [hneg, if_false]
    have hp := ParseUint_fmtNat x.toNat (by unfold maxUint64; omega)
    obtain ⟨c, cs, hcs⟩ := List.exists_cons_of_ne_nil (fmtNat_ne_nil x.toNat)
    have hc : IsDigit c := fmtNat_digits x.toNat c (by rw [hcs]; exact List.mem_cons_self _ _)
    rw [hcs] at hp ⊢
    rw [Atoi, ParseInt_digits c cs _ hc hp (by omega)]
    simp only
    omega

/-! ## Lines and entries of the store file -/

theorem fmtInt_chars (x : Int) : ∀ b ∈ fmtInt x, IsDigit b ∨ b = chMinus := by
  intro b hb
  unfold fmtInt at hb
  split at hb
  · rcases List.mem_cons.mp hb with h | h
    · exact Or.inr h
    · exact Or.inl (fmtNat_digits _ b h)
  · exact Or.inl (fmtNat_digits _ b hb)

theorem fmtInt_no (x : Int) (c : Byte) (hc : ¬ IsDigit c) (hm : c ≠ chMinus) :
    c ∉ fmtInt x := by
  intro h
  rcases fmtInt_chars x c h with h | h
  · exact hc h
  · exact hm h

theorem fmtInt_length (x : Int) (hx : IsInt64 x) : (fmtInt x).length ≤ 21 := by
  obtain ⟨hlo, hhi⟩ := hx
  unfold fmtInt
  split
  · have := fmtNat_length (-x).toNat (by omega)
    simp only [List.length_cons]
    omega
  · have := fmtNat_length x.toNat (by omega)
    omega

theorem SplitColons_no_colon (b : Bytes) (h : chColon ∉ b) : SplitColons b = [b] := by
  induction b with
  | nil => rfl
  | cons c rest ih =>
    cases rest with
    | nil => rfl
    | cons d rest =>
      have hc : c ≠ chColon := fun e => h (e ▸ List.mem_cons_self _ _)
      have ih := ih (fun e => h (List.mem_cons_of_mem _ e))
      rw [SplitColons]
      simp only [hc, false_and, if_false, ih]
      rfl

theorem SplitColons_entry (a b : Bytes) (ha : chColon ∉ a) (hb : chColon ∉ b) :
    SplitColons (a ++ chColon :: chColon :: b) = [a, b] := by
  induction a with
  | nil =>
    rw [List.nil_append, SplitColons]
    simp [SplitColons_no_colon b hb]
  | cons c rest ih =>
    have hc : c ≠ chColon := fun e => ha (e ▸ List.mem_cons_self _ _)
    have ih := ih (fun e => ha (List.mem_cons_of_mem _ e))
    cases rest with
    | nil =>
      rw [List.nil_append] at ih
      show SplitColons (c :: chColon :: chColon :: b) = _
      rw [SplitColons]
      simp only [hc, false_and, if_false, ih]
      rfl
    | cons d rest =>
      show SplitColons (c :: d :: (rest ++ chColon :: chColon :: b)) = _
      rw [SplitColons]
      simp only [hc, false_and, if_false]
      rw [List.cons_append] at ih
      rw [ih]
      rfl

/-- An entry is read back as the pair that was written. -/
theorem entryLine_parse (c o : Int) (hc : IsInt64 c) (ho : IsInt64 o) :
    SplitColons (entryLine c o) = [fmtInt c, fmtInt o] ∧
    Atoi (fmtInt c) = c ∧ Atoi (fmtInt o) = o := by
  refine ⟨?_, Atoi_fmtInt c hc, Atoi_fmtInt o ho⟩
  have h1 := fmtInt_no c chColon (by decide) (by decide)
  have h2 := fmtInt_no o chColon (by decide) (by decide)
  have := SplitColons_entry _ _ h1 h2
  simpa [entryLine] using this

theorem rawLines_cons (b : Byte) (data : Bytes) :
    rawLines (b :: data) =
      if b = chNewline then [] :: rawLines data else consHead b (rawLines data) := rfl

theorem rawLines_line (l rest : Bytes) (h : chNewline ∉ l) :
    rawLines (l ++ chNewline :: rest) = l :: rawLines rest := by
  induction l with
  | nil => simp [rawLines_cons]
  | cons c l ih =>
    have hc : c ≠ chNewline := fun e => h (e ▸ List.mem_cons_self _ _)
    have ih := ih (fun e => h (List.mem_cons_of_mem _ e))
    rw [List.cons_append, rawLines_cons, ih]
    simp [hc, consHead]

theorem dropCR_eq (l : Bytes) (h : chCR ∉ l) : dropCR l = l := by
  unfold dropCR
  split
  · rename_i hl
    exact absurd (List.mem_of_getLast?_eq_some hl) h
  · rfl

theorem entryLine_chars (c o : Int) (x : Byte) (hx : ¬ IsDigit x) (hm : x ≠ chMinus)
    (hcol : x ≠ chColon) : x ∉ entryLine c o := by
  intro h
  simp only [entryLine, List.mem_append, List.mem_cons, List.mem_singleton,
    List.not_mem_nil, or_false] at h
  rcases h with (h | h | h) | h
  · exact fmtInt_no c x hx hm h
  · exact hcol h
  · exact hcol h
  · exact fmtInt_no o x hx hm h

theorem entryLine_length (c o : Int) (hc : IsInt64 c) (ho : IsInt64 o) :
    (entryLine c o).length < MaxScanTokenSize := by
  have h1 := fmtInt_length c hc
  have h2 := fmtInt_length o ho
  simp only [entryLine, List.length_append, List.length_cons, List.length_nil,
    MaxScanTokenSize]
  omega

theorem storeEntry_eq (c o : Int) : storeEntry c o = entryLine c o ++ [chNewline] := rfl

/-- The bytes of a log that holds the entries of `pairs`. -/
theorem scanLines_entries (pairs : List (Int × Int))
    (h : ∀ pr ∈ pairs, IsInt64 pr.1 ∧ IsInt64 pr.2) :
    scanLines ((pairs.map (fun pr => storeEntry pr.1 pr.2)).flatten)
      = pairs.map (fun pr => entryLine pr.1 pr.2) := by
  induction pairs with
  | nil => rfl
  | cons pr rest ih =>
    have ih := ih (fun q hq => h q (List.mem_cons_of_mem _ hq))
    obtain ⟨h1, h2⟩ := h pr (List.mem_cons_self _ _)
    have hnl := entryLine_chars pr.1 pr.2 chNewline (by decide) (by decide) (by decide)
    have hcr := entryLine_chars pr.1 pr.2 chCR (by decide) (by decide) (by decide)
    have hlen := entryLine_length pr.1 pr.2 h1 h2
    simp only [List.map_cons, List.flatten_cons, storeEntry_eq, List.append_assoc,
      List.singleton_append]
    unfold scanLines at ih ⊢
    rw [rawLines_line _ _ hnl, List.takeWhile_cons]
    simp only [hlen, decide_True, if_true, List.map_cons, dropCR_eq _ hcr]
    rw [← ih]
    simp [storeEntry_eq]
/-! ## A node: store and retrieve -/

theorem StoreObject_local (g : Gob) (p : Peer) (f : StoreFile) (k reqID clientID objectID : Int)
    (hid : p.ID = chN :: fmtInt k) (hk : IsInt64 k) (hle : objectID ≤ k)
    (hopen : f.openAppendOk = true) (hwrite : f.writeOk = true) :
    StoreObject g p f reqID clientID objectID =
      some ({ f with content := some (f.content.getD [] ++ storeEntry clientID objectID) },
        match GetObjectStoredMessage g p.ID objectID clientID with
        | .ok byteMessage => [{ dest := p.bootstrapAddress, message := byteMessage }]
        | .error _ => []) := by
  unfold StoreObject
  rw [hid]
  simp only [Atoi_fmtInt k hk, hle, if_true, hopen, hwrite]
  cases GetObjectStoredMessage g (chN :: fmtInt k) objectID clientID <;> simp

theorem StoreObject_forward (g : Gob) (p : Peer) (f : StoreFile)
    (k reqID clientID objectID : Int)
    (hid : p.ID = chN :: fmtInt k) (hk : IsInt64 k) (hgt : k < objectID) :
    StoreObject g p f reqID clientID objectID =
      some (f, ForwardRequest g p reqID clientID objectID STORE) := by
  unfold StoreObject
  rw [hid]
  have : ¬ objectID ≤ k := by omega
  simp only [Atoi_fmtInt k hk, this, if_false]

theorem RetrieveObject_local (g : Gob) (p : Peer) (f : StoreFile)
    (k reqID clientID objectID : Int)
    (hid : p.ID = chN :: fmtInt k) (hk : IsInt64 k) (hle : objectID ≤ k) :
    RetrieveObject g p f reqID clientID objectID =
      match (if f.openReadOk then f.content else none) with
      | none => some []
      | some data => some (retrieveScan g p clientID objectID (scanLines data)) := by
  unfold RetrieveObject
  rw [hid]
  simp only [Atoi_fmtInt k hk, hle, if_true]

theorem RetrieveObject_forward (g : Gob) (p : Peer) (f : StoreFile)
    (k reqID clientID objectID : Int)
    (hid : p.ID = chN :: fmtInt k) (hk : IsInt64 k) (hgt : k < objectID) :
    RetrieveObject g p f reqID clientID objectID =
      some (ForwardRequest g p reqID clientID objectID RETRIEVE) := by
  unfold RetrieveObject
  rw [hid]
  have : ¬ objectID ≤ k := by omega
  simp only [Atoi_fmtInt k hk, this, if_false]

/-- A record the serializer carries: its builder returns a frame that reads back as it. -/
theorem Gob.Carries.frame {g : Gob} {p : Payload} (h : g.Carries p) :
    ∃ frame len, buildFrame g p = .ok frame ∧
      ReadMessage g frame
        = .ok ({ Header := { MsgType := p.tag, Length := len }, Payload := p }, []) := by
  obtain ⟨b, henc, hlen, hdec⟩ := h
  have := ReadMessage_buildFrame g p b [] henc hlen (decodePayload_of_decodesTo g p b hdec)
  rw [List.append_nil] at this
  exact ⟨_, _, this.1, this.2⟩

theorem storeAll_eq (g : Gob) (p : Peer) (k : Int) (hid : p.ID = chN :: fmtInt k)
    (hk : IsInt64 k) (calls : List (Int × Int × Int)) :
    ∀ f : StoreFile, f.openAppendOk = true → f.writeOk = true →
      storeAll g p f calls = some { f with content := logAfter f.content (keptPairs k calls) } := by
  induction calls with
  | nil => intro f _ _; rfl
  | cons call rest ih =>
    intro f hopen hwrite
    obtain ⟨reqID, clientID, objectID⟩ := call
    by_cases hle : objectID ≤ k
    · have hkept : keptPairs k ((reqID, clientID, objectID) :: rest)
          = (clientID, objectID) :: keptPairs k rest := by
        simp [keptPairs, hle]
      rw [storeAll, StoreObject_local g p f k reqID clientID objectID hid hk hle hopen hwrite,
        hkept]
      simp only
      rw [ih ⟨some (f.content.getD [] ++ storeEntry clientID objectID), f.openAppendOk,
        f.writeOk, f.openReadOk⟩ hopen hwrite]
      rfl
    · have hkept : keptPairs k ((reqID, clientID, objectID) :: rest) = keptPairs k rest := by
        simp [keptPairs, hle]
      rw [storeAll, StoreObject_forward g p f k reqID clientID objectID hid hk (by omega),
        hkept]
      simp only
      rw [ih f hopen hwrite]

theorem logAfter_some (x : Bytes) (pairs : List (Int × Int)) :
    logAfter (some x) pairs
      = some (x ++ (pairs.map (fun pr => storeEntry pr.1 pr.2)).flatten) := by
  induction pairs generalizing x with
  | nil => simp [logAfter]
  | cons pr rest ih => simp [logAfter, ih]

theorem logAfter_fresh (content : Option Bytes) (hfresh : content = none ∨ content = some [])
    (pairs : List (Int × Int)) :
    logAfter content pairs
      = if pairs = [] then content
        else some ((pairs.map (fun pr => storeEntry pr.1 pr.2)).flatten) := by
  cases pairs with
  | nil => rfl
  | cons pr rest =>
    rcases hfresh with h | h <;> subst h <;> simp [logAfter, logAfter_some]

theorem retrieveScan_entries (g : Gob) (p : Peer) (c o : Int) (frameHit frameMiss : Bytes)
    (hhit : GetObjectRetrievedMessage g 1 o = .ok frameHit)
    (hmiss : GetObjectRetrievedMessage g (-1) o = .ok frameMiss)
    (pairs : List (Int × Int)) (h : ∀ pr ∈ pairs, IsInt64 pr.1 ∧ IsInt64 pr.2) :
    retrieveScan g p c o (pairs.map (fun pr => entryLine pr.1 pr.2))
      = [{ dest := p.bootstrapAddress,
           message := if (c, o) ∈ pairs then frameHit else frameMiss }] := by
  induction pairs with
  | nil => simp [retrieveScan, hmiss]
  | cons pr rest ih =>
    have ih := ih (fun q hq => h q (List.mem_cons_of_mem _ hq))
    obtain ⟨h1, h2⟩ := h pr (List.mem_cons_self _ _)
    obtain ⟨hs, ha, hb⟩ := entryLine_parse pr.1 pr.2 h1 h2
    rw [List.map_cons, retrieveScan, hs]
    simp only [ha, hb]
    by_cases hm : pr.1 = c ∧ pr.2 = o
    · have hmem : (c, o) ∈ pr :: rest := by
        obtain ⟨e1, e2⟩ := hm
        subst e1 e2
        exact List.mem_cons_self _ _
      simp only [hm, and_self, if_true, hhit, hmem]
    · have hne : (c, o) ≠ pr := by
        rintro rfl
        exact hm ⟨rfl, rfl⟩
      simp only [hm, if_false, ih, List.mem_cons, hne, false_or]

theorem logAfter_cases (content : Option Bytes) (hfresh : content = none ∨ content = some [])
    (pairs : List (Int × Int)) :
    (logAfter content pairs = none ∧ pairs = []) ∨
    logAfter content pairs = some ((pairs.map (fun pr => storeEntry pr.1 pr.2)).flatten) := by
  rw [logAfter_fresh content hfresh]
  cases pairs with
  | nil =>
    rcases hfresh with h | h
    · exact Or.inl ⟨by simp [h], rfl⟩
    · exact Or.inr (by simp [h])
  | cons pr rest => exact Or.inr (by simp)

theorem mem_keptPairs (k : Int) (calls : List (Int × Int × Int)) (c o : Int) :
    (c, o) ∈ keptPairs k calls ↔ ∃ call ∈ calls, call.2.1 = c ∧ call.2.2 = o ∧ o ≤ k := by
  simp only [keptPairs, List.mem_map, List.mem_filter, decide_eq_true_eq, Prod.mk.injEq]
  constructor
  · rintro ⟨call, ⟨hmem, hle⟩, h1, h2⟩
    exact ⟨call, hmem, h1, h2, h2 ▸ hle⟩
  · rintro ⟨call, hmem, h1, h2, hle⟩
    exact ⟨call, ⟨hmem, h2 ▸ hle⟩, h1, h2⟩

theorem keptPairs_int64 (k : Int) (calls : List (Int × Int × Int))
    (h : ∀ call ∈ calls, IsInt64 call.2.1 ∧ IsInt64 call.2.2) :
    ∀ pr ∈ keptPairs k calls, IsInt64 pr.1 ∧ IsInt64 pr.2 := by
  intro pr hpr
  simp only [keptPairs, List.mem_map, List.mem_filter] at hpr
  obtain ⟨call, ⟨hmem, _⟩, rfl⟩ := hpr
  exact h call hmem

/-- What `RetrieveObject` sends at the node responsible for `o`, over a log written by
`StoreObject` calls only: nothing while the store file does not exist, otherwise one frame to
the coordinator, the hit frame when the pair was stored and the miss frame when it was not. -/
theorem RetrieveObject_after_stores (g : Gob) (p : Peer) (k : Int) (f0 : StoreFile)
    (calls : List (Int × Int × Int)) (reqID c o : Int) (frameHit frameMiss : Bytes)
    (hid : p.ID = chN :: fmtInt k) (hk : IsInt64 k)
    (hfresh : f0.content = none ∨ f0.content = some [])
    (hopen : f0.openAppendOk = true) (hwrite : f0.writeOk = true)
    (hread : f0.openReadOk = true)
    (hcalls : ∀ call ∈ calls, IsInt64 call.2.1 ∧ IsInt64 call.2.2)
    (hle : o ≤ k)
    (hhit : GetObjectRetrievedMessage g 1 o = .ok frameHit)
    (hmiss : GetObjectRetrievedMessage g (-1) o = .ok frameMiss) :
    ∃ f, storeAll g p f0 calls = some f ∧
      ((f.content = none ∧ keptPairs k calls = [] ∧
          RetrieveObject g p f reqID c o = some []) ∨
       (f.content ≠ none ∧
          RetrieveObject g p f reqID c o
            = some [{ dest := p.bootstrapAddress,
                      message := if (c, o) ∈ keptPairs k calls then frameHit
                                 else frameMiss }])) := by
  refine ⟨_, storeAll_eq g p k hid hk calls f0 hopen hwrite, ?_⟩
  rw [RetrieveObject_local g p _ k reqID c o hid hk hle]
  simp only [hread, if_true]
  rcases logAfter_cases f0.content hfresh (keptPairs k calls) with ⟨h1, h2⟩ | h
  · left
    simp only [h1]
    exact ⟨trivial, h2, trivial⟩
  · right
    simp only [h]
    refine ⟨by simp, ?_⟩
    rw [scanLines_entries _ (keptPairs_int64 k calls hcalls),
      retrieveScan_entries g p c o frameHit frameMiss hhit hmiss _
        (keptPairs_int64 k calls hcalls)]

/-! ## The log as lines -/

theorem rawLines_terminated_ne_nil (a rest : Bytes) :
    rawLines (a ++ chNewline :: rest) ≠ [] := by
  induction a with
  | nil => simp [rawLines_cons]
  | cons c a ih =>
    rw [List.cons_append, rawLines_cons]
    split
    · simp
    · cases h : rawLines (a ++ chNewline :: rest) with
      | nil => exact absurd h ih
      | cons l ls => simp [consHead]

/-- Bytes written after a newline do not touch the lines before it. -/
theorem rawLines_append_terminated (a rest : Bytes) :
    rawLines (a ++ [chNewline] ++ rest) = rawLines (a ++ [chNewline]) ++ rawLines rest := by
  induction a with
  | nil => simp [rawLines_cons, rawLines]
  | cons c a ih =>
    simp only [List.cons_append, rawLines_cons] at ih ⊢
    split
    · rw [ih]
      rfl
    · rw [ih]
      have hne := rawLines_terminated_ne_nil a []
      cases h : rawLines (a ++ [chNewline]) with
      | nil => exact absurd h hne
      | cons l ls => simp [consHead]

/-- Appending one terminated line to a log that is empty or ends with a newline adds that line
after the lines of the log, which stay as they are. -/
theorem rawLines_append_line (old l : Bytes)
    (hterm : old = [] ∨ old.getLast? = some chNewline) (hl : chNewline ∉ l) :
    rawLines (old ++ (l ++ [chNewline])) = rawLines old ++ [l] := by
  have hline : rawLines (l ++ [chNewline]) = [l] := by
    have := rawLines_line l [] hl
    simpa [rawLines] using this
  rcases hterm with h | h
  · rw [h, List.nil_append, hline]
    rfl
  · obtain ⟨a, ha⟩ := List.getLast?_eq_some_iff.mp h
    rw [ha, rawLines_append_terminated a (l ++ [chNewline]), hline]

/-- The scanner of `RetrieveObject` on the log after such an append, when every line of the log
fits the scanner's buffer: the lines it read before, then the new entry. -/
theorem scanLines_append_entry (old : Bytes) (c o : Int)
    (hterm : old = [] ∨ old.getLast? = some chNewline)
    (hc : IsInt64 c) (ho : IsInt64 o)
    (hshort : ∀ l ∈ rawLines old, l.length < MaxScanTokenSize) :
    scanLines (old ++ storeEntry c o) = scanLines old ++ [entryLine c o] := by
  have hnl := entryLine_chars c o chNewline (by decide) (by decide) (by decide)
  have hcr := entryLine_chars c o chCR (by decide) (by decide) (by decide)
  have hlen := entryLine_length c o hc ho
  unfold scanLines
  rw [storeEntry_eq, rawLines_append_line old _ hterm hnl]
  have h1 : (rawLines old).takeWhile (fun l => decide (l.length < MaxScanTokenSize))
      = rawLines old := by
    rw [List.takeWhile_eq_self_iff]
    intro l hl
    simpa using hshort l hl
  have h2 : (rawLines old ++ [entryLine c o]).takeWhile
      (fun l => decide (l.length < MaxScanTokenSize)) = rawLines old ++ [entryLine c o] := by
    rw [List.takeWhile_eq_self_iff]
    intro l hl
    rcases List.mem_append.mp hl with h | h
    · simpa using hshort l h
    · rw [List.mem_singleton.mp h]
      simpa using hlen
  rw [h1, h2, List.map_append, List.map_singleton, dropCR_eq _ hcr]

/-- Claim C8 (amended). Store decision at a node with identifier `"n" + k`, file operations
succeeding and the serializer carrying the two records involved. If `objectID ≤ k`,
`StoreObject` appends the bytes `clientID::objectID\n` at the end of the log (all earlier bytes
unchanged, the file created when absent) and sends exactly one frame, to the coordinator, which
reads as `ObjectStored(selfID, objectID, clientID)`. When the log before was absent, empty or
ended with a newline, the lines of the log afterwards are its lines before, unchanged, followed
by the one line `clientID::objectID`; that line splits at `::` into two parts that parse back to
`clientID` and `objectID`; and when every earlier line fits the scanner's buffer, the scanner of
`RetrieveObject` reads on the new log the lines it read on the old one followed by the new
line. If `objectID > k` and a successor is set, the log is unchanged and exactly one frame is
sent, to the successor, which reads as the `Request` with the same reqID, operation Store,
objectID and clientID. -/
theorem StoreObject_decision (g : Gob) (p : Peer) (f : StoreFile)
    (k reqID clientID objectID : Int)
    (hid : p.ID = chN :: fmtInt k) (hk : IsInt64 k)
    (hopen : f.openAppendOk = true) (hwrite : f.writeOk = true)
    (hstored : g.Carries
      (.objStored { PeerId := p.ID, ObjectID := objectID, ClientID := clientID }))
    (hreq : g.Carries (.request
      { ReqID := reqID, OperationType := STORE, ObjectID := objectID, ClientID := clientID })) :
    (objectID ≤ k →
      ∃ frame len,
        StoreObject g p f reqID clientID objectID
          = some ({ f with content := some (f.content.getD [] ++ fmtInt clientID
                      ++ [chColon, chColon] ++ fmtInt objectID ++ [chNewline]) },
                  [{ dest := p.bootstrapAddress, message := frame }]) ∧
        ReadMessage g frame
          = .ok ({ Header := { MsgType := OBJ_STORED, Length := len },
                   Payload := .objStored
                     { PeerId := p.ID, ObjectID := objectID, ClientID := clientID } }, []) ∧
        ((f.content.getD [] = [] ∨ (f.content.getD []).getLast? = some chNewline) →
          rawLines (f.content.getD [] ++ fmtInt clientID ++ [chColon, chColon]
              ++ fmtInt objectID ++ [chNewline])
            = rawLines (f.content.getD [])
                ++ [fmtInt clientID ++ [chColon, chColon] ++ fmtInt objectID] ∧
          (IsInt64 clientID → IsInt64 objectID →
            SplitColons (fmtInt clientID ++ [chColon, chColon] ++ fmtInt objectID)
              = [fmtInt clientID, fmtInt objectID] ∧
            Atoi (fmtInt clientID) = clientID ∧ Atoi (fmtInt objectID) = objectID ∧
            ((∀ l ∈ rawLines (f.content.getD []), l.length < MaxScanTokenSize) →
              scanLines (f.content.getD [] ++ fmtInt clientID ++ [chColon, chColon]
                  ++ fmtInt objectID ++ [chNewline])
                = scanLines (f.content.getD [])
                    ++ [fmtInt clientID ++ [chColon, chColon] ++ fmtInt objectID])))) ∧
    (k < objectID → p.Successor ≠ [] →
      ∃ frame len,
        StoreObject g p f reqID clientID objectID
          = some (f, [{ dest := p.Successor, message := frame }]) ∧
        ReadMessage g frame
          = .ok ({ Header := { MsgType := REQUEST, Length := len },
                   Payload := .request
                     { ReqID := reqID, OperationType := STORE, ObjectID := objectID,
                       ClientID := clientID } }, [])) := by
  constructor
  · intro hle
    obtain ⟨frame, len, hb, hr⟩ := hstored.frame
    have happ : f.content.getD [] ++ fmtInt clientID ++ [chColon, chColon]
        ++ fmtInt objectID ++ [chNewline]
        = f.content.getD [] ++ storeEntry clientID objectID := by
      simp [storeEntry]
    refine ⟨frame, len, ?_, hr, ?_⟩
    · have hb1 : GetObjectStoredMessage g p.ID objectID clientID = .ok frame := hb
      rw [StoreObject_local g p f k reqID clientID objectID hid hk hle hopen hwrite, hb1]
      simp [storeEntry]
    · intro hterm
      have hnl := entryLine_chars clientID objectID chNewline (by decide) (by decide)
        (by decide)
      refine ⟨?_, ?_⟩
      · rw [happ, storeEntry_eq]
        exact rawLines_append_line _ _ hterm hnl
      · intro hc ho
        obtain ⟨h1, h2, h3⟩ := entryLine_parse clientID objectID hc ho
        refine ⟨h1, h2, h3, ?_⟩
        intro hshort
        rw [happ]
        exact scanLines_append_entry _ clientID objectID hterm hc ho hshort
  · intro hgt hsucc
    obtain ⟨frame, len, hb, hr⟩ := hreq.frame
    refine ⟨frame, len, ?_, hr⟩
    have hb1 : GetRequestMessage g reqID STORE objectID clientID = .ok frame := hb
    rw [StoreObject_forward g p f k reqID clientID objectID hid hk hgt]
    simp [ForwardRequest, hsucc, hb1]

/-- Claim C8 (amended) at node `n20` with successor `n30`, whose log holds the entry `1::2`
with its newline, under `plainGob`: a Store of object 5 for client 7 is kept, as a second line
after the first, and a Store of object 25 is forwarded. -/
theorem StoreObject_decision_witness :
    (∃ frame len,
      StoreObject plainGob
          { ID := str "n20", Predecessor := str "n10", Successor := str "n30",
            StoreFilePath := str "objects.txt", bootstrapAddress := str "bootstrap" }
          { content := some (str "1::2\n"), openAppendOk := true, writeOk := true,
            openReadOk := true }
          1 7 5
        = some ({ content := some (str "1::2\n7::5\n"), openAppendOk := true,
                  writeOk := true, openReadOk := true },
                [{ dest := str "bootstrap", message := frame }]) ∧
      ReadMessage plainGob frame
        = .ok ({ Header := { MsgType := OBJ_STORED, Length := len },
                 Payload := .objStored
                   { PeerId := str "n20", ObjectID := 5, ClientID := 7 } }, []) ∧
      rawLines (str "1::2\n7::5\n") = [str "1::2", str "7::5"] ∧
      SplitColons (str "7::5") = [str "7", str "5"] ∧
      Atoi (str "7") = 7 ∧ Atoi (str "5") = 5 ∧
      scanLines (str "1::2\n7::5\n") = [str "1::2", str "7::5"]) ∧
    (∃ frame len,
      StoreObject plainGob
          { ID := str "n20", Predecessor := str "n10", Successor := str "n30",
            StoreFilePath := str "objects.txt", bootstrapAddress := str "bootstrap" }
          { content := some (str "1::2\n"), openAppendOk := true, writeOk := true,
            openReadOk := true }
          1 7 25
        = some ({ content := some (str "1::2\n"), openAppendOk := true, writeOk := true,
                  openReadOk := true },
                [{ dest := str "n30", message := frame }]) ∧
      ReadMessage plainGob frame
        = .ok ({ Header := { MsgType := REQUEST, Length := len },
                 Payload := .request
                   { ReqID := 1, OperationType := STORE, ObjectID := 25, ClientID := 7 } },
               [])) := by
  constructor
  · obtain ⟨frame, len, h1, h2, h3⟩ :=
      (StoreObject_decision plainGob
        { ID := str "n20", Predecessor := str "n10", Successor := str "n30",
          StoreFilePath := str "objects.txt", bootstrapAddress := str "bootstrap" }
        { content := some (str "1::2\n"), openAppendOk := true, writeOk := true,
          openReadOk := true }
        20 1 7 5 (by decide) (by decide) rfl rfl
        ⟨_, rfl, by decide, by decide⟩ ⟨_, rfl, by decide, by decide⟩).1 (by decide)
    obtain ⟨h4, h5⟩ := h3 (Or.inr (by decide))
    obtain ⟨h6, h7, h8, h9⟩ := h5 (by decide) (by decide)
    exact ⟨frame, len, h1, h2, h4, h6, h7, h8, h9 (by decide)⟩
  · exact (StoreObject_decision plainGob
      { ID := str "n20", Predecessor := str "n10", Successor := str "n30",
        StoreFilePath := str "objects.txt", bootstrapAddress := str "bootstrap" }
      { content := some (str "1::2\n"), openAppendOk := true, writeOk := true,
        openReadOk := true }
      20 1 7 25 (by decide) (by decide) rfl rfl
      ⟨_, rfl, by decide, by decide⟩ ⟨_, rfl, by decide, by decide⟩).2 (by decide)
      (by decide)

/-- Claim C8 as first worded fails on a log whose last line has no newline. At node `n20` the
log is the 4 bytes `1::2`: a retrieve of `(clientID 1, objectID 2)` is answered with status 1.
`StoreObject(1, 7, 5)` writes `7::5\n` behind them and sends `ObjectStored(n20, 5, 7)`; the log
is then the single line `1::27::5`, which splits into three parts: the earlier entry is gone,
the new one is no entry, and retrieves of `(1, 2)` and of `(7, 5)` are both answered with
status -1. -/
theorem StoreObject_joins_unterminated_line :
    (StoreObject plainGob (examplePeer "n20" "n10" "n30" none).peer
        { content := some (str "1::2"), openAppendOk := true, writeOk := true,
          openReadOk := true } 1 7 5).map
        (fun r => (r.1.content, r.2.map (fun s =>
          (s.dest, (ReadMessage plainGob s.message).map (fun m => m.1.Payload)))))
      = some (some (str "1::27::5\n"),
          [(str "bootstrap",
            .ok (.objStored { PeerId := str "n20", ObjectID := 5, ClientID := 7 }))]) ∧
    rawLines (str "1::2") = [str "1::2"] ∧
    rawLines (str "1::27::5\n") = [str "1::27::5"] ∧
    SplitColons (str "1::27::5") = [str "1", str "27", str "5"] ∧
    (RetrieveObject plainGob (examplePeer "n20" "n10" "n30" none).peer
        { content := some (str "1::2"), openAppendOk := true, writeOk := true,
          openReadOk := true } 2 1 2).map
        (fun sends => sends.map (fun s =>
          (s.dest, (ReadMessage plainGob s.message).map (fun m => m.1.Payload))))
      = some [(str "bootstrap", .ok (.objRetrieved { Status := 1, ObjectId := 2 }))] ∧
    (RetrieveObject plainGob (examplePeer "n20" "n10" "n30" none).peer
        { content := some (str "1::27::5\n"), openAppendOk := true, writeOk := true,
          openReadOk := true } 2 1 2).map
        (fun sends => sends.map (fun s =>
          (s.dest, (ReadMessage plainGob s.message).map (fun m => m.1.Payload))))
      = some [(str "bootstrap", .ok (.objRetrieved { Status := -1, ObjectId := 2 }))] ∧
    (RetrieveObject plainGob (examplePeer "n20" "n10" "n30" none).peer
        { content := some (str "1::27::5\n"), openAppendOk := true, writeOk := true,
          openReadOk := true } 3 7 5).map
        (fun sends => sends.map (fun s =>
          (s.dest, (ReadMessage plainGob s.message).map (fun m => m.1.Payload))))
      = some [(str "bootstrap", .ok (.objRetrieved { Status := -1, ObjectId := 5 }))] :=
  ⟨by decide, by decide, by decide, by decide, by decide, by decide, by decide⟩

/-- Claim C9. Store/retrieve round trip on one node with identifier `"n" + k`: over a log that
starts absent or empty and is written only by the `StoreObject` calls of `calls` (file
operations succeeding), a `RetrieveObject(reqID, c, o)` with `o ≤ k` sends a frame that reads as
`ObjectRetrieved(1, o)` if and only if one of the calls stored the pair `(c, o)`. And the entry
written for `(c, o)` splits on `::` into the two printed numbers, which parse back to `c` and
`o`. All integers are Go `int`s, negative ones included. -/
theorem store_retrieve_roundtrip (g : Gob) (p : Peer) (k : Int) (f0 : StoreFile)
    (calls : List (Int × Int × Int)) (reqID c o : Int)
    (hid : p.ID = chN :: fmtInt k) (hk : IsInt64 k)
    (hfresh : f0.content = none ∨ f0.content = some [])
    (hopen : f0.openAppendOk = true) (hwrite : f0.writeOk = true)
    (hread : f0.openReadOk = true)
    (hcalls : ∀ call ∈ calls, IsInt64 call.2.1 ∧ IsInt64 call.2.2)
    (hc : IsInt64 c) (ho : IsInt64 o) (hle : o ≤ k)
    (hhit : g.Carries (.objRetrieved { Status := 1, ObjectId := o }))
    (hmiss : g.Carries (.objRetrieved { Status := -1, ObjectId := o })) :
    (∃ f, storeAll g p f0 calls = some f ∧
      ((∃ frame len,
          RetrieveObject g p f reqID c o
            = some [{ dest := p.bootstrapAddress, message := frame }] ∧
          ReadMessage g frame
            = .ok ({ Header := { MsgType := OBJ_RETRIEVED, Length := len },
                     Payload := .objRetrieved { Status := 1, ObjectId := o } }, []))
        ↔ ∃ call ∈ calls, call.2.1 = c ∧ call.2.2 = o)) ∧
    SplitColons (fmtInt c ++ [chColon, chColon] ++ fmtInt o) = [fmtInt c, fmtInt o] ∧
    Atoi (fmtInt c) = c ∧ Atoi (fmtInt o) = o := by
  refine ⟨?_, entryLine_parse c o hc ho⟩
  obtain ⟨fh, lh, hbh, hrh⟩ := hhit.frame
  obtain ⟨fm, lm, hbm, hrm⟩ := hmiss.frame
  have hbh1 : GetObjectRetrievedMessage g 1 o = .ok fh := hbh
  have hbm1 : GetObjectRetrievedMessage g (-1) o = .ok fm := hbm
  obtain ⟨f, hf, hcase⟩ := RetrieveObject_after_stores g p k f0 calls reqID c o fh fm hid hk
    hfresh hopen hwrite hread hcalls hle hbh1 hbm1
  refine ⟨f, hf, ?_⟩
  have hmem : (c, o) ∈ keptPairs k calls ↔ ∃ call ∈ calls, call.2.1 = c ∧ call.2.2 = o := by
    rw [mem_keptPairs]
    constructor
    · rintro ⟨call, h1, h2, h3, _⟩
      exact ⟨call, h1, h2, h3⟩
    · rintro ⟨call, h1, h2, h3⟩
      exact ⟨call, h1, h2, h3, hle⟩
  rw [← hmem]
  rcases hcase with ⟨_, hnil, hret⟩ | ⟨_, hret⟩
  · rw [hret, hnil]
    constructor
    · rintro ⟨frame, len, h, _⟩
      simp at h
    · intro h
      cases h
  · rw [hret]
    constructor
    · rintro ⟨frame, len, h, hr⟩
      by_contra hnot
      simp only [hnot, if_false, Option.some.injEq, List.cons.injEq, Send.mk.injEq,
        and_true, true_and] at h
      subst h
      rw [hrm] at hr
      simp at hr
    · intro h
      exact ⟨fh, lh, by simp [h], hrh⟩

/-- Claim C9 at node `n20` under `plainGob`: after `StoreObject(1, 7, 5)` and
`StoreObject(2, 7, 25)` on an absent store file, `RetrieveObject(3, 7, 5)`. -/
theorem store_retrieve_roundtrip_witness :
    (∃ f, storeAll plainGob
          { ID := str "n20", Predecessor := str "n10", Successor := str "n30",
            StoreFilePath := str "objects.txt", bootstrapAddress := str "bootstrap" }
          { content := none, openAppendOk := true, writeOk := true, openReadOk := true }
          [(1, 7, 5), (2, 7, 25)] = some f ∧
      ((∃ frame len,
          RetrieveObject plainGob
              { ID := str "n20", Predecessor := str "n10", Successor := str "n30",
                StoreFilePath := str "objects.txt", bootstrapAddress := str "bootstrap" }
              f 3 7 5
            = some [{ dest := str "bootstrap", message := frame }] ∧
          ReadMessage plainGob frame
            = .ok ({ Header := { MsgType := OBJ_RETRIEVED, Length := len },
                     Payload := .objRetrieved { Status := 1, ObjectId := 5 } }, []))
        ↔ ∃ call ∈ [((1 : Int), (7 : Int), (5 : Int)), (2, 7, 25)],
            call.2.1 = 7 ∧ call.2.2 = 5)) ∧
    SplitColons (fmtInt 7 ++ [chColon, chColon] ++ fmtInt 5) = [fmtInt 7, fmtInt 5] ∧
    Atoi (fmtInt 7) = 7 ∧ Atoi (fmtInt 5) = 5 :=
  store_retrieve_roundtrip plainGob
    { ID := str "n20", Predecessor := str "n10", Successor := str "n30",
      StoreFilePath := str "objects.txt", bootstrapAddress := str "bootstrap" }
    20 { content := none, openAppendOk := true, writeOk := true, openReadOk := true }
    [(1, 7, 5), (2, 7, 25)] 3 7 5 (by decide) (by decide) (Or.inl rfl) rfl rfl rfl
    (by decide) (by decide) (by decide) (by decide)
    ⟨_, rfl, by decide, by decide⟩ ⟨_, rfl, by decide, by decide⟩

/-- A retrieve at the responsible node finds no store file: nothing is sent, for every
serializer. -/
theorem RetrieveObject_absent_file (g : Gob) (p : Peer) (f : StoreFile)
    (k reqID c o : Int) (hid : p.ID = chN :: fmtInt k) (hk : IsInt64 k) (hle : o ≤ k)
    (hnone : f.content = none) :
    RetrieveObject g p f reqID c o = some [] := by
  rw [RetrieveObject_local g p f k reqID c o hid hk hle, hnone]
  simp

/-- A retrieve miss over an existing log written by `StoreObject` calls is answered with one
frame to the coordinator that reads as `ObjectRetrieved(-1, o)`. -/
theorem RetrieveObject_miss_answered (g : Gob) (p : Peer) (k : Int) (f0 : StoreFile)
    (calls : List (Int × Int × Int)) (reqID c o : Int)
    (hid : p.ID = chN :: fmtInt k) (hk : IsInt64 k)
    (hexists : f0.content = some [])
    (hopen : f0.openAppendOk = true) (hwrite : f0.writeOk = true)
    (hread : f0.openReadOk = true)
    (hcalls : ∀ call ∈ calls, IsInt64 call.2.1 ∧ IsInt64 call.2.2)
    (hle : o ≤ k)
    (hnever : ∀ call ∈ calls, ¬ (call.2.1 = c ∧ call.2.2 = o))
    (hhit : g.Carries (.objRetrieved { Status := 1, ObjectId := o }))
    (hmiss : g.Carries (.objRetrieved { Status := -1, ObjectId := o })) :
    ∃ f frame len, storeAll g p f0 calls = some f ∧
      RetrieveObject g p f reqID c o
        = some [{ dest := p.bootstrapAddress, message := frame }] ∧
      ReadMessage g frame
        = .ok ({ Header := { MsgType := OBJ_RETRIEVED, Length := len },
                 Payload := .objRetrieved { Status := -1, ObjectId := o } }, []) := by
  obtain ⟨fh, lh, hbh, hrh⟩ := hhit.frame
  obtain ⟨fm, lm, hbm, hrm⟩ := hmiss.frame
  have hbh1 : GetObjectRetrievedMessage g 1 o = .ok fh := hbh
  have hbm1 : GetObjectRetrievedMessage g (-1) o = .ok fm := hbm
  have hf := storeAll_eq g p k hid hk calls f0 hopen hwrite
  obtain ⟨f, hf2, hcase⟩ := RetrieveObject_after_stores g p k f0 calls reqID c o fh fm hid hk
    (Or.inr hexists) hopen hwrite hread hcalls hle hbh1 hbm1
  have hnot : (c, o) ∉ keptPairs k calls := by
    rw [mem_keptPairs]
    rintro ⟨call, h1, h2, h3, _⟩
    exact hnever call h1 ⟨h2, h3⟩
  rcases hcase with ⟨hnone, _, _⟩ | ⟨_, hret⟩
  · rw [hf] at hf2
    cases hf2
    rw [hexists, logAfter_some] at hnone
    cases hnone
  · refine ⟨f, fm, lm, hf2, ?_, hrm⟩
    rw [hret]
    simp [hnot]

/-- Claim C10, the code at a failing input: node `n10` has stored nothing and has no store file;
a `RetrieveObject(1, 1, 5)` (5 ≤ 10, the pair never stored) sends nothing at all, where the
claim has one `ObjectRetrieved(-1, 5)` sent to the coordinator. -/
theorem RetrieveObject_miss_unanswered_without_file :
    RetrieveObject plainGob
        { ID := str "n10", Predecessor := str "n30", Successor := str "n20",
          StoreFilePath := str "objects.txt", bootstrapAddress := str "bootstrap" }
        { content := none, openAppendOk := true, writeOk := true, openReadOk := true }
        1 1 5
      = some [] := by
  decide

/-! ## Routing along the ring -/

theorem extractNumber_cons (rest : GoString) : extractNumber (chN :: rest) = Atoi rest := by
  simp [extractNumber, TrimPrefixN]

theorem StoreObject_of_lt (g : Gob) (p : Peer) (f : StoreFile) (reqID clientID objectID : Int)
    (rest : GoString) (hid : p.ID = chN :: rest) (h : extractNumber p.ID < objectID) :
    StoreObject g p f reqID clientID objectID
      = some (f, ForwardRequest g p reqID clientID objectID STORE) := by
  rw [hid, extractNumber_cons] at h
  unfold StoreObject
  rw [hid]
  have : ¬ objectID ≤ Atoi rest := by omega
  simp only [this, if_false]

theorem RetrieveObject_of_lt (g : Gob) (p : Peer) (f : StoreFile)
    (reqID clientID objectID : Int)
    (rest : GoString) (hid : p.ID = chN :: rest) (h : extractNumber p.ID < objectID) :
    RetrieveObject g p f reqID clientID objectID
      = some (ForwardRequest g p reqID clientID objectID RETRIEVE) := by
  rw [hid, extractNumber_cons] at h
  unfold RetrieveObject
  rw [hid]
  have : ¬ objectID ≤ Atoi rest := by omega
  simp only [this, if_false]

theorem retrieveScan_shape (g : Gob) (p : Peer) (c o : Int) (lines : List GoString) :
    (retrieveScan g p c o lines).length ≤ 1 ∧
    ∀ s ∈ retrieveScan g p c o lines, s.dest = p.bootstrapAddress := by
  induction lines with
  | nil =>
    rw [retrieveScan]
    cases GetObjectRetrievedMessage g (-1) o <;> simp
  | cons line rest ih =>
    rw [retrieveScan]
    split
    · rename_i part0 part1 _
      simp only
      by_cases hm : Atoi part0 = c ∧ Atoi part1 = o
      · simp only [hm, and_self, if_true]
        cases GetObjectRetrievedMessage g 1 o
        · exact ih
        · simp
      · simp only [hm, if_false]
        exact ih
    · exact ih

theorem StoreObject_of_le (g : Gob) (p : Peer) (f : StoreFile) (reqID clientID objectID : Int)
    (rest : GoString) (hid : p.ID = chN :: rest) (h : objectID ≤ extractNumber p.ID) :
    ∃ f1 sends, StoreObject g p f reqID clientID objectID = some (f1, sends) ∧
      sends.length ≤ 1 ∧ ∀ s ∈ sends, s.dest = p.bootstrapAddress := by
  rw [hid, extractNumber_cons] at h
  unfold StoreObject
  rw [hid]
  simp only [h, if_true]
  by_cases h1 : f.openAppendOk = false
  · rw [if_pos h1]
    exact ⟨f, [], rfl, by simp, by simp⟩
  · rw [if_neg h1]
    by_cases h2 : f.writeOk = false
    · rw [if_pos h2]
      exact ⟨_, [], rfl, by simp, by simp⟩
    · rw [if_neg h2]
      cases GetObjectStoredMessage g (chN :: rest) objectID clientID
      · exact ⟨_, [], rfl, by simp, by simp⟩
      · exact ⟨_, [_], rfl, by simp, by simp⟩

theorem RetrieveObject_of_le (g : Gob) (p : Peer) (f : StoreFile)
    (reqID clientID objectID : Int)
    (rest : GoString) (hid : p.ID = chN :: rest) (h : objectID ≤ extractNumber p.ID) :
    ∃ sends, RetrieveObject g p f reqID clientID objectID = some sends ∧
      sends.length ≤ 1 ∧ ∀ s ∈ sends, s.dest = p.bootstrapAddress := by
  rw [hid, extractNumber_cons] at h
  unfold RetrieveObject
  rw [hid]
  simp only [h, if_true]
  split
  · exact ⟨_, rfl, by simp, by simp⟩
  · exact ⟨_, rfl, (retrieveScan_shape g p _ _ _).1, (retrieveScan_shape g p _ _ _).2⟩

/-- A node whose key is below the objectID passes the frame it received on to its successor,
unchanged, and keeps its state. -/
theorem receive_forwards (g : Gob) (node : Node) (req : RequestMessage) (frame : Bytes)
    (len : Nat) (rest : GoString)
    (hid : node.peer.ID = chN :: rest) (hlt : node.key < req.ObjectID)
    (hsucc : node.peer.Successor ≠ [])
    (hop : req.OperationType = STORE ∨ req.OperationType = RETRIEVE)
    (hbuild : buildFrame g (.request req) = .ok frame)
    (hread : ReadMessage g frame
      = .ok ({ Header := { MsgType := REQUEST, Length := len }, Payload := .request req }, [])) :
    receive g node frame
      = some (node, [{ dest := node.peer.Successor, message := frame }]) := by
  have hb : GetRequestMessage g req.ReqID req.OperationType req.ObjectID req.ClientID
      = .ok frame := hbuild
  unfold receive
  rw [hread]
  simp only [handleMessage, if_true]
  rcases hop with h | h
  · rw [h] at hb
    simp only [h, if_true, StoreObject_of_lt g node.peer node.file _ _ _ rest hid hlt,
      ForwardRequest, hsucc, if_false, hb]
  · rw [h] at hb
    have hne : RETRIEVE ≠ STORE := by decide
    simp only [h, hne, if_true, if_false,
      RetrieveObject_of_lt g node.peer node.file _ _ _ rest hid hlt,
      ForwardRequest, hsucc, hb]

/-- A node whose key is at least the objectID handles the request itself: it keeps its peer
data, and sends at most one frame, to the coordinator. -/
theorem handleMessage_local (g : Gob) (node : Node) (req : RequestMessage) (len : Nat)
    (rest : GoString)
    (hid : node.peer.ID = chN :: rest) (hle : req.ObjectID ≤ node.key)
    (hop : req.OperationType = STORE ∨ req.OperationType = RETRIEVE) :
    ∃ node1 replies,
      handleMessage g node
          { Header := { MsgType := REQUEST, Length := len }, Payload := .request req }
        = some (node1, replies) ∧
      node1.peer = node.peer ∧ replies.length ≤ 1 ∧
      ∀ s ∈ replies, s.dest = node.peer.bootstrapAddress := by
  simp only [handleMessage, if_true]
  rcases hop with h | h
  · obtain ⟨f1, sends, hs, h1, h2⟩ :=
      StoreObject_of_le g node.peer node.file req.ReqID req.ClientID req.ObjectID rest hid hle
    simp only [h, if_true, hs]
    exact ⟨_, _, rfl, rfl, h1, h2⟩
  · obtain ⟨sends, hs, h1, h2⟩ :=
      RetrieveObject_of_le g node.peer node.file req.ReqID req.ClientID req.ObjectID rest hid hle
    have hne : RETRIEVE ≠ STORE := by decide
    simp only [h, hne, if_true, if_false, hs]
    exact ⟨_, _, rfl, rfl, h1, h2⟩

theorem find_node (ns : List Node) (hnd : ns.Pairwise (fun a b => a.peer.ID ≠ b.peer.ID)) :
    ∀ (i : Nat) (node : Node), ns[i]? = some node →
      ns.find? (fun m => decide (m.peer.ID = node.peer.ID)) = some node := by
  induction ns with
  | nil => intro i node h; simp at h
  | cons a l ih =>
    intro i node h
    rw [List.pairwise_cons] at hnd
    cases i with
    | zero =>
      simp only [List.getElem?_cons_zero, Option.some.injEq] at h
      subst h
      simp
    | succ i =>
      simp only [List.getElem?_cons_succ] at h
      have hmem : node ∈ l := List.getElem?_mem h
      have hne : a.peer.ID ≠ node.peer.ID := hnd.1 node hmem
      rw [List.find?_cons]
      simp only [hne, decide_False]
      exact ih hnd.2 i node h

theorem setNode_eq_set (ns : List Node)
    (hnd : ns.Pairwise (fun a b => a.peer.ID ≠ b.peer.ID)) :
    ∀ (i : Nat) (node node1 : Node), ns[i]? = some node →
      setNode node.peer.ID node1 ns = ns.set i node1 := by
  induction ns with
  | nil => intro i node node1 h; simp at h
  | cons a l ih =>
    intro i node node1 h
    rw [List.pairwise_cons] at hnd
    cases i with
    | zero =>
      simp only [List.getElem?_cons_zero, Option.some.injEq] at h
      subst h
      simp [setNode]
    | succ i =>
      simp only [List.getElem?_cons_succ] at h
      have hmem : node ∈ l := List.getElem?_mem h
      have hne : a.peer.ID ≠ node.peer.ID := hnd.1 node hmem
      simp only [setNode, hne, if_false, List.set_cons_succ, ih hnd.2 i node node1 h]

theorem set_self {α : Type} (l : List α) (i : Nat) (a : α) (h : l[i]? = some a) :
    l.set i a = l := by
  apply List.ext_getElem?
  intro j
  rw [List.getElem?_set]
  by_cases hij : i = j
  · subst hij
    have hlt : i < l.length := by
      rcases List.getElem?_eq_some.mp h with ⟨hl, _⟩
      exact hl
    simp [hlt, h]
  · simp [hij]

theorem run_succ_last (g : Gob) (k : Nat) :
    ∀ net, Network.run g (k + 1) net = (Network.run g k net).bind (Network.step g) := by
  induction k with
  | zero =>
    intro net
    cases h : Network.step g net <;> simp [Network.run, h]
  | succ k ih =>
    intro net
    rw [Network.run]
    cases h : Network.step g net with
    | none => simp [Network.run, h]
    | some net1 =>
      simp only
      rw [ih net1]
      conv_rhs => rw [Network.run, h]

theorem step_deliver (g : Gob) (net : Network) (s : Send) (rest : List Send) (n n1 : Node)
    (sends : List Send) (hp : net.pending = s :: rest)
    (hfind : net.nodes.find? (fun m => decide (m.peer.ID = s.dest)) = some n)
    (hrecv : receive g n s.message = some (n1, sends)) :
    net.step g = some { nodes := setNode s.dest n1 net.nodes, pending := rest ++ sends,
                        outside := net.outside, trace := net.trace ++ [s.dest] } := by
  simp only [Network.step, hp, hfind, hrecv]

theorem step_outside (g : Gob) (net : Network) (s : Send) (rest : List Send)
    (hp : net.pending = s :: rest)
    (hfind : net.nodes.find? (fun m => decide (m.peer.ID = s.dest)) = none) :
    net.step g = some { net with pending := rest, outside := net.outside ++ [s] } := by
  simp only [Network.step, hp, hfind]

theorem step_idle (g : Gob) (net : Network) (hp : net.pending = []) :
    net.step g = some net := by
  simp only [Network.step, hp]

theorem distinct_ids_of_sorted (ns : List Node) (hsorted : (ns.map Node.key).Pairwise (· < ·)) :
    ns.Pairwise (fun a b => a.peer.ID ≠ b.peer.ID) := by
  rw [List.pairwise_map] at hsorted
  refine hsorted.imp ?_
  intro a b hlt heq
  unfold Node.key at hlt
  rw [heq] at hlt
  exact lt_irrefl _ hlt

theorem take_succ_ids (ns : List Node) (i : Nat) (node : Node) (h : ns[i]? = some node) :
    (ns.take (i + 1)).map (fun m => m.peer.ID)
      = (ns.take i).map (fun m => m.peer.ID) ++ [node.peer.ID] := by
  rw [List.take_succ, h]
  simp

theorem successor_of_match (ns : List Node) (hlinks : SuccessorsMatch ns) (i : Nat)
    (node : Node) (hnode : ns[i]? = some node) :
    ∃ next, ns[(i + 1) % ns.length]? = some next ∧ node.peer.Successor = next.peer.ID := by
  obtain ⟨hlt, _⟩ := List.getElem?_eq_some.mp hnode
  have h := hlinks i hlt
  rw [hnode, Option.map_some'] at h
  cases hq : ns[(i + 1) % ns.length]? with
  | none => rw [hq] at h; cases h
  | some next =>
    rw [hq, Option.map_some'] at h
    exact ⟨next, rfl, Option.some.inj h⟩

theorem id_cons_of_wellFormed (ns : List Node) (hwf : WellFormedIDs ns) :
    ∀ node ∈ ns, ∃ rest, node.peer.ID = chN :: rest := by
  intro node hmem
  have h := hwf node hmem
  cases hid : node.peer.ID with
  | nil => rw [hid] at h; cases h
  | cons c rest =>
    rw [hid] at h
    simp only [List.head?_cons, Option.some.injEq] at h
    exact ⟨rest, by rw [h]⟩

/-- While the keys passed are below the objectID, the request frame travels from each node to
the next in ring order, and nothing else changes. -/
theorem run_forwarding (g : Gob) (ns : List Node) (req : RequestMessage) (frame : Bytes)
    (len j : Nat) (first : Node)
    (hfirst : ns[0]? = some first)
    (hwf : ∀ node ∈ ns, ∃ rest, node.peer.ID = chN :: rest)
    (hnd : ns.Pairwise (fun a b => a.peer.ID ≠ b.peer.ID))
    (hlinks : SuccessorsMatch ns)
    (hop : req.OperationType = STORE ∨ req.OperationType = RETRIEVE)
    (hbuild : buildFrame g (.request req) = .ok frame)
    (hread : ReadMessage g frame
      = .ok ({ Header := { MsgType := REQUEST, Length := len }, Payload := .request req }, []))
    (hj : j < ns.length)
    (hbelow : ∀ (i : Nat) (node : Node), i < j → ns[i]? = some node →
      node.key < req.ObjectID) :
    ∀ i, i ≤ j → ∃ node, ns[i]? = some node ∧
      Network.run g i (Network.start ns [{ dest := first.peer.ID, message := frame }])
        = some { nodes := ns, pending := [{ dest := node.peer.ID, message := frame }],
                 outside := [], trace := (ns.take i).map (fun m => m.peer.ID) } := by
  intro i
  induction i with
  | zero =>
    intro _
    exact ⟨first, hfirst, by simp [Network.run, Network.start]⟩
  | succ i ih =>
    intro hi
    obtain ⟨node, hnode, hrun⟩ := ih (by omega)
    obtain ⟨next, hnext, hsucc⟩ := successor_of_match ns hlinks i node hnode
    rw [Nat.mod_eq_of_lt (by omega)] at hnext
    obtain ⟨rest, hid⟩ := hwf node (List.getElem?_mem hnode)
    obtain ⟨rest1, hid1⟩ := hwf next (List.getElem?_mem hnext)
    have hsne : node.peer.Successor ≠ [] := by
      rw [hsucc, hid1]
      simp
    have hrecv := receive_forwards g node req frame len rest hid
      (hbelow i node (by omega) hnode) hsne hop hbuild hread
    refine ⟨next, hnext, ?_⟩
    rw [run_succ_last, hrun, Option.some_bind]
    rw [step_deliver g _ { dest := node.peer.ID, message := frame } [] node node
      [{ dest := node.peer.Successor, message := frame }] rfl (find_node ns hnd i node hnode)
      hrecv]
    simp only [setNode_eq_set ns hnd i node node hnode, set_self ns i node hnode,
      List.nil_append, take_succ_ids ns i node hnode, hsucc]

theorem StoreObject_local_key (g : Gob) (p : Peer) (f : StoreFile)
    (reqID clientID objectID : Int) (rest : GoString)
    (hid : p.ID = chN :: rest) (hle : objectID ≤ extractNumber p.ID)
    (hopen : f.openAppendOk = true) (hwrite : f.writeOk = true) :
    StoreObject g p f reqID clientID objectID =
      some ({ f with content := some (f.content.getD [] ++ storeEntry clientID objectID) },
        match GetObjectStoredMessage g p.ID objectID clientID with
        | .ok byteMessage => [{ dest := p.bootstrapAddress, message := byteMessage }]
        | .error _ => []) := by
  rw [hid, extractNumber_cons] at hle
  unfold StoreObject
  rw [hid]
  simp only [hle, if_true, hopen, hwrite]
  cases GetObjectStoredMessage g (chN :: rest) objectID clientID <;> simp

/-- The scanning loop of `RetrieveObject`, when both answers can be encoded: one frame to the
coordinator, with status 1 when some line passes the loop's test and status -1 otherwise. -/
theorem retrieveScan_any (g : Gob) (p : Peer) (c o : Int) (frameHit frameMiss : Bytes)
    (hhit : GetObjectRetrievedMessage g 1 o = .ok frameHit)
    (hmiss : GetObjectRetrievedMessage g (-1) o = .ok frameMiss)
    (lines : List GoString) :
    retrieveScan g p c o lines
      = [{ dest := p.bootstrapAddress,
           message := if lines.any (entryMatches c o) then frameHit else frameMiss }] := by
  induction lines with
  | nil => simp [retrieveScan, hmiss]
  | cons line rest ih =>
    rw [retrieveScan, List.any_cons, entryMatches]
    split
    · rename_i part0 part1 _
      by_cases hm : Atoi part0 = c ∧ Atoi part1 = o
      · simp [hm, hhit]
      · simp only [hm, if_false, ih, decide_False, Bool.false_or]
    · simp only [ih, Bool.false_or]

theorem RetrieveObject_local_key (g : Gob) (p : Peer) (f : StoreFile)
    (reqID clientID objectID : Int) (rest : GoString)
    (hid : p.ID = chN :: rest) (hle : objectID ≤ extractNumber p.ID) :
    RetrieveObject g p f reqID clientID objectID =
      match (if f.openReadOk then f.content else none) with
      | none => some []
      | some data => some (retrieveScan g p clientID objectID (scanLines data)) := by
  rw [hid, extractNumber_cons] at hle
  unfold RetrieveObject
  rw [hid]
  simp only [hle, if_true]

/-- Claim C1. Routing reaches the responsible node. In a ring `ns` of `n ≥ 1` peer processes
whose identifiers start with `n`, listed in strictly increasing order of key, with Successor
pointers that match the ring, let a Store or Retrieve request whose objectID is at most some
key be relayed by the coordinator, and let `j` be the first position whose key is at least the
objectID. Then: the coordinator sends the request frame to the lowest-key node; `j ≤ n - 1`;
every node before `j` has a smaller key; for every `i ≤ j`, after `i` deliveries the same frame
is pending at node `i` and no node has changed or answered (`i` forwards, successor to
successor); the node at `j` handles the request itself, sending at most one frame, to the
coordinator; after `j + 2` deliveries nothing is pending, only node `j` may have changed, the
frames delivered outside the ring are exactly that node's replies, and the nodes that received
the request are those at positions `0..j`. For a Store, when the node's file operations succeed
and the serializer carries the ObjectStored record, node `j` has appended the entry to its log
and its one reply reads as `ObjectStored(its identifier, objectID, clientID)`. For a Retrieve,
when the node's store file exists and opens and the serializer carries the two ObjectRetrieved
records, node `j` stays as it was and its one reply reads as `ObjectRetrieved(status, objectID)`,
with status 1 when some line the scanner reads in the log splits at `::` into two parts that
parse to `(clientID, objectID)` and status -1 otherwise; when the store file does not exist or
does not open, node `j` stays as it was and sends nothing. -/
theorem routing_reaches_responsible (g : Gob) (ns : List Node) (req : RequestMessage)
    (hne : ns ≠ [])
    (hwf : WellFormedIDs ns)
    (hsorted : (ns.map Node.key).Pairwise (· < ·))
    (hlinks : SuccessorsMatch ns)
    (hcoord : ∀ node ∈ ns, ∀ m ∈ ns, m.peer.ID ≠ node.peer.bootstrapAddress)
    (hop : req.OperationType = STORE ∨ req.OperationType = RETRIEVE)
    (hmax : ∃ node ∈ ns, req.ObjectID ≤ node.key)
    (hcarry : g.Carries (.request req)) :
    ∃ first frame len handler handler1 replies,
      ns[0]? = some first ∧
      relayRequest g { peers := ns.map (fun node => node.peer.ID) } req
        = some [{ dest := first.peer.ID, message := frame }] ∧
      responsibleIndex ns req.ObjectID ≤ ns.length - 1 ∧
      ns[responsibleIndex ns req.ObjectID]? = some handler ∧
      req.ObjectID ≤ handler.key ∧
      (∀ (i : Nat) (node : Node), i < responsibleIndex ns req.ObjectID →
        ns[i]? = some node → node.key < req.ObjectID) ∧
      (∀ i, i ≤ responsibleIndex ns req.ObjectID → ∃ node, ns[i]? = some node ∧
        Network.run g i (Network.start ns [{ dest := first.peer.ID, message := frame }])
          = some { nodes := ns, pending := [{ dest := node.peer.ID, message := frame }],
                   outside := [], trace := (ns.take i).map (fun m => m.peer.ID) }) ∧
      handleMessage g handler
          { Header := { MsgType := REQUEST, Length := len }, Payload := .request req }
        = some (handler1, replies) ∧
      handler1.peer = handler.peer ∧
      replies.length ≤ 1 ∧
      (∀ s ∈ replies, s.dest = handler.peer.bootstrapAddress) ∧
      Network.run g (responsibleIndex ns req.ObjectID + 2)
          (Network.start ns [{ dest := first.peer.ID, message := frame }])
        = some { nodes := ns.set (responsibleIndex ns req.ObjectID) handler1,
                 pending := [], outside := replies,
                 trace := (ns.take (responsibleIndex ns req.ObjectID + 1)).map
                   (fun m => m.peer.ID) } ∧
      (req.OperationType = STORE → handler.file.openAppendOk = true →
        handler.file.writeOk = true →
        g.Carries (.objStored
          { PeerId := handler.peer.ID, ObjectID := req.ObjectID, ClientID := req.ClientID }) →
        handler1.file.content
          = some (handler.file.content.getD [] ++ storeEntry req.ClientID req.ObjectID) ∧
        ∃ stored len1,
          replies = [{ dest := handler.peer.bootstrapAddress, message := stored }] ∧
          ReadMessage g stored
            = .ok ({ Header := { MsgType := OBJ_STORED, Length := len1 },
                     Payload := .objStored
                       { PeerId := handler.peer.ID, ObjectID := req.ObjectID,
                         ClientID := req.ClientID } }, [])) ∧
      (req.OperationType = RETRIEVE → handler.file.openReadOk = true →
        ∀ data, handler.file.content = some data →
        g.Carries (.objRetrieved { Status := 1, ObjectId := req.ObjectID }) →
        g.Carries (.objRetrieved { Status := -1, ObjectId := req.ObjectID }) →
        handler1 = handler ∧
        ∃ answer len1,
          replies = [{ dest := handler.peer.bootstrapAddress, message := answer }] ∧
          ReadMessage g answer
            = .ok ({ Header := { MsgType := OBJ_RETRIEVED, Length := len1 },
                     Payload := .objRetrieved
                       { Status := if (scanLines data).any
                             (entryMatches req.ClientID req.ObjectID) then 1 else -1,
                         ObjectId := req.ObjectID } }, [])) ∧
      (req.OperationType = RETRIEVE →
        (handler.file.openReadOk = false ∨ handler.file.content = none) →
        handler1 = handler ∧ replies = []) := by
  have hwf := id_cons_of_wellFormed ns hwf
  obtain ⟨frame, len, hbuild, hread⟩ := hcarry.frame
  have hb : GetRequestMessage g req.ReqID req.OperationType req.ObjectID req.ClientID
      = .ok frame := hbuild
  obtain ⟨first, tl, hns⟩ := List.exists_cons_of_ne_nil hne
  have hfirst : ns[0]? = some first := by simp [hns]
  have hrelay : relayRequest g { peers := ns.map (fun node => node.peer.ID) } req
      = some [{ dest := first.peer.ID, message := frame }] := by
    simp [relayRequest, hb, GetFirstPeer, hns]
  have hnd := distinct_ids_of_sorted ns hsorted
  have hj : responsibleIndex ns req.ObjectID < ns.length := by
    unfold responsibleIndex
    apply List.findIdx_lt_length_of_exists
    obtain ⟨node, hmem, hle⟩ := hmax
    exact ⟨node, hmem, by simpa using hle⟩
  have hkey : req.ObjectID ≤ (ns[responsibleIndex ns req.ObjectID]).key := by
    have := @List.findIdx_getElem _ (fun node : Node => decide (req.ObjectID ≤ node.key)) ns hj
    simpa using this
  have hbelow : ∀ (i : Nat) (node : Node), i < responsibleIndex ns req.ObjectID →
      ns[i]? = some node → node.key < req.ObjectID := by
    intro i node hi hnode
    obtain ⟨hlt, hget⟩ := List.getElem?_eq_some.mp hnode
    have := @List.not_of_lt_findIdx _ (fun node : Node => decide (req.ObjectID ≤ node.key))
      ns i hi
    rw [hget] at this
    simpa using this
  obtain ⟨handler, hhandler, hle⟩ : ∃ handler,
      ns[responsibleIndex ns req.ObjectID]? = some handler ∧ req.ObjectID ≤ handler.key :=
    ⟨_, List.getElem?_eq_getElem hj, hkey⟩
  clear hkey
  generalize responsibleIndex ns req.ObjectID = j at *
  have hwalk := run_forwarding g ns req frame len j first
    hfirst hwf hnd hlinks hop hbuild hread hj hbelow
  obtain ⟨rest, hid⟩ := hwf _ (List.getElem?_mem hhandler)
  obtain ⟨handler1, replies, hhandle, hpeer, hlen, hdest⟩ :=
    handleMessage_local g handler req len rest hid hle hop
  refine ⟨first, frame, len, handler, handler1, replies, hfirst,
    hrelay, by omega, hhandler, hle, hbelow, hwalk, hhandle, hpeer, hlen, hdest, ?_, ?_, ?_,
    ?_⟩
  · obtain ⟨node, hnode, hrun⟩ := hwalk _ (le_refl _)
    rw [hhandler] at hnode
    cases hnode
    have hrecv : receive g handler frame = some (handler1, replies) := by
      unfold receive
      rw [hread]
      exact hhandle
    rw [run_succ_last, run_succ_last, hrun, Option.some_bind,
      step_deliver g _ ⟨handler.peer.ID, frame⟩ [] handler handler1 replies rfl
        (find_node ns hnd _ _ hhandler) hrecv,
      Option.some_bind]
    simp only [setNode_eq_set ns hnd _ _ handler1 hhandler, List.nil_append,
      take_succ_ids ns _ _ hhandler]
    match replies, hlen, hdest with
    | [], _, _ => exact step_idle g _ rfl
    | [r], _, hdest =>
      have hr : r.dest = handler.peer.bootstrapAddress := hdest r (List.mem_cons_self _ _)
      have hnone : (ns.set j handler1).find?
          (fun m => decide (m.peer.ID = r.dest)) = none := by
        rw [List.find?_eq_none]
        intro m hm
        have hmid : ∃ m0 ∈ ns, m.peer.ID = m0.peer.ID := by
          rcases List.mem_or_eq_of_mem_set hm with h | h
          · exact ⟨m, h, rfl⟩
          · exact ⟨_, List.getElem?_mem hhandler, by rw [h, hpeer]⟩
        obtain ⟨m0, hm0, he⟩ := hmid
        have := hcoord _ (List.getElem?_mem hhandler) m0 hm0
        simp only [decide_eq_true_eq]
        rw [he, hr]
        exact this
      rw [step_outside g _ r [] rfl hnone]
      rfl
  · intro hstore hopen hwrite hcs
    obtain ⟨stored, len1, hsb, hsr⟩ := hcs.frame
    have hsb1 : GetObjectStoredMessage g handler.peer.ID req.ObjectID req.ClientID
        = .ok stored := hsb
    have hso := StoreObject_local_key g handler.peer handler.file req.ReqID req.ClientID
      req.ObjectID rest hid hle hopen hwrite
    rw [hsb1] at hso
    simp only [handleMessage, if_true, hstore, hso, Option.some.injEq, Prod.mk.injEq]
      at hhandle
    obtain ⟨h1, h2⟩ := hhandle
    subst h1 h2
    exact ⟨rfl, stored, len1, rfl, hsr⟩
  · intro hret hopenr data hdata hch hcm
    obtain ⟨fh, lh, hbh, hrh⟩ := hch.frame
    obtain ⟨fm, lm, hbm, hrm⟩ := hcm.frame
    have hbh1 : GetObjectRetrievedMessage g 1 req.ObjectID = .ok fh := hbh
    have hbm1 : GetObjectRetrievedMessage g (-1) req.ObjectID = .ok fm := hbm
    have hro := RetrieveObject_local_key g handler.peer handler.file req.ReqID req.ClientID
      req.ObjectID rest hid hle
    rw [hopenr, hdata] at hro
    simp only [if_true, retrieveScan_any g _ _ _ fh fm hbh1 hbm1] at hro
    have hns : RETRIEVE ≠ STORE := by decide
    simp only [handleMessage, if_true, hret, hns, if_false, hro, Option.some.injEq,
      Prod.mk.injEq] at hhandle
    obtain ⟨h1, h2⟩ := hhandle
    subst h1 h2
    cases hany : (scanLines data).any (entryMatches req.ClientID req.ObjectID) with
    | true => exact ⟨rfl, fh, lh, by simp, by simpa using hrh⟩
    | false => exact ⟨rfl, fm, lm, by simp, by simpa using hrm⟩
  · intro hret habsent
    have hro := RetrieveObject_local_key g handler.peer handler.file req.ReqID req.ClientID
      req.ObjectID rest hid hle
    have hnone : (if handler.file.openReadOk then handler.file.content else none) = none := by
      rcases habsent with h | h
      · rw [h]
        rfl
      · rw [h]
        simp
    rw [hnone] at hro
    have hns : RETRIEVE ≠ STORE := by decide
    simp only [handleMessage, if_true, hret, hns, if_false, hro, Option.some.injEq,
      Prod.mk.injEq] at hhandle
    obtain ⟨h1, h2⟩ := hhandle
    exact ⟨h1.symm, h2.symm⟩

/-- Claim C1 under `plainGob`, at the ring of the spec's example (keys 10, 20, 30). A Store of
objectID 25 for client 7 is handled by `n30`, the node at position 2, which writes the entry
`7::25` and answers the coordinator with `ObjectStored("n30", 25, 7)`. On the ring after that
Store, a Retrieve of objectID 25 for client 7 is handled by `n30`, which stays as it was and
answers the coordinator with `ObjectRetrieved(1, 25)`. -/
theorem routing_reaches_responsible_witness :
    (∃ first frame len handler handler1 replies stored len1,
      exampleRing[0]? = some first ∧
      relayRequest plainGob { peers := exampleRing.map (fun node => node.peer.ID) }
          exampleStore
        = some [{ dest := first.peer.ID, message := frame }] ∧
      exampleRing[2]? = some handler ∧
      handleMessage plainGob handler
          { Header := { MsgType := REQUEST, Length := len }, Payload := .request exampleStore }
        = some (handler1, replies) ∧
      handler1.file.content = some (str "7::25\n") ∧
      replies = [{ dest := str "bootstrap", message := stored }] ∧
      ReadMessage plainGob stored
        = .ok ({ Header := { MsgType := OBJ_STORED, Length := len1 },
                 Payload := .objStored
                   { PeerId := str "n30", ObjectID := 25, ClientID := 7 } }, []) ∧
      Network.run plainGob (2 + 2)
          (Network.start exampleRing [{ dest := first.peer.ID, message := frame }])
        = some { nodes := exampleRing.set 2 handler1,
                 pending := [], outside := replies,
                 trace := (exampleRing.take (2 + 1)).map (fun m => m.peer.ID) }) ∧
    (∃ first frame len handler replies answer len1,
      exampleRingAfterStore[0]? = some first ∧
      relayRequest plainGob { peers := exampleRingAfterStore.map (fun node => node.peer.ID) }
          exampleLookup
        = some [{ dest := first.peer.ID, message := frame }] ∧
      exampleRingAfterStore[2]? = some handler ∧
      handleMessage plainGob handler
          { Header := { MsgType := REQUEST, Length := len }, Payload := .request exampleLookup }
        = some (handler, replies) ∧
      replies = [{ dest := str "bootstrap", message := answer }] ∧
      ReadMessage plainGob answer
        = .ok ({ Header := { MsgType := OBJ_RETRIEVED, Length := len1 },
                 Payload := .objRetrieved { Status := 1, ObjectId := 25 } }, []) ∧
      Network.run plainGob (2 + 2)
          (Network.start exampleRingAfterStore [{ dest := first.peer.ID, message := frame }])
        = some { nodes := exampleRingAfterStore.set 2 handler,
                 pending := [], outside := replies,
                 trace := (exampleRingAfterStore.take (2 + 1)).map (fun m => m.peer.ID) }) := by
  constructor
  · obtain ⟨first, frame, len, handler, handler1, replies, h0, hrel, _, hh, _, _, _, hhm, _, _,
        _, hrun, hst, _, _⟩ :=
      routing_reaches_responsible plainGob exampleRing exampleStore (by decide) (by decide)
        (by decide) (by decide) (by decide) (by decide) (by decide)
        ⟨_, rfl, by decide, by decide⟩
    have hidx : responsibleIndex exampleRing exampleStore.ObjectID = 2 := by decide
    rw [hidx] at hh hrun
    have h2 : exampleRing[2]? = some (examplePeer "n30" "n20" "n10" none) := rfl
    have hh2 : handler = examplePeer "n30" "n20" "n10" none := by
      rw [h2] at hh
      exact (Option.some.inj hh).symm
    subst hh2
    obtain ⟨hc, stored, len1, hrep, hread⟩ := hst rfl rfl rfl ⟨_, rfl, by decide, by decide⟩
    exact ⟨first, frame, len, _, handler1, replies, stored, len1, h0, hrel, h2, hhm,
      hc.trans (by decide), hrep, hread, hrun⟩
  · obtain ⟨first, frame, len, handler, handler1, replies, h0, hrel, _, hh, _, _, _, hhm, _, _,
        _, hrun, _, hret, _⟩ :=
      routing_reaches_responsible plainGob exampleRingAfterStore exampleLookup (by decide)
        (by decide) (by decide) (by decide) (by decide) (by decide) (by decide)
        ⟨_, rfl, by decide, by decide⟩
    have hidx : responsibleIndex exampleRingAfterStore exampleLookup.ObjectID = 2 := by decide
    rw [hidx] at hh hrun
    have h2 : exampleRingAfterStore[2]?
        = some (examplePeer "n30" "n20" "n10" (some (str "7::25\n"))) := rfl
    have hh2 : handler = examplePeer "n30" "n20" "n10" (some (str "7::25\n")) := by
      rw [h2] at hh
      exact (Option.some.inj hh).symm
    subst hh2
    obtain ⟨h1, answer, len1, hrep, hread⟩ := hret rfl rfl (str "7::25\n") rfl
      ⟨_, rfl, by decide, by decide⟩ ⟨_, rfl, by decide, by decide⟩
    subst h1
    have hstatus : (if (scanLines (str "7::25\n")).any
        (entryMatches exampleLookup.ClientID exampleLookup.ObjectID) then (1 : Int) else -1)
        = 1 := by decide
    rw [hstatus] at hread
    exact ⟨first, frame, len, _, replies, answer, len1, h0, hrel, h2, hhm, hrep, hread, hrun⟩

/-- The example of claim C1, evaluated: in the ring with keys 10, 20, 30 a Store of objectID 25
for client 7 that enters at `n10` is received by `n10`, `n20` and `n30` in this order; after four
deliveries nothing is pending, `n30` alone has a log, holding the entry `7::25`, and the one
frame that left the ring went to the coordinator and reads as `ObjectStored("n30", 25, 7)`. -/
theorem routing_example :
    ∃ frame stored, GetRequestMessage plainGob 1 STORE 25 7 = .ok frame ∧
      Network.run plainGob 4
          (Network.start exampleRing [{ dest := str "n10", message := frame }])
        = some { nodes :=
                   [examplePeer "n10" "n30" "n20" none, examplePeer "n20" "n10" "n30" none,
                    examplePeer "n30" "n20" "n10" (some (str "7::25\n"))],
                 pending := [],
                 outside := [{ dest := str "bootstrap", message := stored }],
                 trace := [str "n10", str "n20", str "n30"] } ∧
      (ReadMessage plainGob stored).map Prod.fst
        = .ok { Header := { MsgType := OBJ_STORED, Length := 27 },
                Payload := .objStored
                  { PeerId := str "n30", ObjectID := 25, ClientID := 7 } } :=
  ⟨[2, 25, 0, 0, 0, 1, 0, 0, 0, 0, 0, 0, 0, 0, 25, 0, 0, 0, 0, 0, 0, 0, 7, 0, 0, 0, 0, 0, 0, 0],
   [3, 27, 0, 0, 0, 3, 0, 0, 0, 0, 0, 0, 0, 110, 51, 48, 25, 0, 0, 0, 0, 0, 0, 0, 7, 0, 0, 0,
    0, 0, 0, 0],
   by decide, by decide, by decide⟩

/-- The Retrieve of the example, evaluated: in the ring with keys 10, 20, 30 after the Store, a
Retrieve of objectID 25 for client 7 that enters at `n10` is received by `n10`, `n20` and `n30`
in this order; after four deliveries nothing is pending, no node has changed, and the one frame
that left the ring went to the coordinator and reads as `ObjectRetrieved(1, 25)`. A Retrieve
of objectID 24 for the same client ends at `n30` as well and is answered with status -1. -/
theorem routing_example_retrieve :
    (∃ frame answer, GetRequestMessage plainGob 2 RETRIEVE 25 7 = .ok frame ∧
      Network.run plainGob 4
          (Network.start exampleRingAfterStore [{ dest := str "n10", message := frame }])
        = some { nodes := exampleRingAfterStore,
                 pending := [],
                 outside := [{ dest := str "bootstrap", message := answer }],
                 trace := [str "n10", str "n20", str "n30"] } ∧
      (ReadMessage plainGob answer).map Prod.fst
        = .ok { Header := { MsgType := OBJ_RETRIEVED, Length := 16 },
                Payload := .objRetrieved { Status := 1, ObjectId := 25 } }) ∧
    (∃ frame answer, GetRequestMessage plainGob 3 RETRIEVE 24 7 = .ok frame ∧
      Network.run plainGob 4
          (Network.start exampleRingAfterStore [{ dest := str "n10", message := frame }])
        = some { nodes := exampleRingAfterStore,
                 pending := [],
                 outside := [{ dest := str "bootstrap", message := answer }],
                 trace := [str "n10", str "n20", str "n30"] } ∧
      (ReadMessage plainGob answer).map Prod.fst
        = .ok { Header := { MsgType := OBJ_RETRIEVED, Length := 16 },
                Payload := .objRetrieved { Status := -1, ObjectId := 24 } }) :=
  ⟨⟨[2, 25, 0, 0, 0, 2, 0, 0, 0, 0, 0, 0, 0, 1, 25, 0, 0, 0, 0, 0, 0, 0, 7, 0, 0, 0, 0, 0, 0,
     0],
    [4, 16, 0, 0, 0, 1, 0, 0, 0, 0, 0, 0, 0, 25, 0, 0, 0, 0, 0, 0, 0],
    by decide, by decide, by decide⟩,
   ⟨[2, 25, 0, 0, 0, 3, 0, 0, 0, 0, 0, 0, 0, 1, 24, 0, 0, 0, 0, 0, 0, 0, 7, 0, 0, 0, 0, 0, 0,
     0],
    [4, 16, 0, 0, 0, 255, 255, 255, 255, 255, 255, 255, 255, 24, 0, 0, 0, 0, 0, 0, 0],
    by decide, by decide, by decide⟩⟩

/-! ## The coordinator's ring: sorting -/

theorem sinkLeft_eq {α : Type} (less : α → α → Bool) (x : α) (l : List α) :
    sinkLeft less x l = l.takeWhile (less x) ++ x :: l.dropWhile (less x) := by
  induction l with
  | nil => rfl
  | cons y ys ih =>
    rw [sinkLeft]
    by_cases h : less x y = true
    · simp [h, ih]
    · simp [h]

theorem sinkLeft_perm {α : Type} (less : α → α → Bool) (x : α) (l : List α) :
    (sinkLeft less x l).Perm (x :: l) := by
  rw [sinkLeft_eq]
  have h := List.takeWhile_append_dropWhile (less x) l
  calc (l.takeWhile (less x) ++ x :: l.dropWhile (less x)).Perm
        (x :: (l.takeWhile (less x) ++ l.dropWhile (less x))) := List.perm_middle
    _ = x :: l := by rw [h]

theorem foldl_sinkLeft_perm {α : Type} (less : α → α → Bool) (data : List α) :
    ∀ acc : List α,
      (data.foldl (fun sortedRev x => sinkLeft less x sortedRev) acc).Perm
        (data.reverse ++ acc) := by
  induction data with
  | nil => intro acc; simp
  | cons x rest ih =>
    intro acc
    rw [List.foldl_cons]
    refine (ih _).trans ?_
    rw [List.reverse_cons, List.append_assoc]
    exact List.Perm.append_left _ (sinkLeft_perm less x acc)

theorem sortSlice_perm {α : Type} (less : α → α → Bool) (data : List α) :
    (sortSlice less data).Perm data := by
  unfold sortSlice
  refine (List.reverse_perm _).trans ?_
  have := foldl_sinkLeft_perm less data []
  rw [List.append_nil] at this
  exact this.trans (List.reverse_perm _)

/-- The reversed sorted part stays in non-increasing order of key when an entry sinks in. -/
theorem sinkLeft_sorted {α : Type} (key : α → Int) (x : α) (l : List α)
    (h : l.Pairwise (fun a b => key b ≤ key a)) :
    (sinkLeft (fun a b => decide (key a < key b)) x l).Pairwise
      (fun a b => key b ≤ key a) := by
  induction l with
  | nil => simp [sinkLeft]
  | cons y ys ih =>
    rw [List.pairwise_cons] at h
    rw [sinkLeft]
    by_cases hlt : key x < key y
    · rw [if_pos (by simpa using hlt), List.pairwise_cons]
      refine ⟨?_, ih h.2⟩
      intro z hz
      rcases List.mem_cons.mp ((sinkLeft_perm _ x ys).subset hz) with rfl | hz
      · omega
      · exact h.1 z hz
    · rw [if_neg (by simpa using hlt), List.pairwise_cons, List.pairwise_cons]
      refine ⟨?_, h.1, h.2⟩
      intro z hz
      rcases List.mem_cons.mp hz with rfl | hz
      · omega
      · have := h.1 z hz
        omega

theorem foldl_sinkLeft_sorted {α : Type} (key : α → Int) (data : List α) :
    ∀ acc : List α, acc.Pairwise (fun a b => key b ≤ key a) →
      (data.foldl (fun sortedRev x => sinkLeft (fun a b => decide (key a < key b)) x sortedRev)
        acc).Pairwise (fun a b => key b ≤ key a) := by
  induction data with
  | nil => intro acc h; exact h
  | cons x rest ih =>
    intro acc h
    rw [List.foldl_cons]
    exact ih _ (sinkLeft_sorted key x acc h)

theorem sortSlice_sorted {α : Type} (key : α → Int) (data : List α) :
    (sortSlice (fun a b => decide (key a < key b)) data).Pairwise
      (fun a b => key a ≤ key b) := by
  unfold sortSlice
  rw [List.pairwise_reverse]
  exact foldl_sinkLeft_sorted key data [] List.Pairwise.nil

theorem getNeighbors_isSome (b : Bootstrap) (index : Nat) (h : b.peers ≠ []) :
    ∃ predecessor successor, getNeighbors b index = some (predecessor, successor) := by
  have hpos : 0 < b.peers.length := List.length_pos.mpr h
  unfold getNeighbors
  by_cases h1 : b.peers.length = 1
  · simp only [h1, if_true]
    rw [List.getElem?_eq_getElem hpos]
    exact ⟨_, _, rfl⟩
  · have h0 : b.peers.length ≠ 0 := by omega
    simp only [h1, h0, if_false]
    rw [List.getElem?_eq_getElem (Nat.mod_lt _ hpos),
      List.getElem?_eq_getElem (Nat.mod_lt _ hpos)]
    exact ⟨_, _, rfl⟩

/-- The method `RegisterPeer` never panics, and its ring is the sorted slice. -/
theorem RegisterPeer_total (b : Bootstrap) (peerID : GoString) :
    ∃ predecessor successor,
      RegisterPeer b peerID
        = some ({ peers := sortSlice (fun x y => decide (extractNumber x < extractNumber y))
                    (b.peers ++ [peerID]) }, predecessor, successor) := by
  have hne : sortSlice (fun x y => decide (extractNumber x < extractNumber y))
      (b.peers ++ [peerID]) ≠ [] := by
    intro h
    have := (sortSlice_perm (fun x y => decide (extractNumber x < extractNumber y))
      (b.peers ++ [peerID])).length_eq
    rw [h] at this
    simp at this
  obtain ⟨p, s, hps⟩ := getNeighbors_isSome
    { peers := sortSlice (fun x y => decide (extractNumber x < extractNumber y))
        (b.peers ++ [peerID]) }
    (Search (sortSlice (fun x y => decide (extractNumber x < extractNumber y))
        (b.peers ++ [peerID])).length
      (fun i => decide (extractNumber ((sortSlice
        (fun x y => decide (extractNumber x < extractNumber y))
        (b.peers ++ [peerID])).getD i []) ≥ extractNumber peerID))) hne
  refine ⟨p, s, ?_⟩
  unfold RegisterPeer
  simp only [hps]

theorem registerAll_append (ids : List GoString) (peerID : GoString) :
    ∀ b, registerAll b (ids ++ [peerID])
      = (registerAll b ids).bind (fun b1 => (RegisterPeer b1 peerID).map (fun r => r.1)) := by
  induction ids with
  | nil =>
    intro b
    simp only [List.nil_append, registerAll, Option.some_bind]
    cases RegisterPeer b peerID with
    | none => rfl
    | some r => rfl
  | cons x rest ih =>
    intro b
    simp only [List.cons_append, registerAll]
    cases RegisterPeer b x with
    | none => rfl
    | some r => exact ih r.1

theorem registerAll_total (ids : List GoString) :
    ∀ b, ∃ b1, registerAll b ids = some b1 ∧ b1.peers.length = b.peers.length + ids.length := by
  induction ids with
  | nil => intro b; exact ⟨b, rfl, rfl⟩
  | cons x rest ih =>
    intro b
    obtain ⟨p, s, h⟩ := RegisterPeer_total b x
    obtain ⟨b1, h1, h2⟩ := ih
      ⟨sortSlice (fun x y => decide (extractNumber x < extractNumber y)) (b.peers ++ [x])⟩
    refine ⟨b1, ?_, ?_⟩
    · simp only [registerAll, h, h1]
    · rw [h2, (sortSlice_perm _ _).length_eq]
      simp
      omega

/-- Claim C2. Ring sortedness is an invariant of registration: for every sequence `ids` of
identifiers registered one after the other from the empty ring (any identifiers, repetitions
allowed) and every further identifier `peerID`, the registrations succeed, and the ring after
`RegisterPeer(peerID)` is in non-decreasing order of `extractNumber`, has exactly one more entry
than the ring before the call (which has one entry per earlier call), and is a permutation of
the ring before the call plus `peerID`. -/
theorem ring_sorted_invariant (ids : List GoString) (peerID : GoString) :
    ∃ b b1 predecessor successor,
      registerAll NewBootstrap ids = some b ∧
      RegisterPeer b peerID = some (b1, predecessor, successor) ∧
      registerAll NewBootstrap (ids ++ [peerID]) = some b1 ∧
      b.peers.length = ids.length ∧
      b1.peers.Pairwise (fun x y => extractNumber x ≤ extractNumber y) ∧
      b1.peers.length = b.peers.length + 1 ∧
      b1.peers.Perm (b.peers ++ [peerID]) := by
  obtain ⟨b, hb, hlen⟩ := registerAll_total ids NewBootstrap
  obtain ⟨p, s, h⟩ := RegisterPeer_total b peerID
  refine ⟨b, _, p, s, hb, h, ?_, ?_, sortSlice_sorted extractNumber _, ?_,
    sortSlice_perm _ _⟩
  · rw [registerAll_append, hb, Option.some_bind, h]
    rfl
  · simpa [NewBootstrap] using hlen
  · rw [(sortSlice_perm _ _).length_eq]
    simp

/-! ## The coordinator's ring: search and neighbours -/

/-- The binary search of `sort.Search` on a predicate that is false below `p` and true from `p`
on finds `p`. -/
theorem searchLoop_spec (f : Nat → Bool) (n p : Nat)
    (hlo : ∀ k, k < p → f k = false) (hhi : ∀ k, p ≤ k → k < n → f k = true) :
    ∀ fuel i j, i ≤ p → p ≤ j → j ≤ n → j - i ≤ fuel → searchLoop f fuel i j = p := by
  intro fuel
  induction fuel with
  | zero =>
    intro i j hi hj _ hfuel
    rw [searchLoop]
    omega
  | succ fuel ih =>
    intro i j hi hj hn hfuel
    rw [searchLoop]
    by_cases hij : i < j
    · simp only [hij, if_true]
      have hh : (i + j) / 2 < j := by omega
      have hh2 : i ≤ (i + j) / 2 := by omega
      by_cases hf : f ((i + j) / 2) = true
      · have hp : p ≤ (i + j) / 2 := by
          by_contra hcon
          have := hlo ((i + j) / 2) (by omega)
          rw [this] at hf
          cases hf
        simp only [hf, Bool.not_true, Bool.false_eq_true, if_false]
        exact ih i _ hi hp (by omega) (by omega)
      · have hf2 : f ((i + j) / 2) = false := by simpa using hf
        have hp : (i + j) / 2 < p := by
          by_contra hcon
          have := hhi ((i + j) / 2) (by omega) (by omega)
          rw [this] at hf2
          cases hf2
        simp only [hf2, Bool.not_false, if_true]
        exact ih _ j (by omega) hj hn (by omega)
    · simp only [hij, if_false]
      omega

theorem Search_spec (f : Nat → Bool) (n p : Nat) (hp : p ≤ n)
    (hlo : ∀ k, k < p → f k = false) (hhi : ∀ k, p ≤ k → k < n → f k = true) :
    Search n f = p :=
  searchLoop_spec f n p hlo hhi n 0 n (by omega) hp (le_refl _) (by omega)

/-- In a ring in strictly increasing order of key, the search for an entry's key finds the
entry's position. -/
theorem getIndex_of_sorted (l : List GoString)
    (hs : l.Pairwise (fun x y => extractNumber x < extractNumber y))
    (i : Nat) (e : GoString) (h : l[i]? = some e) :
    getIndex { peers := l } e = i := by
  obtain ⟨hi, he⟩ := List.getElem?_eq_some.mp h
  rw [List.pairwise_iff_getElem] at hs
  unfold getIndex
  apply Search_spec _ _ _ (by simp only; omega)
  · intro k hk
    have hkl : k < l.length := by omega
    have := hs k i hkl hi hk
    simp only [List.getD_eq_getElem?_getD, List.getElem?_eq_getElem hkl, Option.getD_some,
      decide_eq_false_iff_not, ge_iff_le, not_le]
    rw [← he]
    exact this
  · intro k hk hkl
    simp only at hkl
    simp only [List.getD_eq_getElem?_getD, List.getElem?_eq_getElem hkl, Option.getD_some,
      decide_eq_true_eq, ge_iff_le]
    rw [← he]
    rcases Nat.lt_or_eq_of_le hk with hlt | heq
    · exact le_of_lt (hs i k hi hkl hlt)
    · subst heq
      exact le_refl _

theorem RegisterPeer_eq (b : Bootstrap) (peerID : GoString) :
    RegisterPeer b peerID =
      match getNeighbors
          ⟨sortSlice (fun x y => decide (extractNumber x < extractNumber y))
            (b.peers ++ [peerID])⟩
          (getIndex ⟨sortSlice (fun x y => decide (extractNumber x < extractNumber y))
            (b.peers ++ [peerID])⟩ peerID) with
      | some (predecessor, successor) =>
        some (⟨sortSlice (fun x y => decide (extractNumber x < extractNumber y))
          (b.peers ++ [peerID])⟩, predecessor, successor)
      | none => none := rfl

/-- Registering a key that is new to a ring in strictly increasing order leaves the ring in
strictly increasing order. -/
theorem sortSlice_strict (l : List GoString) (x : GoString)
    (hs : l.Pairwise (fun a b => extractNumber a < extractNumber b))
    (hnew : ∀ q ∈ l, extractNumber q ≠ extractNumber x) :
    (sortSlice (fun a b => decide (extractNumber a < extractNumber b)) (l ++ [x])).Pairwise
      (fun a b => extractNumber a < extractNumber b) := by
  have hsorted := sortSlice_sorted extractNumber (l ++ [x])
  have hperm := sortSlice_perm (fun a b => decide (extractNumber a < extractNumber b))
    (l ++ [x])
  have hne : (l ++ [x]).Pairwise (fun a b => extractNumber a ≠ extractNumber b) := by
    rw [List.pairwise_append]
    refine ⟨hs.imp (fun h => ne_of_lt h), by simp, ?_⟩
    intro a ha c hc
    rw [List.mem_singleton] at hc
    subst hc
    exact hnew a ha
  have hne1 := (hperm.pairwise_iff (R := fun a b => extractNumber a ≠ extractNumber b)
    (fun h => fun e => h e.symm)).mpr hne
  exact (hsorted.and hne1).imp (fun h => lt_of_le_of_ne h.1 h.2)

theorem getNeighbors_eq (l : List GoString) (i : Nat) (hne : l ≠ []) :
    getNeighbors { peers := l } i =
      match l[(i + l.length - 1) % l.length]?, l[(i + 1) % l.length]? with
      | some predecessor, some successor => some (predecessor, successor)
      | _, _ => none := by
  have hpos : 0 < l.length := List.length_pos.mpr hne
  unfold getNeighbors
  by_cases h1 : l.length = 1
  · simp only [h1, if_true, Nat.mod_one]
    rw [List.getElem?_eq_getElem hpos]
  · have h0 : l.length ≠ 0 := by omega
    simp only [h1, h0, if_false]

theorem nodup_of_strict (l : List GoString)
    (hs : l.Pairwise (fun a b => extractNumber a < extractNumber b)) : l.Nodup :=
  hs.imp (fun h e => by rw [e] at h; exact lt_irrefl _ h)

/-- The shared core of registration into a ring in strictly increasing order: the new ring, the
position of the new peer, and the pair computed. -/
theorem RegisterPeer_spec (b : Bootstrap) (peerID : GoString)
    (hsorted : b.peers.Pairwise (fun x y => extractNumber x < extractNumber y))
    (hnew : ∀ q ∈ b.peers, extractNumber q ≠ extractNumber peerID) :
    ∃ l1 pr su i,
      RegisterPeer b peerID = some (⟨l1⟩, pr, su) ∧
      l1.Pairwise (fun x y => extractNumber x < extractNumber y) ∧
      l1.Perm (b.peers ++ [peerID]) ∧
      l1[i]? = some peerID ∧
      getIndex ⟨l1⟩ peerID = i ∧
      l1[(i + l1.length - 1) % l1.length]? = some pr ∧
      l1[(i + 1) % l1.length]? = some su ∧
      getNeighbors ⟨l1⟩ i = some (pr, su) := by
  obtain ⟨l1, hl1⟩ : ∃ l1, l1 = sortSlice
      (fun x y => decide (extractNumber x < extractNumber y)) (b.peers ++ [peerID]) :=
    ⟨_, rfl⟩
  have hstrict : l1.Pairwise (fun x y => extractNumber x < extractNumber y) := by
    rw [hl1]
    exact sortSlice_strict b.peers peerID hsorted hnew
  have hperm : l1.Perm (b.peers ++ [peerID]) := by
    rw [hl1]
    exact sortSlice_perm _ _
  have hmem : peerID ∈ l1 := hperm.symm.subset (by simp)
  obtain ⟨i, hi⟩ := List.mem_iff_getElem?.mp hmem
  have hne : l1 ≠ [] := List.ne_nil_of_mem hmem
  have hpos : 0 < l1.length := List.length_pos.mpr hne
  have hidx : getIndex ⟨l1⟩ peerID = i := getIndex_of_sorted l1 hstrict i peerID hi
  obtain ⟨pr, hpr⟩ : ∃ pr, l1[(i + l1.length - 1) % l1.length]? = some pr :=
    ⟨_, List.getElem?_eq_getElem (Nat.mod_lt _ hpos)⟩
  obtain ⟨su, hsu⟩ : ∃ su, l1[(i + 1) % l1.length]? = some su :=
    ⟨_, List.getElem?_eq_getElem (Nat.mod_lt _ hpos)⟩
  have hgn := getNeighbors_eq l1 i hne
  rw [hpr, hsu] at hgn
  have hreg := RegisterPeer_eq b peerID
  rw [← hl1, hidx, hgn] at hreg
  exact ⟨l1, pr, su, i, hreg, hstrict, hperm, hi, hidx, hpr, hsu, hgn⟩

/-- Claim C3. Neighbour computation on registration: for a ring in strictly increasing order of
key (sorted, keys pairwise distinct) and a `peerID` whose key is not in the ring, `RegisterPeer`
succeeds; its ring `b1` is the re-sorted ring (strictly increasing, a permutation of the old
ring plus `peerID`) of size `n`; the binary search returns the position `i` at which `peerID`
stands; the pair it computes is `getNeighbors` at `i`, which is `(peerID, peerID)` when `n = 1`
and `(peers[(i + n - 1) % n], peers[(i + 1) % n])` when `n ≥ 2`. In particular, when `peerID` is
the lowest-key peer (`i = 0`) its predecessor is the last, highest-key entry; when it is the
highest-key peer (`i + 1 = n`) its successor is the first, lowest-key entry; and for `n = 2`
both neighbours are the other peer. -/
theorem neighbours_on_registration (b : Bootstrap) (peerID : GoString)
    (hsorted : b.peers.Pairwise (fun x y => extractNumber x < extractNumber y))
    (hnew : ∀ q ∈ b.peers, extractNumber q ≠ extractNumber peerID) :
    ∃ b1 predecessor successor i,
      RegisterPeer b peerID = some (b1, predecessor, successor) ∧
      b1.peers.Pairwise (fun x y => extractNumber x < extractNumber y) ∧
      b1.peers.Perm (b.peers ++ [peerID]) ∧
      b1.peers[i]? = some peerID ∧
      Search b1.peers.length
        (fun k => decide (extractNumber (b1.peers.getD k []) ≥ extractNumber peerID)) = i ∧
      getNeighbors b1 i = some (predecessor, successor) ∧
      (b1.peers.length = 1 → predecessor = peerID ∧ successor = peerID) ∧
      (2 ≤ b1.peers.length →
        b1.peers[(i + b1.peers.length - 1) % b1.peers.length]? = some predecessor ∧
        b1.peers[(i + 1) % b1.peers.length]? = some successor) ∧
      (2 ≤ b1.peers.length → i = 0 → b1.peers.getLast? = some predecessor) ∧
      (2 ≤ b1.peers.length → i + 1 = b1.peers.length → b1.peers.head? = some successor) ∧
      (b1.peers.length = 2 →
        predecessor = successor ∧ predecessor ≠ peerID ∧ predecessor ∈ b.peers) := by
  obtain ⟨l1, pr, su, i, hreg, hstrict, hperm, hi, hidx, hpr, hsu, hgn⟩ :=
    RegisterPeer_spec b peerID hsorted hnew
  obtain ⟨hilt, hie⟩ := List.getElem?_eq_some.mp hi
  refine ⟨⟨l1⟩, pr, su, i, hreg, hstrict, hperm, hi, hidx, hgn, ?_, ?_, ?_, ?_, ?_⟩
  · intro h1
    simp only at h1
    have h0 : i = 0 := by omega
    subst h0
    simp only [h1, Nat.mod_one] at hpr hsu
    rw [hi] at hpr hsu
    exact ⟨(Option.some.inj hpr).symm, (Option.some.inj hsu).symm⟩
  · intro _
    exact ⟨hpr, hsu⟩
  · intro h2 h0
    simp only at h2
    subst h0
    rw [List.getLast?_eq_getElem?, ← hpr]
    have : (0 + l1.length - 1) % l1.length = l1.length - 1 := by
      rw [Nat.zero_add]
      exact Nat.mod_eq_of_lt (by omega)
    rw [this]
  · intro h2 hlast
    simp only at h2 hlast
    rw [List.head?_eq_getElem?, ← hsu]
    have : (i + 1) % l1.length = 0 := by
      rw [hlast]
      exact Nat.mod_self _
    rw [this]
  · intro h2
    simp only at h2
    have hnd := nodup_of_strict l1 hstrict
    have hidx2 : (i + l1.length - 1) % l1.length = (i + 1) % l1.length := by
      rw [h2]
      omega
    have hother : i ≠ (i + 1) % l1.length := by
      rw [h2]
      omega
    rw [hidx2, hsu] at hpr
    have hps : pr = su := (Option.some.inj hpr).symm
    subst hps
    have hpne : pr ≠ peerID := by
      intro he
      rw [he, ← hi] at hsu
      exact hother (List.getElem?_inj hilt hnd hsu.symm)
    refine ⟨rfl, hpne, ?_⟩
    have hin : pr ∈ b.peers ++ [peerID] := hperm.subset (List.getElem?_mem hsu)
    rcases List.mem_append.mp hin with h | h
    · exact h
    · rw [List.mem_singleton] at h
      exact absurd h hpne

/-- Claim C3 at the ring `n10, n30` and the new peer `n20`. -/
theorem neighbours_on_registration_witness :
    ([str "n10", str "n30"] : List GoString).Pairwise
      (fun x y => extractNumber x < extractNumber y) ∧
    (∀ q ∈ ([str "n10", str "n30"] : List GoString),
      extractNumber q ≠ extractNumber (str "n20")) ∧
    ∃ b1 predecessor successor i,
      RegisterPeer { peers := [str "n10", str "n30"] } (str "n20")
        = some (b1, predecessor, successor) ∧
      b1.peers.Pairwise (fun x y => extractNumber x < extractNumber y) ∧
      b1.peers.Perm ([str "n10", str "n30"] ++ [str "n20"]) ∧
      b1.peers[i]? = some (str "n20") ∧
      Search b1.peers.length
        (fun k => decide (extractNumber (b1.peers.getD k []) ≥ extractNumber (str "n20")))
        = i ∧
      getNeighbors b1 i = some (predecessor, successor) ∧
      (b1.peers.length = 1 → predecessor = str "n20" ∧ successor = str "n20") ∧
      (2 ≤ b1.peers.length →
        b1.peers[(i + b1.peers.length - 1) % b1.peers.length]? = some predecessor ∧
        b1.peers[(i + 1) % b1.peers.length]? = some successor) ∧
      (2 ≤ b1.peers.length → i = 0 → b1.peers.getLast? = some predecessor) ∧
      (2 ≤ b1.peers.length → i + 1 = b1.peers.length → b1.peers.head? = some successor) ∧
      (b1.peers.length = 2 →
        predecessor = successor ∧ predecessor ≠ str "n20" ∧
        predecessor ∈ ([str "n10", str "n30"] : List GoString)) :=
  ⟨by decide, by decide,
    neighbours_on_registration { peers := [str "n10", str "n30"] } (str "n20") (by decide)
      (by decide)⟩

/-- The registrations of `n20`, `n10`, `n30` in this order, evaluated: after each call the ring
and the pair handed to `notifyNeighbors`. -/
theorem registration_example :
    RegisterPeer NewBootstrap (str "n20")
      = some ({ peers := [str "n20"] }, str "n20", str "n20") ∧
    RegisterPeer { peers := [str "n20"] } (str "n10")
      = some ({ peers := [str "n10", str "n20"] }, str "n20", str "n20") ∧
    RegisterPeer { peers := [str "n10", str "n20"] } (str "n30")
      = some ({ peers := [str "n10", str "n20", str "n30"] }, str "n20", str "n10") := by
  decide

/-! ## Joins: notifications and links -/

theorem mod_succ_eq (a m : Nat) (h : a < m) :
    (a + 1) % m = if a + 1 = m then 0 else a + 1 := by
  split
  · rename_i he
    rw [he, Nat.mod_self]
  · exact Nat.mod_eq_of_lt (by omega)

theorem mod_pred_eq (a m : Nat) (h : a < m) :
    (a + m - 1) % m = if a = 0 then m - 1 else a - 1 := by
  split
  · rename_i he
    subst he
    rw [Nat.zero_add]
    exact Nat.mod_eq_of_lt (by omega)
  · have : a + m - 1 = (a - 1) + m := by omega
    rw [this, Nat.add_mod_right]
    exact Nat.mod_eq_of_lt (by omega)

/-- Index arithmetic of an insertion at position `p` into a ring of size `n`: an old position
`j` moves to `if j < p then j else j + 1`; unless the moved position is the new entry's
predecessor, its successor position is the moved old successor position, and unless it is the
new entry's successor, its predecessor position is the moved old predecessor position. -/
theorem shift_neighbours (n p j : Nat) (hp : p ≤ n) (hj : j < n) :
    ((if j < p then j else j + 1) ≠ (p + (n + 1) - 1) % (n + 1) →
      ((if j < p then j else j + 1) + 1) % (n + 1)
        = if (j + 1) % n < p then (j + 1) % n else (j + 1) % n + 1) ∧
    ((if j < p then j else j + 1) ≠ (p + 1) % (n + 1) →
      ((if j < p then j else j + 1) + (n + 1) - 1) % (n + 1)
        = if (j + n - 1) % n < p then (j + n - 1) % n else (j + n - 1) % n + 1) := by
  by_cases hjp : j < p
  · simp only [hjp, if_true]
    rw [mod_succ_eq j (n + 1) (by omega), mod_pred_eq j (n + 1) (by omega),
      mod_succ_eq j n hj, mod_pred_eq j n hj,
      mod_succ_eq p (n + 1) (by omega), mod_pred_eq p (n + 1) (by omega)]
    constructor
    · intro h
      split_ifs at h ⊢ <;> omega
    · intro h
      split_ifs at h ⊢ <;> omega
  · simp only [hjp, if_false]
    rw [mod_succ_eq (j + 1) (n + 1) (by omega), mod_pred_eq (j + 1) (n + 1) (by omega),
      mod_succ_eq j n hj, mod_pred_eq j n hj,
      mod_succ_eq p (n + 1) (by omega), mod_pred_eq p (n + 1) (by omega)]
    constructor
    · intro h
      split_ifs at h ⊢ <;> omega
    · intro h
      split_ifs at h ⊢ <;> first | omega | contradiction

/-- A ring in strictly increasing order that is a permutation of the old ring plus `x` is the
old ring with `x` inserted at the position where `x` stands. -/
theorem insert_decomp (l l1 : List GoString) (x : GoString)
    (hs : l.Pairwise (fun a b => extractNumber a < extractNumber b))
    (hs1 : l1.Pairwise (fun a b => extractNumber a < extractNumber b))
    (hp : l1.Perm (l ++ [x])) (i : Nat) (hi : l1[i]? = some x) :
    i ≤ l.length ∧ l1 = l.take i ++ x :: l.drop i := by
  obtain ⟨hilt, hie⟩ := List.getElem?_eq_some.mp hi
  have hsplit : l1 = l1.take i ++ x :: l1.drop (i + 1) := by
    conv_lhs => rw [← List.take_append_drop i l1]
    rw [List.drop_eq_getElem_cons hilt, hie]
  have hperm2 : (l1.take i ++ l1.drop (i + 1)).Perm l := by
    have h1 : (x :: (l1.take i ++ l1.drop (i + 1))).Perm (x :: l) := by
      refine List.perm_middle.symm.trans ?_
      rw [← hsplit]
      exact hp.trans (List.perm_append_singleton x l)
    exact h1.cons_inv
  have hsub : (l1.take i ++ l1.drop (i + 1)).Pairwise
      (fun a b => extractNumber a < extractNumber b) := by
    have : (l1.take i ++ l1.drop (i + 1)).Sublist l1 := by
      conv_rhs => rw [hsplit]
      exact List.Sublist.append_left (List.sublist_cons_self _ _) _
    exact hs1.sublist this
  have heq : l1.take i ++ l1.drop (i + 1) = l := List.eq_of_perm_of_sorted hperm2 hsub hs
  have hlen : (l1.take i).length = i := by
    rw [List.length_take]
    omega
  have hle : i ≤ l.length := by
    rw [← heq, List.length_append, hlen]
    omega
  refine ⟨hle, ?_⟩
  have ht : l.take i = l1.take i := by
    rw [← heq, List.take_left' hlen]
  have hd : l.drop i = l1.drop (i + 1) := by
    rw [← heq, List.drop_left' hlen]
  rw [ht, hd]
  exact hsplit

theorem getElem?_insert (l : List GoString) (x : GoString) (p j : Nat) (hp : p ≤ l.length) :
    (l.take p ++ x :: l.drop p)[if j < p then j else j + 1]? = l[j]? := by
  have hlen : (l.take p).length = p := by
    rw [List.length_take]
    omega
  split
  · rename_i h
    rw [List.getElem?_append_left (by omega), List.getElem?_take, if_pos h]
  · rename_i h
    rw [List.getElem?_append_right (by omega), hlen]
    have : j + 1 - p = (j - p) + 1 := by omega
    rw [this, List.getElem?_cons_succ, List.getElem?_drop]
    congr 1
    omega

theorem getElem?_insert_self (l : List GoString) (x : GoString) (p : Nat)
    (hp : p ≤ l.length) : (l.take p ++ x :: l.drop p)[p]? = some x := by
  have hlen : (l.take p).length = p := by
    rw [List.length_take]
    omega
  rw [List.getElem?_append_right (by omega), hlen]
  simp

theorem setLinks_ids (dest predecessor successor : GoString) (ns : List Node) :
    (setLinks dest predecessor successor ns).map (fun m => m.peer.ID)
      = ns.map (fun m => m.peer.ID) := by
  induction ns with
  | nil => rfl
  | cons m ms ih =>
    rw [setLinks]
    split
    · simp [UpdateLinks]
    · simp [ih]

theorem linksOf_setLinks (dest predecessor successor : GoString) (ns : List Node)
    (hd : dest ∈ ns.map (fun m => m.peer.ID)) (id : GoString) :
    linksOf (setLinks dest predecessor successor ns) id
      = if id = dest then some (predecessor, successor) else linksOf ns id := by
  induction ns with
  | nil => simp at hd
  | cons m ms ih =>
    rw [setLinks]
    by_cases hm : m.peer.ID = dest
    · rw [if_pos hm]
      by_cases hid : id = dest
      · subst hid
        simp [linksOf, UpdateLinks, hm]
      · have hne : ¬ m.peer.ID = id := fun e => hid (e ▸ hm)
        simp [linksOf, UpdateLinks, hne, hid]
    · rw [if_neg hm]
      have hd1 : dest ∈ ms.map (fun m => m.peer.ID) := by
        rcases List.mem_cons.mp hd with h | h
        · exact absurd h.symm hm
        · exact h
      have ih := ih hd1
      by_cases hmid : m.peer.ID = id
      · have hid : ¬ id = dest := fun e => hm (hmid.trans e)
        simp [linksOf, hmid, hid]
      · unfold linksOf at ih ⊢
        rw [List.find?_cons_of_neg _ (by simpa using hmid),
          List.find?_cons_of_neg _ (by simpa using hmid)]
        exact ih

theorem linksOf_append (ns : List Node) (m : Node) (id : GoString)
    (h : id ∈ ns.map (fun m => m.peer.ID)) : linksOf (ns ++ [m]) id = linksOf ns id := by
  unfold linksOf
  rw [List.find?_append]
  obtain ⟨a, ha, hid⟩ := List.mem_map.mp h
  cases hf : ns.find? (fun m => decide (m.peer.ID = id)) with
  | none =>
    rw [List.find?_eq_none] at hf
    exact absurd (by simpa using hid) (hf a ha)
  | some b => rfl

theorem setNode_eq_setLinks (dest predecessor successor : GoString) (ns : List Node)
    (n : Node) (h : ns.find? (fun m => decide (m.peer.ID = dest)) = some n) :
    setNode dest { n with peer := UpdateLinks n.peer predecessor successor } ns
      = setLinks dest predecessor successor ns := by
  induction ns with
  | nil => simp at h
  | cons m ms ih =>
    rw [setNode, setLinks]
    by_cases hm : m.peer.ID = dest
    · rw [List.find?_cons_of_pos _ (by simpa using hm)] at h
      cases h
      simp [hm]
    · rw [List.find?_cons_of_neg _ (by simpa using hm)] at h
      simp [hm, ih h]

/-- A RingInfo frame is delivered: the recipient overwrites its links, nothing is sent. -/
theorem step_ring (g : Gob) (ns : List Node) (dest predecessor successor : GoString)
    (frame : Bytes) (len : Nat) (rest outside : List Send) (trace : List GoString)
    (hread : ReadMessage g frame
      = .ok ({ Header := { MsgType := RING, Length := len },
               Payload := .ring { Predecessor := predecessor, Successor := successor } }, []))
    (hd : dest ∈ ns.map (fun m => m.peer.ID)) :
    Network.step g { nodes := ns, pending := { dest := dest, message := frame } :: rest,
                     outside := outside, trace := trace }
      = some { nodes := setLinks dest predecessor successor ns, pending := rest,
               outside := outside, trace := trace ++ [dest] } := by
  obtain ⟨a, ha, hid⟩ := List.mem_map.mp hd
  cases hf : ns.find? (fun m => decide (m.peer.ID = dest)) with
  | none =>
    rw [List.find?_eq_none] at hf
    exact absurd (by simpa using hid) (hf a ha)
  | some n =>
    have hrecv : receive g n frame
        = some ({ n with peer := UpdateLinks n.peer predecessor successor }, []) := by
      unfold receive
      rw [hread]
      simp [handleMessage]
    rw [step_deliver g _ { dest := dest, message := frame } rest n _ [] rfl hf hrecv]
    simp only [setNode_eq_setLinks dest predecessor successor ns n hf, List.append_nil]

theorem sendRing_carried (g : Gob) (dest predecessor successor : GoString)
    (h : g.Carries (.ring { Predecessor := predecessor, Successor := successor })) :
    ∃ frame len, sendRing g dest predecessor successor
        = [{ dest := dest, message := frame }] ∧
      ReadMessage g frame
        = .ok ({ Header := { MsgType := RING, Length := len },
                 Payload := .ring { Predecessor := predecessor, Successor := successor } },
               []) := by
  obtain ⟨frame, len, hb, hr⟩ := h.frame
  have hb1 : GetRingMessage g predecessor successor = .ok frame := hb
  exact ⟨frame, len, by simp [sendRing, hb1], hr⟩

theorem getNeighbors_mem (l : List GoString) (k : Nat) (a c : GoString)
    (h : getNeighbors ⟨l⟩ k = some (a, c)) : a ∈ l ∧ c ∈ l := by
  have hne : l ≠ [] := by
    rintro rfl
    simp [getNeighbors] at h
  rw [getNeighbors_eq l k hne] at h
  cases h1 : l[(k + l.length - 1) % l.length]? with
  | none => rw [h1] at h; cases h
  | some a1 =>
    cases h2 : l[(k + 1) % l.length]? with
    | none => rw [h1, h2] at h; cases h
    | some c1 =>
      rw [h1, h2] at h
      cases h
      exact ⟨List.getElem?_mem h1, List.getElem?_mem h2⟩

/-- The notifications of a join into a ring of two or more, and their delivery: the new peer,
its predecessor and (when it is another peer) its successor overwrite their links. -/
theorem notify_and_deliver (g : Gob) (l1 : List GoString) (ns : List Node)
    (x pr su ppr psu spr ssu : GoString) (q r : Nat)
    (hprx : pr ≠ x) (hsux : su ≠ x)
    (hq : getIndex ⟨l1⟩ pr = q) (hr : getIndex ⟨l1⟩ su = r)
    (hgq : getNeighbors ⟨l1⟩ q = some (ppr, psu))
    (hgr : getNeighbors ⟨l1⟩ r = some (spr, ssu))
    (hsame : su = pr → (spr, ssu) = (ppr, psu))
    (hc1 : g.Carries (.ring { Predecessor := pr, Successor := su }))
    (hc2 : g.Carries (.ring { Predecessor := ppr, Successor := psu }))
    (hc3 : g.Carries (.ring { Predecessor := spr, Successor := ssu }))
    (hx : x ∈ ns.map (fun m => m.peer.ID)) (hpr : pr ∈ ns.map (fun m => m.peer.ID))
    (hsu : su ∈ ns.map (fun m => m.peer.ID)) :
    ∃ sends net, notifyNeighbors g ⟨l1⟩ x pr su = some sends ∧
      Network.run g sends.length
        { nodes := ns, pending := sends, outside := [], trace := [] } = some net ∧
      net.nodes.map (fun m => m.peer.ID) = ns.map (fun m => m.peer.ID) ∧
      ∀ id, linksOf net.nodes id
        = if id = su then some (spr, ssu) else if id = pr then some (ppr, psu)
          else if id = x then some (pr, su) else linksOf ns id := by
  obtain ⟨f1, n1, hs1, hr1⟩ := sendRing_carried g x pr su hc1
  obtain ⟨f2, n2, hs2, hr2⟩ := sendRing_carried g pr ppr psu hc2
  obtain ⟨f3, n3, hs3, hr3⟩ := sendRing_carried g su spr ssu hc3
  have hx1 : x ∈ (setLinks x pr su ns).map (fun m => m.peer.ID) := by
    rw [setLinks_ids]
    exact hx
  have hpr1 : pr ∈ (setLinks x pr su ns).map (fun m => m.peer.ID) := by
    rw [setLinks_ids]
    exact hpr
  have hsu2 : su ∈ (setLinks pr ppr psu (setLinks x pr su ns)).map (fun m => m.peer.ID) := by
    rw [setLinks_ids, setLinks_ids]
    exact hsu
  by_cases hsp : su = pr
  · have hsame1 := hsame hsp
    simp only [Prod.mk.injEq] at hsame1
    subst hsp
    have hnot : notifyNeighbors g ⟨l1⟩ x su su
        = some [{ dest := x, message := f1 }, { dest := su, message := f2 }] := by
      simp [notifyNeighbors, hprx, hq, hgq, hs1, hs2]
    have hrun : Network.run g 2
        { nodes := ns,
          pending := [{ dest := x, message := f1 }, { dest := su, message := f2 }],
          outside := [], trace := [] }
        = some { nodes := setLinks su ppr psu (setLinks x su su ns), pending := [],
                 outside := [], trace := [] ++ [x] ++ [su] } := by
      simp only [Network.run]
      rw [step_ring g ns x su su f1 n1 _ [] [] hr1 hx]
      simp only
      rw [step_ring g _ su ppr psu f2 n2 [] [] _ hr2 hpr1]
    refine ⟨_, _, hnot, hrun, ?_, ?_⟩
    · simp only [setLinks_ids]
    · intro id
      rw [linksOf_setLinks su ppr psu _ hpr1, linksOf_setLinks x su su ns hx,
        hsame1.1, hsame1.2]
      by_cases h1 : id = su <;> simp [h1]
  · have hnot : notifyNeighbors g ⟨l1⟩ x pr su
        = some [{ dest := x, message := f1 }, { dest := pr, message := f2 },
                { dest := su, message := f3 }] := by
      simp [notifyNeighbors, hprx, hsux, hsp, hq, hr, hgq, hgr, hs1, hs2, hs3]
    have hrun : Network.run g 3
        { nodes := ns,
          pending := [{ dest := x, message := f1 }, { dest := pr, message := f2 },
                      { dest := su, message := f3 }],
          outside := [], trace := [] }
        = some { nodes := setLinks su spr ssu (setLinks pr ppr psu (setLinks x pr su ns)),
                 pending := [], outside := [], trace := [] ++ [x] ++ [pr] ++ [su] } := by
      simp only [Network.run]
      rw [step_ring g ns x pr su f1 n1 _ [] [] hr1 hx]
      simp only
      rw [step_ring g _ pr ppr psu f2 n2 _ [] _ hr2 hpr1]
      simp only
      rw [step_ring g _ su spr ssu f3 n3 [] [] _ hr3 hsu2]
    refine ⟨_, _, hnot, hrun, ?_, ?_⟩
    · simp only [setLinks_ids]
    · intro id
      rw [linksOf_setLinks su spr ssu _ hsu2, linksOf_setLinks pr ppr psu _ hpr1,
        linksOf_setLinks x pr su ns hx]

/-- One join keeps every node's links equal to `getNeighbors` at its position. -/
theorem joinPeer_step (g : Gob) (storeFilePath bootstrapAddress : GoString) (sys : System)
    (x : GoString)
    (hsorted : sys.ring.peers.Pairwise (fun a b => extractNumber a < extractNumber b))
    (hnew : ∀ q ∈ sys.ring.peers, extractNumber q ≠ extractNumber x)
    (hids : ∀ id, id ∈ sys.nodes.map (fun m => m.peer.ID) ↔ id ∈ sys.ring.peers)
    (hlinks : ∀ (j : Nat) (id : GoString), sys.ring.peers[j]? = some id →
      linksOf sys.nodes id = getNeighbors sys.ring j)
    (hcarry : ∀ a ∈ sys.ring.peers ++ [x], ∀ c ∈ sys.ring.peers ++ [x],
      g.Carries (.ring { Predecessor := a, Successor := c })) :
    ∃ sys1, joinPeer g storeFilePath bootstrapAddress sys x = some sys1 ∧
      sys1.ring.peers.Pairwise (fun a b => extractNumber a < extractNumber b) ∧
      sys1.ring.peers.Perm (sys.ring.peers ++ [x]) ∧
      sys1.nodes.map (fun m => m.peer.ID) = sys.nodes.map (fun m => m.peer.ID) ++ [x] ∧
      ∀ (j : Nat) (id : GoString), sys1.ring.peers[j]? = some id →
        linksOf sys1.nodes id = getNeighbors sys1.ring j := by
  obtain ⟨⟨l⟩, nodes⟩ := sys
  simp only at hsorted hnew hids hlinks hcarry
  obtain ⟨l1, pr, su, i, hreg, hs1, hperm, hi, hidx, hpr, hsu, hgn⟩ :=
    RegisterPeer_spec ⟨l⟩ x hsorted hnew
  simp only at hperm
  obtain ⟨hile, hl1⟩ := insert_decomp l l1 x hsorted hs1 hperm i hi
  have hlen1 : l1.length = l.length + 1 := by
    rw [hperm.length_eq]
    simp
  have hnd1 := nodup_of_strict l1 hs1
  have hilt : i < l1.length := by omega
  have hget : ∀ k, l1[if k < i then k else k + 1]? = l[k]? := by
    intro k
    rw [hl1]
    exact getElem?_insert l x i k hile
  have hc : ∀ a ∈ l1, ∀ c ∈ l1, g.Carries (.ring { Predecessor := a, Successor := c }) :=
    fun a ha c hc => hcarry a (hperm.subset ha) c (hperm.subset hc)
  obtain ⟨started, hstarted⟩ : ∃ started : Node, started =
      { peer := NewPeer x storeFilePath bootstrapAddress,
        file := { content := none, openAppendOk := true, writeOk := true,
                  openReadOk := true } } := ⟨_, rfl⟩
  have hN0 : (nodes ++ [started]).map (fun m => m.peer.ID)
      = nodes.map (fun m => m.peer.ID) ++ [x] := by
    rw [hstarted]
    simp [NewPeer]
  have hmemN0 : ∀ id ∈ l1, id ∈ (nodes ++ [started]).map (fun m => m.peer.ID) := by
    intro id hid
    rw [hN0]
    rcases List.mem_append.mp (hperm.subset hid) with h | h
    · exact List.mem_append_left _ ((hids id).mpr h)
    · exact List.mem_append_right _ h
  have hjoin : ∀ sends net, notifyNeighbors g ⟨l1⟩ x pr su = some sends →
      Network.run g sends.length
        { nodes := nodes ++ [started], pending := sends, outside := [], trace := [] }
        = some net →
      joinPeer g storeFilePath bootstrapAddress ⟨⟨l⟩, nodes⟩ x
        = some { ring := ⟨l1⟩, nodes := net.nodes } := by
    intro sends net h1 h2
    rw [hstarted] at h2
    simp only [joinPeer, hreg, h1, h2]
  by_cases hn : l.length = 0
  · -- the first peer of the ring
    have hi0 : i = 0 := by omega
    subst hi0
    have hone : l1.length = 1 := by omega
    simp only [hone, Nat.mod_one] at hpr hsu
    rw [hi] at hpr hsu
    have hprx : pr = x := (Option.some.inj hpr).symm
    have hsux : su = x := (Option.some.inj hsu).symm
    rw [hprx, hsux] at hjoin hgn
    have hxmem : x ∈ l1 := List.getElem?_mem hi
    obtain ⟨f1, n1, hsend, hread⟩ := sendRing_carried g x x x (hc x hxmem x hxmem)
    have hnot : notifyNeighbors g ⟨l1⟩ x x x = some [{ dest := x, message := f1 }] := by
      simp [notifyNeighbors, hsend]
    have hrun : Network.run g 1
        { nodes := nodes ++ [started], pending := [{ dest := x, message := f1 }],
          outside := [], trace := [] }
        = some { nodes := setLinks x x x (nodes ++ [started]), pending := [],
                 outside := [], trace := [] ++ [x] } := by
      simp only [Network.run]
      rw [step_ring g _ x x x f1 n1 [] [] [] hread (hmemN0 x hxmem)]
    refine ⟨_, hjoin _ _ hnot hrun, hs1, hperm, ?_, ?_⟩
    · simp only [setLinks_ids, hN0]
    · intro j id hj
      simp only at hj ⊢
      have hj0 : j = 0 := by
        obtain ⟨hjl, _⟩ := List.getElem?_eq_some.mp hj
        omega
      subst hj0
      rw [hi] at hj
      cases hj
      rw [linksOf_setLinks x x x _ (hmemN0 x hxmem), if_pos rfl, hgn]
  · -- a ring of two or more after the join
    have hprmem : pr ∈ l1 := List.getElem?_mem hpr
    have hsumem : su ∈ l1 := List.getElem?_mem hsu
    have hxmem : x ∈ l1 := List.getElem?_mem hi
    have hpos : 0 < l1.length := by omega
    have hq : (i + l1.length - 1) % l1.length ≠ i := by
      rw [mod_pred_eq i _ hilt]
      split <;> omega
    have hr : (i + 1) % l1.length ≠ i := by
      rw [mod_succ_eq i _ hilt]
      split <;> omega
    have hprx : pr ≠ x := by
      intro he
      rw [he, ← hi] at hpr
      exact hq (List.getElem?_inj (Nat.mod_lt _ hpos) hnd1 hpr)
    have hsux : su ≠ x := by
      intro he
      rw [he, ← hi] at hsu
      exact hr (List.getElem?_inj (Nat.mod_lt _ hpos) hnd1 hsu)
    have hiq := getIndex_of_sorted l1 hs1 _ pr hpr
    have hir := getIndex_of_sorted l1 hs1 _ su hsu
    have hne1 : l1 ≠ [] := List.ne_nil_of_mem hxmem
    obtain ⟨ppr, psu, hgq⟩ := getNeighbors_isSome ⟨l1⟩ ((i + l1.length - 1) % l1.length) hne1
    obtain ⟨spr, ssu, hgr⟩ := getNeighbors_isSome ⟨l1⟩ ((i + 1) % l1.length) hne1
    obtain ⟨hm1, hm2⟩ := getNeighbors_mem l1 _ _ _ hgq
    obtain ⟨hm3, hm4⟩ := getNeighbors_mem l1 _ _ _ hgr
    have hsame : su = pr → (spr, ssu) = (ppr, psu) := by
      intro he
      rw [he, ← hpr] at hsu
      have := List.getElem?_inj (Nat.mod_lt _ hpos) hnd1 hsu
      rw [this, hgq] at hgr
      exact (Option.some.inj hgr).symm
    obtain ⟨sends, net, hnot, hrun, hnids, hnlinks⟩ :=
      notify_and_deliver g l1 (nodes ++ [started]) x pr su ppr psu spr ssu _ _ hprx hsux
        hiq hir hgq hgr hsame (hc pr hprmem su hsumem) (hc ppr hm1 psu hm2)
        (hc spr hm3 ssu hm4) (hmemN0 x hxmem) (hmemN0 pr hprmem) (hmemN0 su hsumem)
    refine ⟨_, hjoin _ _ hnot hrun, hs1, hperm, ?_, ?_⟩
    · rw [hnids, hN0]
    · intro j id hj
      simp only at hj ⊢
      rw [hnlinks id]
      obtain ⟨hjl, _⟩ := List.getElem?_eq_some.mp hj
      by_cases h1 : id = su
      · rw [if_pos h1]
        rw [h1, ← hsu] at hj
        rw [List.getElem?_inj hjl hnd1 hj, hgr]
      · rw [if_neg h1]
        by_cases h2 : id = pr
        · rw [if_pos h2]
          rw [h2, ← hpr] at hj
          rw [List.getElem?_inj hjl hnd1 hj, hgq]
        · rw [if_neg h2]
          by_cases h3 : id = x
          · rw [if_pos h3]
            rw [h3, ← hi] at hj
            rw [List.getElem?_inj hjl hnd1 hj, hgn]
          · rw [if_neg h3]
            -- an old entry that is no neighbour of the new peer
            have hji : j ≠ i := by
              rintro rfl
              rw [hi] at hj
              exact h3 (Option.some.inj hj).symm
            have hjq : j ≠ (i + l1.length - 1) % l1.length := by
              rintro rfl
              rw [hpr] at hj
              exact h2 (Option.some.inj hj).symm
            have hjr : j ≠ (i + 1) % l1.length := by
              rintro rfl
              rw [hsu] at hj
              exact h1 (Option.some.inj hj).symm
            obtain ⟨k, hk, hkj⟩ : ∃ k, k < l.length ∧ j = if k < i then k else k + 1 := by
              by_cases hlt : j < i
              · exact ⟨j, by omega, by rw [if_pos hlt]⟩
              · exact ⟨j - 1, by omega, by rw [if_neg (by omega)]; omega⟩
            have hold : l[k]? = some id := by
              rw [← hget k, ← hkj]
              exact hj
            have hidl : id ∈ l := List.getElem?_mem hold
            rw [linksOf_append nodes started id ((hids id).mpr hidl), hlinks k id hold]
            have hlne : l ≠ [] := List.ne_nil_of_mem hidl
            rw [getNeighbors_eq l k hlne, getNeighbors_eq l1 j hne1]
            obtain ⟨hsh1, hsh2⟩ := shift_neighbours l.length i k hile hk
            subst hkj
            rw [hlen1] at hjq hjr ⊢
            rw [hsh1 hjq, hsh2 hjr, hget, hget]

theorem joinAll_append (g : Gob) (storeFilePath bootstrapAddress : GoString)
    (ids : List GoString) (x : GoString) :
    ∀ sys, joinAll g storeFilePath bootstrapAddress sys (ids ++ [x])
      = (joinAll g storeFilePath bootstrapAddress sys ids).bind
          (fun s => joinPeer g storeFilePath bootstrapAddress s x) := by
  induction ids with
  | nil =>
    intro sys
    simp only [List.nil_append, joinAll, Option.some_bind]
    cases joinPeer g storeFilePath bootstrapAddress sys x <;> rfl
  | cons y rest ih =>
    intro sys
    simp only [List.cons_append, joinAll]
    cases joinPeer g storeFilePath bootstrapAddress sys y with
    | none => rfl
    | some s => exact ih s

/-- The invariant of sequential joins. -/
theorem joinAll_consistent (g : Gob) (storeFilePath bootstrapAddress : GoString)
    (ids : List GoString) :
    (ids.map extractNumber).Nodup →
    (∀ a ∈ ids, ∀ c ∈ ids, g.Carries (.ring { Predecessor := a, Successor := c })) →
    ∃ sys, joinAll g storeFilePath bootstrapAddress ⟨NewBootstrap, []⟩ ids = some sys ∧
      sys.ring.peers.Pairwise (fun a b => extractNumber a < extractNumber b) ∧
      sys.ring.peers.Perm ids ∧
      sys.nodes.map (fun m => m.peer.ID) = ids ∧
      ∀ (j : Nat) (id : GoString), sys.ring.peers[j]? = some id →
        linksOf sys.nodes id = getNeighbors sys.ring j := by
  induction ids using List.reverseRecOn with
  | nil =>
    intro _ _
    refine ⟨⟨NewBootstrap, []⟩, rfl, List.Pairwise.nil, List.Perm.refl _, rfl, ?_⟩
    intro j id h
    simp [NewBootstrap] at h
  | append_singleton ids x ih =>
    intro hkeys hcarry
    rw [List.map_append, List.nodup_append] at hkeys
    obtain ⟨hk1, _, hk3⟩ := hkeys
    obtain ⟨sys, hsys, hsorted, hperm, hnodes, hlinks⟩ := ih hk1
      (fun a ha c hc => hcarry a (List.mem_append_left _ ha) c (List.mem_append_left _ hc))
    have hnew : ∀ q ∈ sys.ring.peers, extractNumber q ≠ extractNumber x := by
      intro q hq he
      exact hk3 (List.mem_map_of_mem _ (hperm.subset hq)) (by rw [he]; simp)
    have hids : ∀ id, id ∈ sys.nodes.map (fun m => m.peer.ID) ↔ id ∈ sys.ring.peers := by
      intro id
      rw [hnodes]
      exact ⟨fun h => hperm.symm.subset h, fun h => hperm.subset h⟩
    have hc : ∀ a ∈ sys.ring.peers ++ [x], ∀ c ∈ sys.ring.peers ++ [x],
        g.Carries (.ring { Predecessor := a, Successor := c }) := by
      intro a ha c hc
      exact hcarry a ((hperm.append_right [x]).subset ha) c
        ((hperm.append_right [x]).subset hc)
    obtain ⟨sys1, hj, hs1, hp1, hn1, hl1⟩ :=
      joinPeer_step g storeFilePath bootstrapAddress sys x hsorted hnew hids hlinks hc
    refine ⟨sys1, ?_, hs1, hp1.trans (hperm.append_right [x]), ?_, hl1⟩
    · rw [joinAll_append, hsys, Option.some_bind, hj]
    · rw [hn1, hnodes]

/-- Claim C4. Sequential joins leave every node's links consistent with the ring: for every
sequence `ids` of identifiers with pairwise distinct keys (the serializer carrying the RingInfo
records between them) and every number `k` of joins processed one at a time from the empty
ring, each join consisting of `RegisterPeer`, `notifyNeighbors` on the ring right after that
call, and the delivery of its frames in order to `UpdateLinks`: the joins succeed, the ring is
the sorted permutation of the `k` identifiers, there is one peer process per identifier, and the
peer process of the identifier at each position `j` of the ring stores exactly the pair
`getNeighbors(j)`. -/
theorem sequential_joins_consistent (g : Gob) (storeFilePath bootstrapAddress : GoString)
    (ids : List GoString) (k : Nat)
    (hkeys : (ids.map extractNumber).Nodup)
    (hcarry : ∀ a ∈ ids, ∀ c ∈ ids, g.Carries (.ring { Predecessor := a, Successor := c })) :
    ∃ sys, joinAll g storeFilePath bootstrapAddress ⟨NewBootstrap, []⟩ (ids.take k)
        = some sys ∧
      sys.ring.peers.Pairwise (fun a b => extractNumber a < extractNumber b) ∧
      sys.ring.peers.Perm (ids.take k) ∧
      sys.nodes.map (fun m => m.peer.ID) = ids.take k ∧
      ∀ (j : Nat) (id : GoString), sys.ring.peers[j]? = some id →
        ∃ predecessor successor,
          getNeighbors sys.ring j = some (predecessor, successor) ∧
          linksOf sys.nodes id = some (predecessor, successor) := by
  have hk : ((ids.take k).map extractNumber).Nodup :=
    hkeys.sublist ((List.take_sublist k ids).map extractNumber)
  obtain ⟨sys, h1, h2, h3, h4, h5⟩ :=
    joinAll_consistent g storeFilePath bootstrapAddress (ids.take k) hk
      (fun a ha c hc => hcarry a (List.mem_of_mem_take ha) c (List.mem_of_mem_take hc))
  refine ⟨sys, h1, h2, h3, h4, ?_⟩
  intro j id hj
  obtain ⟨p, s, hps⟩ := getNeighbors_isSome sys.ring j (List.ne_nil_of_mem (List.getElem?_mem hj))
  exact ⟨p, s, hps, by rw [h5 j id hj, hps]⟩

theorem finishDecode_some {α : Type} (a : α) :
    finishDecode (some (a, ([] : Bytes))) = .ok a := rfl

/-- The concrete serializer carries every RingInfo record of ordinary size. -/
theorem plainGob_carries_ring (a c : GoString) (ha : a.length < 2 ^ 30)
    (hc : c.length < 2 ^ 30) :
    plainGob.Carries (.ring { Predecessor := a, Successor := c }) := by
  refine ⟨putString a ++ putString c, rfl, ?_, ?_⟩
  · simp only [List.length_append, putString, length_putUint64]
    omega
  · have h1 := takeString_putString a (putString c) (by omega)
    have h2 := takeString_putString c [] (by omega)
    rw [List.append_nil] at h2
    show plainGob.DecodeRing (putString a ++ putString c) = _
    simp only [plainGob, h1, h2, bind, Option.bind, pure, finishDecode_some]

/-- Claim C4 at the joins of `n20`, `n10`, `n30` in this order, under `plainGob`. -/
theorem sequential_joins_consistent_witness :
    (([str "n20", str "n10", str "n30"] : List GoString).map extractNumber).Nodup ∧
    ∃ sys, joinAll plainGob (str "objects.txt") (str "bootstrap") ⟨NewBootstrap, []⟩
          (([str "n20", str "n10", str "n30"] : List GoString).take 3)
        = some sys ∧
      sys.ring.peers.Pairwise (fun a b => extractNumber a < extractNumber b) ∧
      sys.ring.peers.Perm (([str "n20", str "n10", str "n30"] : List GoString).take 3) ∧
      sys.nodes.map (fun m => m.peer.ID)
        = ([str "n20", str "n10", str "n30"] : List GoString).take 3 ∧
      ∀ (j : Nat) (id : GoString), sys.ring.peers[j]? = some id →
        ∃ predecessor successor,
          getNeighbors sys.ring j = some (predecessor, successor) ∧
          linksOf sys.nodes id = some (predecessor, successor) :=
  ⟨by decide,
    sequential_joins_consistent plainGob (str "objects.txt") (str "bootstrap")
      [str "n20", str "n10", str "n30"] 3 (by decide)
      (fun a ha c hc => plainGob_carries_ring a c
        ((by decide : ∀ s ∈ ([str "n20", str "n10", str "n30"] : List GoString),
          s.length < 2 ^ 30) a ha)
        ((by decide : ∀ s ∈ ([str "n20", str "n10", str "n30"] : List GoString),
          s.length < 2 ^ 30) c hc))⟩

/-- The joins of `n20`, `n10`, `n30` in this order, evaluated: the ring is `n10, n20, n30` and
the three peer processes hold the links of the full ring. -/
theorem join_example :
    (joinAll plainGob (str "objects.txt") (str "bootstrap") ⟨NewBootstrap, []⟩
        [str "n20", str "n10", str "n30"]).map
      (fun sys => (sys.ring.peers,
        sys.nodes.map (fun m => (m.peer.ID, m.peer.Predecessor, m.peer.Successor))))
      = some ([str "n10", str "n20", str "n30"],
          [(str "n20", str "n10", str "n30"), (str "n10", str "n30", str "n20"),
           (str "n30", str "n20", str "n10")]) := by
  decide

/-! ## The first peer of the ring -/

/-- Registering a sequence of identifiers keeps every identifier: the ring reached is a
rearrangement of the ring it started from followed by the identifiers registered. -/
theorem registerAll_perm (ids : List GoString) :
    ∀ b, ∃ b1, registerAll b ids = some b1 ∧ b1.peers.Perm (b.peers ++ ids) := by
  induction ids with
  | nil => intro b; exact ⟨b, rfl, by simp⟩
  | cons x rest ih =>
    intro b
    obtain ⟨p, s, h⟩ := RegisterPeer_total b x
    obtain ⟨b1, h1, h2⟩ := ih
      ⟨sortSlice (fun x y => decide (extractNumber x < extractNumber y)) (b.peers ++ [x])⟩
    refine ⟨b1, ?_, ?_⟩
    · simp only [registerAll, h, h1]
    · refine h2.trans ?_
      have hp := sortSlice_perm (fun x y => decide (extractNumber x < extractNumber y))
        (b.peers ++ [x])
      have := hp.append_right rest
      simpa using this

/-- The ring left by a last registration is in non-decreasing order of key. -/
theorem registerAll_concat_sorted (ids : List GoString) (peerID : GoString) (b b1 : Bootstrap)
    (h : registerAll b (ids ++ [peerID]) = some b1) :
    b1.peers.Pairwise (fun x y => extractNumber x ≤ extractNumber y) := by
  rw [registerAll_append] at h
  cases hb : registerAll b ids with
  | none => rw [hb] at h; cases h
  | some b0 =>
    rw [hb, Option.some_bind] at h
    obtain ⟨p, s, hr⟩ := RegisterPeer_total b0 peerID
    rw [hr] at h
    cases h
    exact sortSlice_sorted extractNumber _

/-- Claim C11. `GetFirstPeer` has a result exactly when the ring is non-empty, and on a
ring built by registrations the result is an entry of minimum key: on the empty ring of
`NewBootstrap`, and on any empty ring, `GetFirstPeer` has no result (the index 0 is out of
range); on every non-empty ring it has one; and for every sequence of one or more
identifiers `peerID :: rest` registered one after the other from the empty ring, the
registrations succeed and `GetFirstPeer` on the ring reached returns an entry `first` that is
in the ring, is one of the registered identifiers, and whose `extractNumber` is at most the
`extractNumber` of every entry of the ring. -/
theorem GetFirstPeer_minimum (peerID : GoString) (rest : List GoString) :
    GetFirstPeer NewBootstrap = none ∧
    (∀ b : Bootstrap, GetFirstPeer b = none ↔ b.peers = []) ∧
    ∃ b first, registerAll NewBootstrap (peerID :: rest) = some b ∧
      b.peers.length = (peerID :: rest).length ∧
      GetFirstPeer b = some first ∧ first ∈ b.peers ∧ first ∈ peerID :: rest ∧
      ∀ q ∈ b.peers, extractNumber first ≤ extractNumber q := by
  refine ⟨rfl, ?_, ?_⟩
  · intro b
    unfold GetFirstPeer
    cases b.peers with
    | nil => simp
    | cons a l => simp
  · obtain ⟨b, hb, hperm⟩ := registerAll_perm (peerID :: rest) NewBootstrap
    have hperm1 : b.peers.Perm (peerID :: rest) := by simpa [NewBootstrap] using hperm
    have hsorted : b.peers.Pairwise (fun x y => extractNumber x ≤ extractNumber y) := by
      rcases List.eq_nil_or_concat (peerID :: rest) with h0 | ⟨init, last, h1⟩
      · cases h0
      · rw [h1, List.concat_eq_append] at hb
        exact registerAll_concat_sorted init last NewBootstrap b hb
    cases hpeers : b.peers with
    | nil =>
      rw [hpeers] at hperm1
      have := hperm1.length_eq
      simp at this
    | cons first tail =>
      rw [hpeers] at hsorted hperm1
      refine ⟨b, first, hb, ?_, ?_, ?_, ?_, ?_⟩
      · rw [hpeers]; exact hperm1.length_eq
      · simp [GetFirstPeer, hpeers]
      · rw [hpeers]; exact List.mem_cons_self _ _
      · exact hperm1.subset (List.mem_cons_self _ _)
      · intro q hq
        rw [hpeers] at hq
        rcases List.mem_cons.mp hq with rfl | hq
        · exact le_refl _
        · exact (List.pairwise_cons.mp hsorted).1 q hq

/-- The ring built by registering `n30`, `n10`, `n20` in this order hands out `n10` as its
first peer. -/
theorem GetFirstPeer_example :
    (registerAll NewBootstrap [str "n30", str "n10", str "n20"]).bind GetFirstPeer
      = some (str "n10") := by
  decide

/-! ## Notification of neighbours -/

theorem sendRing_dest_sublist (g : Gob) (dest predecessor successor : GoString) :
    ((sendRing g dest predecessor successor).map (fun s => s.dest)).Sublist [dest] := by
  unfold sendRing
  cases GetRingMessage g predecessor successor with
  | ok m => simp
  | error e => simp

theorem notifyRecipients_nodup (peerID predecessor successor : GoString) :
    (notifyRecipients peerID predecessor successor).Nodup := by
  unfold notifyRecipients
  by_cases h1 : predecessor = peerID
  · by_cases h2 : successor = peerID
    · simp [h1, h2]
    · simp [h1, h2]
      exact fun h => h2 h.symm
  · by_cases h2 : successor = peerID
    · simp [h1, h2]
      exact fun h => h1 h.symm
    · by_cases h3 : successor = predecessor
      · simp [h1, h2, h3]
        exact fun h => h1 h.symm
      · simp [h1, h2, h3]
        exact ⟨⟨fun h => h1 h.symm, fun h => h2 h.symm⟩, fun h => h3 h.symm⟩

/-- On a non-empty ring `notifyNeighbors` returns, and what it sends is made of the send to the
new peer, then at most one send to the predecessor, then at most one to the successor, each
only under its guard; when the serializer carries every pair of ring entries, every guarded
send is made. -/
theorem notifyNeighbors_sends (g : Gob) (b : Bootstrap)
    (peerID predecessor successor : GoString) (hne : b.peers ≠ []) :
    ∃ sends, notifyNeighbors g b peerID predecessor successor = some sends ∧
      (sends.map (fun s => s.dest)).Sublist (notifyRecipients peerID predecessor successor) ∧
      ((∀ p ∈ b.peers, ∀ s ∈ b.peers,
          g.Carries (.ring { Predecessor := p, Successor := s })) →
        g.Carries (.ring { Predecessor := predecessor, Successor := successor }) →
        sends.map (fun s => s.dest) = notifyRecipients peerID predecessor successor) := by
  obtain ⟨pp, ps, hp⟩ := getNeighbors_isSome b (getIndex b predecessor) hne
  obtain ⟨sp, ss, hs⟩ := getNeighbors_isSome b (getIndex b successor) hne
  have hpm := getNeighbors_mem b.peers _ pp ps hp
  have hsm := getNeighbors_mem b.peers _ sp ss hs
  refine ⟨sendRing g peerID predecessor successor
      ++ (if predecessor ≠ peerID then sendRing g predecessor pp ps else [])
      ++ (if successor ≠ peerID ∧ successor ≠ predecessor then sendRing g successor sp ss
          else []), ?_, ?_, ?_⟩
  · unfold notifyNeighbors
    simp only [hp, hs]
    by_cases h1 : predecessor ≠ peerID
    · by_cases h2 : successor ≠ peerID ∧ successor ≠ predecessor
      · simp only [if_pos h1, if_pos h2]
      · simp only [if_pos h1, if_neg h2]
    · by_cases h2 : successor ≠ peerID ∧ successor ≠ predecessor
      · simp only [if_neg h1, if_pos h2]
      · simp only [if_neg h1, if_neg h2]
  · unfold notifyRecipients
    rw [List.map_append, List.map_append]
    refine List.Sublist.append (List.Sublist.append (sendRing_dest_sublist _ _ _ _) ?_) ?_
    · split_ifs
      · exact sendRing_dest_sublist _ _ _ _
      · simp
    · split_ifs
      · exact sendRing_dest_sublist _ _ _ _
      · simp
  · intro hall hnew
    unfold notifyRecipients
    rw [List.map_append, List.map_append]
    obtain ⟨f0, l0, h0, _⟩ := sendRing_carried g peerID predecessor successor hnew
    obtain ⟨f1, l1, h1, _⟩ := sendRing_carried g predecessor pp ps (hall pp hpm.1 ps hpm.2)
    obtain ⟨f2, l2, h2, _⟩ := sendRing_carried g successor sp ss (hall sp hsm.1 ss hsm.2)
    rw [h0, h1, h2]
    congr 1
    · congr 1
      split_ifs <;> rfl
    · split_ifs <;> rfl

/-- The first registration: the ring is the new peer alone, which is both its neighbours. -/
theorem RegisterPeer_alone (peerID : GoString) :
    RegisterPeer { peers := [] } peerID = some ({ peers := [peerID] }, peerID, peerID) := by
  simp [RegisterPeer, sortSlice, sinkLeft, getNeighbors]

/-- The second registration with a key different from the first: each of the two entries is
both neighbours of the other. -/
theorem RegisterPeer_pair_distinct (other peerID : GoString)
    (hkey : extractNumber other ≠ extractNumber peerID) :
    ∃ l1, RegisterPeer { peers := [other] } peerID = some ({ peers := l1 }, other, other) ∧
      getNeighbors { peers := l1 } (getIndex { peers := l1 } other)
        = some (peerID, peerID) := by
  by_cases hlt : extractNumber peerID < extractNumber other
  · have hsort : sortSlice (fun x y => decide (extractNumber x < extractNumber y))
        ([other] ++ [peerID]) = [peerID, other] := by
      simp [sortSlice, sinkLeft, hlt]
    have hs : [peerID, other].Pairwise (fun x y => extractNumber x < extractNumber y) := by
      simp [hlt]
    refine ⟨[peerID, other], ?_, ?_⟩
    · rw [RegisterPeer_eq]
      simp only [hsort]
      rw [getIndex_of_sorted _ hs 0 peerID rfl, getNeighbors_eq _ _ (by simp)]
      simp
    · rw [getIndex_of_sorted _ hs 1 other rfl, getNeighbors_eq _ _ (by simp)]
      simp
  · have hgt : extractNumber other < extractNumber peerID := by omega
    have hsort : sortSlice (fun x y => decide (extractNumber x < extractNumber y))
        ([other] ++ [peerID]) = [other, peerID] := by
      simp [sortSlice, sinkLeft, hlt]
    have hs : [other, peerID].Pairwise (fun x y => extractNumber x < extractNumber y) := by
      simp [hgt]
    refine ⟨[other, peerID], ?_, ?_⟩
    · rw [RegisterPeer_eq]
      simp only [hsort]
      rw [getIndex_of_sorted _ hs 1 peerID rfl, getNeighbors_eq _ _ (by simp)]
      simp
    · rw [getIndex_of_sorted _ hs 0 other rfl, getNeighbors_eq _ _ (by simp)]
      simp

/-- The second registration with the key of the first: the search stops at index 0, whose two
neighbours are the entry at index 1, the new peer itself. -/
theorem RegisterPeer_pair_equal (other peerID : GoString)
    (hkey : extractNumber other = extractNumber peerID) :
    RegisterPeer { peers := [other] } peerID
      = some ({ peers := [other, peerID] }, peerID, peerID) := by
  have hsort : sortSlice (fun x y => decide (extractNumber x < extractNumber y))
      ([other] ++ [peerID]) = [other, peerID] := by
    simp [sortSlice, sinkLeft, hkey]
  have hidx : getIndex { peers := [other, peerID] } peerID = 0 := by
    unfold getIndex
    apply Search_spec _ _ _ (by simp)
    · intro k hk
      omega
    · intro k _ hk
      have hk2 : k < 2 := hk
      interval_cases k
      · simp [hkey]
      · simp
  rw [RegisterPeer_eq]
  simp only [hsort, hidx]
  rw [getNeighbors_eq _ _ (by simp)]
  rfl

/-- What `notifyNeighbors` does after a registration, for every ring `b` and every identifier
`peerID`: `RegisterPeer` returns the ring with one more entry and a pair, and on them
`notifyNeighbors` returns. Its recipients are a sublist of `notifyRecipients` (the new peer,
the predecessor if it differs from the new peer, the successor if it differs from both),
which has no repetition, so no recipient is notified twice; they are exactly that list when
the serializer carries every pair of ring entries. When the ring has size 1 after the
insertion, exactly one frame is sent, to the new peer, and it reads as
`RingInfo(peerID, peerID)`. When it has size 2 and the entry already there has a key different
from the new peer's, exactly two frames are sent: to the new peer `RingInfo(other, other)` and
to the other peer `RingInfo(peerID, peerID)`. When it has size 2 and the two keys are equal,
one frame only is sent, addressed to `peerID` and reading as `RingInfo(peerID, peerID)`. -/
theorem notifyNeighbors_dedup (g : Gob) (b : Bootstrap) (peerID : GoString) :
    ∃ b1 predecessor successor sends,
      RegisterPeer b peerID = some (b1, predecessor, successor) ∧
      b1.peers.length = b.peers.length + 1 ∧
      notifyNeighbors g b1 peerID predecessor successor = some sends ∧
      (notifyRecipients peerID predecessor successor).Nodup ∧
      (sends.map (fun s => s.dest)).Sublist (notifyRecipients peerID predecessor successor) ∧
      (sends.map (fun s => s.dest)).Nodup ∧
      ((∀ p ∈ b1.peers, ∀ s ∈ b1.peers,
          g.Carries (.ring { Predecessor := p, Successor := s })) →
        sends.map (fun s => s.dest) = notifyRecipients peerID predecessor successor) ∧
      (b1.peers.length = 1 →
        g.Carries (.ring { Predecessor := peerID, Successor := peerID }) →
        ∃ frame len, sends = [{ dest := peerID, message := frame }] ∧
          ReadMessage g frame
            = .ok ({ Header := { MsgType := RING, Length := len },
                     Payload := .ring { Predecessor := peerID, Successor := peerID } },
                   [])) ∧
      (b1.peers.length = 2 →
        (∀ q ∈ b.peers, extractNumber q ≠ extractNumber peerID) →
        (∀ p ∈ b1.peers, g.Carries (.ring { Predecessor := p, Successor := p })) →
        ∃ other frame1 len1 frame2 len2, b.peers = [other] ∧
          sends = [{ dest := peerID, message := frame1 },
                   { dest := other, message := frame2 }] ∧
          ReadMessage g frame1
            = .ok ({ Header := { MsgType := RING, Length := len1 },
                     Payload := .ring { Predecessor := other, Successor := other } }, []) ∧
          ReadMessage g frame2
            = .ok ({ Header := { MsgType := RING, Length := len2 },
                     Payload := .ring { Predecessor := peerID, Successor := peerID } },
                   [])) ∧
      (b1.peers.length = 2 →
        (∀ q ∈ b.peers, extractNumber q = extractNumber peerID) →
        g.Carries (.ring { Predecessor := peerID, Successor := peerID }) →
        ∃ frame len, sends = [{ dest := peerID, message := frame }] ∧
          ReadMessage g frame
            = .ok ({ Header := { MsgType := RING, Length := len },
                     Payload := .ring { Predecessor := peerID, Successor := peerID } },
                   [])) := by
  obtain ⟨pr, su, hreg⟩ := RegisterPeer_total b peerID
  obtain ⟨l1, hl1⟩ : ∃ l1, l1 = sortSlice
      (fun x y => decide (extractNumber x < extractNumber y)) (b.peers ++ [peerID]) :=
    ⟨_, rfl⟩
  rw [← hl1] at hreg
  have hperm : l1.Perm (b.peers ++ [peerID]) := by
    rw [hl1]
    exact sortSlice_perm _ _
  have hlen : l1.length = b.peers.length + 1 := by
    rw [hperm.length_eq]
    simp
  have hne : l1 ≠ [] := by
    intro h
    rw [h] at hlen
    simp at hlen
  have hnb : getNeighbors ⟨l1⟩ (getIndex ⟨l1⟩ peerID) = some (pr, su) := by
    have h := hreg
    rw [RegisterPeer_eq, ← hl1] at h
    cases hgn : getNeighbors ⟨l1⟩ (getIndex ⟨l1⟩ peerID) with
    | none => rw [hgn] at h; cases h
    | some r =>
      rw [hgn] at h
      obtain ⟨r1, r2⟩ := r
      simp only [Option.some.injEq, Prod.mk.injEq, true_and] at h
      rw [h.1, h.2]
  have hmem := getNeighbors_mem l1 _ pr su hnb
  obtain ⟨sends, hsends, hsub, hexact⟩ := notifyNeighbors_sends g ⟨l1⟩ peerID pr su hne
  refine ⟨⟨l1⟩, pr, su, sends, hreg, hlen, hsends, notifyRecipients_nodup _ _ _, hsub,
    hsub.nodup (notifyRecipients_nodup _ _ _), ?_, ?_, ?_, ?_⟩
  · intro hall
    exact hexact hall (hall pr hmem.1 su hmem.2)
  · intro h1 hc
    have hnil : b.peers = [] := List.length_eq_zero.mp (by simp only at h1; omega)
    have hbe : b = ⟨[]⟩ := by cases b; simp only at hnil; rw [hnil]
    rw [hbe, RegisterPeer_alone] at hreg
    simp only [Option.some.injEq, Prod.mk.injEq, Bootstrap.mk.injEq] at hreg
    obtain ⟨h1l, hpr, hsu⟩ := hreg
    rw [← h1l, ← hpr, ← hsu] at hsends
    obtain ⟨frame, len, hs, hr⟩ := sendRing_carried g peerID peerID peerID hc
    refine ⟨frame, len, ?_, hr⟩
    simp [notifyNeighbors, hs] at hsends
    exact hsends.symm
  · intro h2 hkeys hc
    have hone : b.peers.length = 1 := by simp only at h2; omega
    obtain ⟨other, hother⟩ := List.length_eq_one.mp hone
    have hbe : b = ⟨[other]⟩ := by cases b; simp only at hother; rw [hother]
    have hkey : extractNumber other ≠ extractNumber peerID :=
      hkeys other (by rw [hother]; exact List.mem_singleton_self _)
    have hop : other ≠ peerID := fun h => hkey (by rw [h])
    obtain ⟨l2, hreg2, hnb2⟩ := RegisterPeer_pair_distinct other peerID hkey
    rw [hbe, hreg2] at hreg
    simp only [Option.some.injEq, Prod.mk.injEq, Bootstrap.mk.injEq] at hreg
    obtain ⟨h1l, hpr, hsu⟩ := hreg
    rw [← hpr, ← hsu] at hsends
    rw [h1l] at hnb2
    have hpm : peerID ∈ l1 := hperm.symm.subset (by simp)
    have hom : other ∈ l1 := hperm.symm.subset (by rw [hother]; simp)
    obtain ⟨frame1, len1, hs1, hr1⟩ := sendRing_carried g peerID other other
      (hc other hom)
    obtain ⟨frame2, len2, hs2, hr2⟩ := sendRing_carried g other peerID peerID
      (hc peerID hpm)
    refine ⟨other, frame1, len1, frame2, len2, hother, ?_, hr1, hr2⟩
    simp [notifyNeighbors, hs1, hs2, hnb2, hop] at hsends
    exact hsends.symm
  · intro h2 hkeys hc
    have hone : b.peers.length = 1 := by simp only at h2; omega
    obtain ⟨other, hother⟩ := List.length_eq_one.mp hone
    have hbe : b = ⟨[other]⟩ := by cases b; simp only at hother; rw [hother]
    have hkey : extractNumber other = extractNumber peerID :=
      hkeys other (by rw [hother]; exact List.mem_singleton_self _)
    rw [hbe, RegisterPeer_pair_equal other peerID hkey] at hreg
    simp only [Option.some.injEq, Prod.mk.injEq, Bootstrap.mk.injEq] at hreg
    obtain ⟨h1l, hpr, hsu⟩ := hreg
    rw [← hpr, ← hsu] at hsends
    obtain ⟨frame, len, hs, hr⟩ := sendRing_carried g peerID peerID peerID hc
    refine ⟨frame, len, ?_, hr⟩
    simp [notifyNeighbors, hs] at hsends
    exact hsends.symm

/-- The distinct-key cases under `plainGob`. Registered into the empty ring, `n10` gets the one
frame, which names `n10` twice; registered into the ring of `n10`, `n20` gets a frame naming
`n10` twice and `n10` gets a frame naming `n20` twice. -/
theorem notifyNeighbors_dedup_witness :
    (∃ frame len,
      notifyNeighbors plainGob { peers := [str "n10"] } (str "n10") (str "n10") (str "n10")
        = some [{ dest := str "n10", message := frame }] ∧
      ReadMessage plainGob frame
        = .ok ({ Header := { MsgType := RING, Length := len },
                 Payload := .ring { Predecessor := str "n10", Successor := str "n10" } },
               [])) ∧
    (∃ frame1 len1 frame2 len2,
      notifyNeighbors plainGob { peers := [str "n10", str "n20"] } (str "n20") (str "n10")
          (str "n10")
        = some [{ dest := str "n20", message := frame1 },
                { dest := str "n10", message := frame2 }] ∧
      ReadMessage plainGob frame1
        = .ok ({ Header := { MsgType := RING, Length := len1 },
                 Payload := .ring { Predecessor := str "n10", Successor := str "n10" } },
               []) ∧
      ReadMessage plainGob frame2
        = .ok ({ Header := { MsgType := RING, Length := len2 },
                 Payload := .ring { Predecessor := str "n20", Successor := str "n20" } },
               [])) := by
  constructor
  · obtain ⟨b1, pr, su, sends, hreg, _, hsends, _, _, _, _, h1, _, _⟩ :=
      notifyNeighbors_dedup plainGob { peers := [] } (str "n10")
    have hreg1 : RegisterPeer { peers := [] } (str "n10")
        = some ({ peers := [str "n10"] }, str "n10", str "n10") := by decide
    rw [hreg1] at hreg
    simp only [Option.some.injEq, Prod.mk.injEq] at hreg
    obtain ⟨hb, hp, hs⟩ := hreg
    subst hb hp hs
    obtain ⟨frame, len, hs, hr⟩ := h1 rfl (plainGob_carries_ring _ _ (by decide) (by decide))
    exact ⟨frame, len, by rw [hsends, hs], hr⟩
  · obtain ⟨b1, pr, su, sends, hreg, _, hsends, _, _, _, _, _, h2, _⟩ :=
      notifyNeighbors_dedup plainGob { peers := [str "n10"] } (str "n20")
    have hreg2 : RegisterPeer { peers := [str "n10"] } (str "n20")
        = some ({ peers := [str "n10", str "n20"] }, str "n10", str "n10") := by decide
    rw [hreg2] at hreg
    simp only [Option.some.injEq, Prod.mk.injEq] at hreg
    obtain ⟨hb, hp, hs⟩ := hreg
    subst hb hp hs
    obtain ⟨other, frame1, len1, frame2, len2, hother, hs, hr1, hr2⟩ :=
      h2 rfl (by decide) (by
        intro p hp
        have hlen : p.length < 2 ^ 30 := by
          simp only [List.mem_cons, List.mem_singleton, List.not_mem_nil, or_false] at hp
          rcases hp with rfl | rfl <;> decide
        exact plainGob_carries_ring p p hlen hlen)
    have ho : other = str "n10" := by
      simp only [List.cons.injEq, and_true] at hother
      exact hother.symm
    subst ho
    exact ⟨frame1, len1, frame2, len2, by rw [hsends, hs], hr1, hr2⟩

/-- Claim C12, on the input where the code departs from it. The ring of `n1` is reached by
one registration. Registering `n01` (key 1 as well) gives the ring `n1, n01` of size 2, in which
the new peer stands at index 1, with `n1` as both its neighbours. The search of `RegisterPeer`
("find index of the new peer") returns index 0 instead, the position of `n1`, so the pair
returned is `(n01, n01)`, and `notifyNeighbors` sends one RingInfo only, to `n01`, naming `n01`
as both its neighbours: `n1` is not notified, where the claim has two notifications, one to
each peer. With the pair of the new peer's own index, `notifyNeighbors` does send the two. -/
theorem notifyNeighbors_single_on_equal_keys :
    registerAll NewBootstrap [str "n1"] = some { peers := [str "n1"] } ∧
    RegisterPeer { peers := [str "n1"] } (str "n01")
      = some ({ peers := [str "n1", str "n01"] }, str "n01", str "n01") ∧
    ([str "n1", str "n01"] : List GoString).indexOf (str "n01") = 1 ∧
    getIndex { peers := [str "n1", str "n01"] } (str "n01") = 0 ∧
    getNeighbors { peers := [str "n1", str "n01"] } 0 = some (str "n01", str "n01") ∧
    getNeighbors { peers := [str "n1", str "n01"] } 1 = some (str "n1", str "n1") ∧
    (notifyNeighbors plainGob { peers := [str "n1", str "n01"] } (str "n01") (str "n01")
        (str "n01")).map (fun sends => sends.map (fun s => s.dest))
      = some [str "n01"] ∧
    (notifyNeighbors plainGob { peers := [str "n1", str "n01"] } (str "n01") (str "n01")
        (str "n01")).bind
        (fun sends => (sends.head?).map (fun s => (ReadMessage plainGob s.message).map
          (fun r => r.1.Payload)))
      = some (.ok (.ring { Predecessor := str "n01", Successor := str "n01" })) ∧
    (notifyNeighbors plainGob { peers := [str "n1", str "n01"] } (str "n01") (str "n1")
        (str "n1")).map (fun sends => sends.map (fun s => s.dest))
      = some [str "n01", str "n1"] := by
  decide

/-! ## Requests above every key -/

/-- A request above every key goes round: after `k` deliveries the frame is pending at the
node at position `k % n`, every node is as it was and nothing has left the ring. -/
theorem run_cycling (g : Gob) (ns : List Node) (req : RequestMessage) (frame : Bytes)
    (len : Nat) (first : Node)
    (hfirst : ns[0]? = some first)
    (hwf : ∀ node ∈ ns, ∃ rest, node.peer.ID = chN :: rest)
    (hnd : ns.Pairwise (fun a b => a.peer.ID ≠ b.peer.ID))
    (hlinks : SuccessorsMatch ns)
    (hop : req.OperationType = STORE ∨ req.OperationType = RETRIEVE)
    (hbuild : buildFrame g (.request req) = .ok frame)
    (hread : ReadMessage g frame
      = .ok ({ Header := { MsgType := REQUEST, Length := len }, Payload := .request req }, []))
    (habove : ∀ node ∈ ns, node.key < req.ObjectID) :
    ∀ k, ∃ node, ns[k % ns.length]? = some node ∧
      Network.run g k (Network.start ns [{ dest := first.peer.ID, message := frame }])
        = some { nodes := ns, pending := [{ dest := node.peer.ID, message := frame }],
                 outside := [],
                 trace := (List.range k).filterMap
                   (fun i => (ns[i % ns.length]?).map (fun m => m.peer.ID)) } := by
  intro k
  induction k with
  | zero =>
    exact ⟨first, by rw [Nat.zero_mod]; exact hfirst, by simp [Network.run, Network.start]⟩
  | succ k ih =>
    obtain ⟨node, hnode, hrun⟩ := ih
    obtain ⟨next, hnext, hsucc⟩ := successor_of_match ns hlinks (k % ns.length) node hnode
    rw [Nat.mod_add_mod] at hnext
    obtain ⟨rest, hid⟩ := hwf node (List.getElem?_mem hnode)
    obtain ⟨rest1, hid1⟩ := hwf next (List.getElem?_mem hnext)
    have hsne : node.peer.Successor ≠ [] := by
      rw [hsucc, hid1]
      simp
    have hrecv := receive_forwards g node req frame len rest hid
      (habove node (List.getElem?_mem hnode)) hsne hop hbuild hread
    refine ⟨next, hnext, ?_⟩
    rw [run_succ_last, hrun, Option.some_bind]
    rw [step_deliver g _ { dest := node.peer.ID, message := frame } [] node node
      [{ dest := node.peer.Successor, message := frame }] rfl
      (find_node ns hnd (k % ns.length) node hnode) hrecv]
    simp only [setNode_eq_set ns hnd (k % ns.length) node node hnode,
      set_self ns (k % ns.length) node hnode, List.nil_append, hsucc, List.range_succ,
      List.filterMap_append, List.filterMap_cons, List.filterMap_nil, hnode, Option.map_some']

/-- Claim C13. Unbounded cycling. In a ring `ns` of `n ≥ 1` peer processes whose identifiers
start with `n`, listed in strictly increasing order of key, with Successor pointers that match
the ring, let a Store or Retrieve request whose objectID is greater than every node's key be
relayed by the coordinator. Then the coordinator sends the request frame to the lowest-key
node, the frame reads as the request, and for every number `k` of deliveries: the node at
position `k % n` answers the frame by exactly one send, of the same frame to its Successor,
which is the node at position `(k + 1) % n`, and keeps its state; after `k` deliveries the
frame is pending at the node at position `k % n`, after `k + 1` at that node's Successor; and
in both states every node (its links and its log) is as at the start, nothing else is pending,
and no frame has been delivered outside the ring. -/
theorem request_cycles_unanswered (g : Gob) (ns : List Node) (req : RequestMessage)
    (hne : ns ≠ [])
    (hwf : WellFormedIDs ns)
    (hsorted : (ns.map Node.key).Pairwise (· < ·))
    (hlinks : SuccessorsMatch ns)
    (hop : req.OperationType = STORE ∨ req.OperationType = RETRIEVE)
    (habove : ∀ node ∈ ns, node.key < req.ObjectID)
    (hcarry : g.Carries (.request req)) :
    ∃ first frame len,
      ns[0]? = some first ∧
      relayRequest g { peers := ns.map (fun node => node.peer.ID) } req
        = some [{ dest := first.peer.ID, message := frame }] ∧
      ReadMessage g frame
        = .ok ({ Header := { MsgType := REQUEST, Length := len }, Payload := .request req },
               []) ∧
      ∀ k, ∃ node next,
        ns[k % ns.length]? = some node ∧
        ns[(k + 1) % ns.length]? = some next ∧
        node.peer.Successor = next.peer.ID ∧
        receive g node frame
          = some (node, [{ dest := node.peer.Successor, message := frame }]) ∧
        Network.run g k (Network.start ns [{ dest := first.peer.ID, message := frame }])
          = some { nodes := ns, pending := [{ dest := node.peer.ID, message := frame }],
                   outside := [],
                   trace := (List.range k).filterMap
                     (fun i => (ns[i % ns.length]?).map (fun m => m.peer.ID)) } ∧
        Network.run g (k + 1)
            (Network.start ns [{ dest := first.peer.ID, message := frame }])
          = some { nodes := ns,
                   pending := [{ dest := node.peer.Successor, message := frame }],
                   outside := [],
                   trace := (List.range (k + 1)).filterMap
                     (fun i => (ns[i % ns.length]?).map (fun m => m.peer.ID)) } := by
  have hwf1 := id_cons_of_wellFormed ns hwf
  have hnd := distinct_ids_of_sorted ns hsorted
  obtain ⟨frame, len, hbuild, hread⟩ := hcarry.frame
  have hb : GetRequestMessage g req.ReqID req.OperationType req.ObjectID req.ClientID
      = .ok frame := hbuild
  have hpos : 0 < ns.length := List.length_pos.mpr hne
  obtain ⟨first, hfirst⟩ : ∃ first, ns[0]? = some first :=
    ⟨_, List.getElem?_eq_getElem hpos⟩
  have hcycle := run_cycling g ns req frame len first hfirst hwf1 hnd hlinks hop hbuild hread
    habove
  refine ⟨first, frame, len, hfirst, ?_, hread, ?_⟩
  · have hhead : (ns.map (fun node => node.peer.ID)).head? = some first.peer.ID := by
      rw [List.head?_eq_getElem?, List.getElem?_map, hfirst]
      rfl
    simp only [relayRequest, hb, GetFirstPeer, hhead]
  · intro k
    obtain ⟨node, hnode, hrun⟩ := hcycle k
    obtain ⟨next, hnext, hrun1⟩ := hcycle (k + 1)
    obtain ⟨next1, hnext1, hsucc⟩ := successor_of_match ns hlinks (k % ns.length) node hnode
    rw [Nat.mod_add_mod, hnext] at hnext1
    cases hnext1
    obtain ⟨rest, hid⟩ := hwf1 node (List.getElem?_mem hnode)
    obtain ⟨rest1, hid1⟩ := hwf1 next (List.getElem?_mem hnext)
    have hsne : node.peer.Successor ≠ [] := by
      rw [hsucc, hid1]
      simp
    refine ⟨node, next, hnode, hnext, hsucc, ?_, hrun, ?_⟩
    · exact receive_forwards g node req frame len rest hid
        (habove node (List.getElem?_mem hnode)) hsne hop hbuild hread
    · rw [hsucc]
      exact hrun1

/-- Claim C13 at the ring with keys 10, 20, 30 and the client's test case 5, a Retrieve of
objectID 110, under `plainGob`. -/
theorem request_cycles_unanswered_witness :
    exampleRing ≠ [] ∧ WellFormedIDs exampleRing ∧
    (exampleRing.map Node.key).Pairwise (· < ·) ∧ SuccessorsMatch exampleRing ∧
    (exampleRetrieve.OperationType = STORE ∨ exampleRetrieve.OperationType = RETRIEVE) ∧
    (∀ node ∈ exampleRing, node.key < exampleRetrieve.ObjectID) ∧
    plainGob.Carries (.request exampleRetrieve) ∧
    ∃ first frame len,
      exampleRing[0]? = some first ∧
      relayRequest plainGob { peers := exampleRing.map (fun node => node.peer.ID) }
          exampleRetrieve
        = some [{ dest := first.peer.ID, message := frame }] ∧
      ReadMessage plainGob frame
        = .ok ({ Header := { MsgType := REQUEST, Length := len },
                 Payload := .request exampleRetrieve }, []) ∧
      ∀ k, ∃ node next,
        exampleRing[k % exampleRing.length]? = some node ∧
        exampleRing[(k + 1) % exampleRing.length]? = some next ∧
        node.peer.Successor = next.peer.ID ∧
        receive plainGob node frame
          = some (node, [{ dest := node.peer.Successor, message := frame }]) ∧
        Network.run plainGob k
            (Network.start exampleRing [{ dest := first.peer.ID, message := frame }])
          = some { nodes := exampleRing,
                   pending := [{ dest := node.peer.ID, message := frame }],
                   outside := [],
                   trace := (List.range k).filterMap
                     (fun i => (exampleRing[i % exampleRing.length]?).map
                       (fun m => m.peer.ID)) } ∧
        Network.run plainGob (k + 1)
            (Network.start exampleRing [{ dest := first.peer.ID, message := frame }])
          = some { nodes := exampleRing,
                   pending := [{ dest := node.peer.Successor, message := frame }],
                   outside := [],
                   trace := (List.range (k + 1)).filterMap
                     (fun i => (exampleRing[i % exampleRing.length]?).map
                       (fun m => m.peer.ID)) } :=
  ⟨by decide, by decide, by decide, by decide, by decide, by decide,
    ⟨_, rfl, by decide, by decide⟩,
    request_cycles_unanswered plainGob exampleRing exampleRetrieve (by decide) (by decide)
      (by decide) (by decide) (by decide) (by decide) ⟨_, rfl, by decide, by decide⟩⟩

/-- The example of claim C13, evaluated: in the ring with keys 10, 20, 30 the Retrieve of
objectID 110 that enters at `n10` is received by `n10`, `n20`, `n30` and then `n10`, `n20`,
`n30`, `n10` again; after these seven deliveries the same frame is pending at `n20`, no node
has a log, and no frame has left the ring. -/
theorem cycling_example :
    ∃ frame, GetRequestMessage plainGob 1 RETRIEVE 110 3 = .ok frame ∧
      Network.run plainGob 7
          (Network.start exampleRing [{ dest := str "n10", message := frame }])
        = some { nodes := exampleRing,
                 pending := [{ dest := str "n20", message := frame }],
                 outside := [],
                 trace := [str "n10", str "n20", str "n30", str "n10", str "n20",
                           str "n30", str "n10"] } :=
  ⟨[2, 25, 0, 0, 0, 1, 0, 0, 0, 0, 0, 0, 0, 1, 110, 0, 0, 0, 0, 0, 0, 0, 3, 0, 0, 0, 0, 0, 0,
    0],
   by decide, by decide⟩

end DHT
